import Mathlib

/-!
# simple-download-manager: collections, admission, persistence and transfers

A shallow embedding of `src/core/DownloadManager.cpp`, `src/core/DownloadTask.cpp`,
`src/aux/ThreadPool.cpp` and `src/util/file.cpp`.

Modelling conventions

* A `std::shared_ptr<DownloadTask>` is a `TaskId`; the objects live in `DownloadManager.heap`.
  `std::find` on a vector of shared pointers compares identities, hence `List.erase` on ids.
* Manager operations run on the owning thread and are modelled as functions on the manager
  state.  What a worker thread does to a task (`DownloadTask::run`) is a separate step on the
  heap, so a state in which a job has been enqueued but not yet started is an ordinary state.
* `double` values are modelled by the rational they denote.  This is exact for the values the
  program stores in the byte counters (sums of `curl_off_t` counters and file sizes, below `2^53`).
* `int` is 32 bit and `time_t` is 64 bit; the only place where the width matters is stream
  extraction, which fails on a value outside the range.
* Stream formatting and extraction follow the GNU C++ library in the classic locale.
-/

namespace SDM

/-! ## DownloadTask.hpp -/

/-- Enumeration `DownloadStatus` of `DownloadTask.hpp`, in declaration order. -/
inductive DownloadStatus
  | QUEUED
  | ACTIVE
  | PAUSED
  | COMPLETED
  | FAILED
  | CANCELED
  deriving DecidableEq, Repr

/-- Value of `CURLE_OK`. -/
def CURLE_OK : Int := 0

/-- Fields of class `DownloadTask`, with the default member initialisers of the header. -/
structure DownloadTask where
  url : String
  destination : String := ""
  addedAt : Int := 0
  endedAt : Int := 0
  totalBytes : ℚ := 0
  bytesDownloaded : ℚ := 0
  progress : ℚ := 0
  resumeOffset : ℚ := 0
  status : DownloadStatus := DownloadStatus.QUEUED
  httpStatus : Int := 0
  errorCode : Int := CURLE_OK
  resumeEnabled : Bool := false
  cancelRequested : Bool := false
  startTime : Int := 0
  speedSamples : List (Int × ℚ) := []
  deriving DecidableEq

/-- Constructor `DownloadTask::DownloadTask(url)`. -/
def DownloadTask.new (url : String) : DownloadTask := { url := url }

/-- Method `DownloadTask::resume`: only raises the resume flag. -/
def DownloadTask.resume (t : DownloadTask) : DownloadTask := { t with resumeEnabled := true }

/-- Head of `DownloadTask::run`: the guard that returns for a task already `ACTIVE` or
`COMPLETED`, then the assignments of `_startTime` and `_status`. -/
def DownloadTask.runBegin (now : Int) (t : DownloadTask) : DownloadTask :=
  if t.status = .COMPLETED ∨ t.status = .ACTIVE then t
  else { t with startTime := now, status := .ACTIVE }

/-! ## DownloadTask.cpp: the steps of `run` -/

/-- Value of `CURLE_FAILED_INIT`. -/
def CURLE_FAILED_INIT : Int := 2

/-- Value of `CURLE_WRITE_ERROR`. -/
def CURLE_WRITE_ERROR : Int := 23

/-- Value of `CURLE_ABORTED_BY_CALLBACK`, the result of a transfer whose progress callback
returned non-zero. -/
def CURLE_ABORTED_BY_CALLBACK : Int := 42

/-- Method `DownloadTask::isPaused`. -/
def DownloadTask.isPaused (t : DownloadTask) : Bool := t.status = .PAUSED

/-- Method `DownloadTask::isFailed`. -/
def DownloadTask.isFailed (t : DownloadTask) : Bool := t.status = .FAILED

/-- Method `DownloadTask::isCanceled`. -/
def DownloadTask.isCanceled (t : DownloadTask) : Bool := t.status = .CANCELED

/-- The files on disk with their sizes in bytes. -/
abbrev Disk := List (String × Nat)

/-- Call `stat(path)`: the size of the file, if there is one. -/
def Disk.stat (d : Disk) (path : String) : Option Nat :=
  (d.find? (fun e => e.1 = path)).map (fun e => e.2)

/-- Call `std::remove(path)`. -/
def Disk.remove (d : Disk) (path : String) : Disk := d.filter (fun e => e.1 ≠ path)

/-- Method `DownloadTask::onDownloadPause`. -/
def DownloadTask.onDownloadPause (t : DownloadTask) (d : Disk) : DownloadTask × Disk :=
  ({ t with status := .PAUSED }, d)

/-- Method `DownloadTask::onDownloadCancel`: the status, and the removal of the destination
file. -/
def DownloadTask.onDownloadCancel (t : DownloadTask) (d : Disk) : DownloadTask × Disk :=
  ({ t with status := .CANCELED }, d.remove t.destination)

/-- Method `DownloadTask::onDownloadComplete`, at time `now`. -/
def DownloadTask.onDownloadComplete (now : Int) (t : DownloadTask) (d : Disk) :
    DownloadTask × Disk :=
  ({ t with status := .COMPLETED, progress := 100, endedAt := now }, d)

/-- Method `DownloadTask::onDownloadError`, at time `now`. -/
def DownloadTask.onDownloadError (errorCode : Int) (now : Int) (t : DownloadTask) (d : Disk) :
    DownloadTask × Disk :=
  ({ t with errorCode := errorCode, status := .FAILED, endedAt := now }, d)

/-- Method `DownloadTask::recordSpeedSample`: append the sample, then drop from the front the
samples older than ten seconds. -/
def DownloadTask.recordSpeedSample (timestamp : Int) (bytesDownloaded : ℚ) (t : DownloadTask) :
    DownloadTask :=
  let cutoff : ℚ := (timestamp : ℚ) - 10
  let pushed := t.speedSamples ++ [(timestamp, bytesDownloaded)]
  { t with speedSamples := pushed.dropWhile (fun p => decide ((p.1 : ℚ) < cutoff)) }

/-- Function `curlProgressCallback` for the task passed as client data, called at time `now`
with the transport counters `dltotal` and `dlnow`: the return value and the task afterwards. -/
def curlProgressCallback (now dltotal dlnow : Int) (t : DownloadTask) : Int × DownloadTask :=
  if t.isPaused || t.isCanceled then (1, t)
  else
    let downloadedBytesSoFar : ℚ := (dlnow : ℚ) + t.resumeOffset
    let totalBytesSoFar : ℚ := (dltotal : ℚ) + t.resumeOffset
    let t1 : DownloadTask :=
      if 0 < totalBytesSoFar ∧ t.totalBytes < totalBytesSoFar then
        { t with totalBytes := totalBytesSoFar }
      else t
    let t2 : DownloadTask :=
      if 0 < t1.totalBytes then
        { t1 with progress :=
            if 100 < downloadedBytesSoFar / t1.totalBytes * 100 then 100
            else downloadedBytesSoFar / t1.totalBytes * 100 }
      else t1
    (0, ({ t2 with bytesDownloaded := downloadedBytesSoFar }).recordSpeedSample now
          downloadedBytesSoFar)

/-- Method `DownloadTask::configureResume`, given the result of `stat` on the destination: the
task afterwards, and the offset passed to the transport as `CURLOPT_RESUME_FROM_LARGE`, if
any. -/
def DownloadTask.configureResume (fileSize : Option Nat) (t : DownloadTask) :
    DownloadTask × Option Nat :=
  match fileSize with
  | none => (t, none)
  | some resumeFrom =>
    if 0 < resumeFrom then
      let t1 : DownloadTask :=
        { t with resumeOffset := (resumeFrom : ℚ), bytesDownloaded := (resumeFrom : ℚ) }
      if 0 < t1.totalBytes ∧ (resumeFrom : ℚ) < t1.totalBytes then
        ({ t1 with progress := (resumeFrom : ℚ) / t1.totalBytes * 100 }, some resumeFrom)
      else (t1, some resumeFrom)
    else (t, none)

/-- Tail of `DownloadTask::run` once `curl_easy_perform` has returned `res`: the HTTP status is
stored, then the outcome decides among the four handlers. -/
def DownloadTask.runEnd (res httpStatus now : Int) (t : DownloadTask) (d : Disk) :
    DownloadTask × Disk :=
  if res = CURLE_OK then ({ t with httpStatus := httpStatus }).onDownloadComplete now d
  else if t.isPaused then ({ t with httpStatus := httpStatus }).onDownloadPause d
  else if t.isCanceled then ({ t with httpStatus := httpStatus }).onDownloadCancel d
  else ({ t with httpStatus := httpStatus }).onDownloadError res now d

/-- What can happen to a task object, one step at a time: the steps of `run` on the worker
thread, and the two writes the manager thread makes to a task (`setStatus` in
`updateTaskStatus`, and `resume`). -/
inductive RunStep
  | start (now : Int)
  | initFailed (now : Int)
  | openFailed (now : Int)
  | resume (fileSize : Option Nat)
  | progress (now dltotal dlnow : Int)
  | finish (res httpStatus now : Int)
  | setStatus (st : DownloadStatus)
  | resumeFlag

/-- Effect of a step on the task.  `initFailed` and `openFailed` are the two early returns of
`run` through `onDownloadError`; `resume` is the call of `configureResume` that `run` makes when
the resume flag is set. -/
def RunStep.apply : RunStep → DownloadTask → DownloadTask
  | .start now, t => t.runBegin now
  | .initFailed now, t => (t.onDownloadError CURLE_FAILED_INIT now []).1
  | .openFailed now, t => (t.onDownloadError CURLE_WRITE_ERROR now []).1
  | .resume fileSize, t => if t.resumeEnabled then (t.configureResume fileSize).1 else t
  | .progress now dltotal dlnow, t => (curlProgressCallback now dltotal dlnow t).2
  | .finish res httpStatus now, t => (t.runEnd res httpStatus now []).1
  | .setStatus st, t => { t with status := st }
  | .resumeFlag, t => t.resume

/-- The transport counters of a progress step are not negative. -/
def RunStep.CountersNonneg : RunStep → Prop
  | .progress _ dltotal dlnow => 0 ≤ dltotal ∧ 0 ≤ dlnow
  | _ => True

/-- The step is one of the two writes of the manager thread. -/
def RunStep.IsManagerWrite : RunStep → Prop
  | .setStatus _ => True
  | .resumeFlag => True
  | _ => False

instance (step : RunStep) : Decidable step.IsManagerWrite := by
  cases step <;> unfold RunStep.IsManagerWrite <;> infer_instance

instance (step : RunStep) : Decidable step.CountersNonneg := by
  cases step <;> unfold RunStep.CountersNonneg <;> infer_instance

/-- The task after a sequence of steps. -/
def runSteps (steps : List RunStep) (t : DownloadTask) : DownloadTask :=
  steps.foldl (fun acc step => step.apply acc) t

/-- A sequence of `recordSpeedSample` calls, each with its timestamp and byte count. -/
def recordAll (calls : List (Int × ℚ)) (t : DownloadTask) : DownloadTask :=
  calls.foldl (fun acc call => acc.recordSpeedSample call.1 call.2) t

/-- The progress value is a percentage and the resume offset is not negative. -/
def DownloadTask.ProgressInRange (t : DownloadTask) : Prop :=
  0 ≤ t.progress ∧ t.progress ≤ 100 ∧ 0 ≤ t.resumeOffset

instance (t : DownloadTask) : Decidable t.ProgressInRange := by
  unfold DownloadTask.ProgressInRange
  infer_instance

/-! ## ThreadPool -/

/-- Identity of a task object (the address held by a `shared_ptr`). -/
abbrev TaskId := Nat

/-- Worker pool: the number of worker threads and the FIFO of submitted jobs; every job the
manager submits is `task->run()` for one task, so a job is recorded as that task. -/
structure ThreadPool where
  workers : Nat
  tasks : List TaskId := []
  deriving DecidableEq

/-- Method `ThreadPool::size`. -/
def ThreadPool.size (p : ThreadPool) : Nat := p.workers

/-- Method `ThreadPool::enqueue`. -/
def ThreadPool.enqueue (p : ThreadPool) (job : TaskId) : ThreadPool :=
  { p with tasks := p.tasks ++ [job] }

/-! ## util/file.cpp -/

/-- Function `fileExists`, over the list of paths present on disk. -/
def fileExists (files : List String) (path : String) : Bool := files.contains path

/-- Split at the last dot as `getUniqueFilename` does: `find_last_of`, the two `substr` calls and
the empty-base fallback. -/
def splitExtension (originalPath : String) : String × String :=
  match originalPath.data.reverse.span (fun c => c != '.') with
  | (_, []) => (originalPath, "")
  | (extRev, _ :: baseRev) =>
    if baseRev.isEmpty then (originalPath, "")
    else (String.mk baseRev.reverse, String.mk ('.' :: extRev.reverse))

/-- Candidate loop of `getUniqueFilename`, started at `counter`; `fuel` bounds the iterations. -/
def uniqueLoop (files : List String) (base extension : String) : Nat → Nat → String
  | 0, counter => base ++ "__" ++ String.mk (Nat.toDigits 10 counter) ++ extension
  | fuel + 1, counter =>
    let candidate := base ++ "__" ++ String.mk (Nat.toDigits 10 counter) ++ extension
    if !fileExists files candidate then candidate
    else uniqueLoop files base extension fuel (counter + 1)

/-- Function `getUniqueFilename`.  Among `files.length + 1` distinct candidates one is free, so
that many iterations are enough. -/
def getUniqueFilename (files : List String) (originalPath : String) : String :=
  if !fileExists files originalPath then originalPath
  else
    let be := splitExtension originalPath
    uniqueLoop files be.1 be.2 files.length 1

/-- The string `candidate` of `getUniqueFilename` for a value of `counter`. -/
def candidateName (base extension : String) (counter : Nat) : String :=
  base ++ "__" ++ String.mk (Nat.toDigits 10 counter) ++ extension

/-- The split of a path in the words of the specification: the extension is the part of the
path from its last dot and the base the part before it; a path without dot has no extension. -/
def splitAtLastDot (path : String) : String × String :=
  match path.data.reverse.span (fun c => c != '.') with
  | (_, []) => (path, "")
  | (extRev, _ :: baseRev) => (String.mk baseRev.reverse, String.mk ('.' :: extRev.reverse))

/-! ## Stream insertion (`operator<<`) as used by `saveState` -/

/-- Delimiter of `std::quoted`. -/
def quoteDelim : Char := Char.ofNat 34

/-- Escape character of `std::quoted`. -/
def quoteEscape : Char := Char.ofNat 92

/-- Body of a `std::quoted` insertion: delimiter and escape characters get an escape in front. -/
def escapeChars : List Char → List Char
  | [] => []
  | c :: cs =>
    if c = quoteDelim ∨ c = quoteEscape then quoteEscape :: c :: escapeChars cs
    else c :: escapeChars cs

/-- Insertion of `std::quoted(s)`. -/
def fmtQuoted (s : List Char) : List Char := quoteDelim :: (escapeChars s ++ [quoteDelim])

/-- Insertion of an `int` or `long` (decimal, no padding). -/
def fmtInt (i : Int) : List Char :=
  if i < 0 then '-' :: Nat.toDigits 10 i.natAbs else Nat.toDigits 10 i.natAbs

/-- Round the positive fraction `p / q` to the nearest natural, ties to even. -/
def roundHalfEven (p q : Nat) : Nat :=
  let d := p / q
  let r := p % q
  if 2 * r < q then d else if q < 2 * r then d + 1 else if d % 2 = 0 then d else d + 1

/-- Least `k ≥ start` with `b ≤ a * 10^k`, searched for `fuel` steps. -/
def negExponent (a b : Nat) : Nat → Nat → Nat
  | 0, k => k
  | fuel + 1, k => if b ≤ a * 10 ^ k then k else negExponent a b fuel (k + 1)

/-- Decimal exponent of the positive fraction `a / b`: the `X` with `10^X ≤ a/b < 10^(X+1)`. -/
def decExponent (a b : Nat) : Int :=
  if b ≤ a then ((Nat.toDigits 10 (a / b)).length : Int) - 1
  else - (negExponent a b (Nat.toDigits 10 b).length 1 : Int)

/-- Six-digit decimal significand and exponent of the positive fraction `a / b`, rounded to
nearest-even as `printf` does: the value printed is `significand * 10^(exponent - 5)`. -/
def sixDigits (a b : Nat) : Nat × Int :=
  let x := decExponent a b
  let m :=
    if x ≤ 5 then roundHalfEven (a * 10 ^ (5 - x).toNat) b
    else roundHalfEven a (b * 10 ^ (x - 5).toNat)
  if m = 1000000 then (100000, x + 1) else (m, x)

/-- Remove trailing zeros, as the `%g` conversion does with the fractional digits. -/
def stripZeros (ds : List Char) : List Char := (ds.reverse.dropWhile (fun c => c = '0')).reverse

/-- A fractional part with its decimal point, or nothing when no digit is left. -/
def withPoint (fp : List Char) : List Char := if fp.isEmpty then [] else '.' :: fp

/-- Exponent digits of the `%e` style: at least two. -/
def expDigits (x : Nat) : List Char := if x < 10 then '0' :: Nat.toDigits 10 x else Nat.toDigits 10 x

/-- The `%g` conversion of the value `m * 10^(x - 5)` with a six-digit significand `m`: the
`%e` style for an exponent below -4 or from 6 on, the `%f` style otherwise, both without
trailing zeros. -/
def renderG (m : Nat) (x : Int) : List Char :=
  let ds := Nat.toDigits 10 m
  if x < -4 ∨ 6 ≤ x then
    ds.take 1 ++ withPoint (stripZeros (ds.drop 1))
      ++ 'e' :: (if x < 0 then '-' else '+') :: expDigits x.natAbs
  else if 0 ≤ x then
    ds.take (x.toNat + 1) ++ withPoint (stripZeros (ds.drop (x.toNat + 1)))
  else
    '0' :: withPoint (stripZeros (List.replicate ((-x).toNat - 1) '0' ++ ds))

/-- The `%g` conversion with precision 6 of the positive fraction `a / b`. -/
def fmtG (a b : Nat) : List Char := renderG (sixDigits a b).1 (sixDigits a b).2

/-- Insertion of a `double` with the default flags: `%g` with precision 6. -/
def fmtDouble (v : ℚ) : List Char :=
  if v = 0 then ['0']
  else if v < 0 then '-' :: fmtG v.num.natAbs v.den
  else fmtG v.num.natAbs v.den

/-- Value of the text that `fmtDouble` writes for `v`: `v` rounded to six significant decimal
digits. -/
def roundSix (v : ℚ) : ℚ :=
  if v = 0 then 0
  else
    (if v < 0 then -1 else 1) * ((sixDigits v.num.natAbs v.den).1 : ℚ)
      * (10 : ℚ) ^ ((sixDigits v.num.natAbs v.den).2 - 5)

/-- A whole, non-negative number below `2^53`: the values the transfer counters and file sizes
give to the byte fields, all of them exactly representable in a `double`. -/
def IsByteCount (v : ℚ) : Prop := v.den = 1 ∧ 0 ≤ v.num ∧ v.num < 2 ^ 53

instance (v : ℚ) : Decidable (IsByteCount v) := by
  unfold IsByteCount
  infer_instance

/-! ## Stream extraction (`operator>>`) as used by `loadState`

An extraction takes the unread characters and returns the value with the characters left, or
`none` when it sets `failbit`.  An extraction that meets the end of the input while it still needs
a character fails, which is also what the following extraction does once `eofbit` is set. -/

/-- Whitespace of the classic locale. -/
def isSpace (c : Char) : Bool :=
  c = ' ' || c = Char.ofNat 9 || c = Char.ofNat 10 || c = Char.ofNat 11 || c = Char.ofNat 12
    || c = Char.ofNat 13

/-- Decimal digit test. -/
def isDigit (c : Char) : Bool := '0' ≤ c && c ≤ '9'

/-- Value of a decimal digit character. -/
def digitVal (c : Char) : Nat := c.toNat - '0'.toNat

/-- Value of a run of decimal digits, most significant first, continuing from `acc`. -/
def digitsVal (acc : Nat) : List Char → Nat
  | [] => acc
  | c :: cs => digitsVal (acc * 10 + digitVal c) cs

/-- What the sentry of a formatted extraction does with `skipws` set. -/
def skipWs (cs : List Char) : List Char := cs.dropWhile isSpace

/-- Loop of the `std::quoted` extractor after the opening delimiter, run with `skipws` cleared:
an escape character makes the next character literal, an unescaped delimiter ends the string,
and the end of the input before that is a failure. -/
def quotedLoop : List Char → List Char → Option (List Char × List Char)
  | [], _ => none
  | [c], acc => if c = quoteEscape then none else if c = quoteDelim then some (acc, []) else none
  | c :: d :: cs, acc =>
    if c = quoteEscape then quotedLoop cs (acc ++ [d])
    else if c = quoteDelim then some (acc, d :: cs)
    else quotedLoop (d :: cs) (acc ++ [c])

/-- Extraction of `std::quoted(s)`: a first character other than the delimiter falls back to the
plain `std::string` extraction of one whitespace-delimited word. -/
def readQuoted (cs : List Char) : Option (List Char × List Char) :=
  match skipWs cs with
  | [] => none
  | c :: rest =>
    if c = quoteDelim then quotedLoop rest []
    else
      some ((c :: rest).takeWhile (fun x => !isSpace x),
            (c :: rest).dropWhile (fun x => !isSpace x))

/-- Optional sign in front of a number: `true` for a minus. -/
def readSign : List Char → Bool × List Char
  | c :: cs => if c = '-' then (true, cs) else if c = '+' then (false, cs) else (false, c :: cs)
  | [] => (false, [])

/-- Extraction of a signed decimal integer whose type holds the values `lo ≤ v ≤ hi`: sign,
digits, failure without a digit or on a value out of range. -/
def readInt (lo hi : Int) (cs : List Char) : Option (Int × List Char) :=
  let sr := readSign (skipWs cs)
  let ds := sr.2.takeWhile isDigit
  let rest := sr.2.dropWhile isDigit
  if ds.isEmpty then none
  else
    let v : Int := if sr.1 then - (digitsVal 0 ds : Int) else (digitsVal 0 ds : Int)
    if lo ≤ v ∧ v ≤ hi then some (v, rest) else none

/-- Extraction of an `int`. -/
def readInt32 (cs : List Char) : Option (Int × List Char) := readInt (-(2 ^ 31)) (2 ^ 31 - 1) cs

/-- Extraction of a `time_t` (`long`). -/
def readInt64 (cs : List Char) : Option (Int × List Char) := readInt (-(2 ^ 63)) (2 ^ 63 - 1) cs

/-- Magnitudes from here on convert to an infinity, which the extraction reports as a failure. -/
def doubleOverflow : ℚ := 2 ^ 1024 - 2 ^ 970

/-- Exponent part of a floating literal: the characters taken after the mantissa, and the
exponent, `none` when an exponent letter is not followed by digits (the conversion then rejects
the field).  The letter is only taken when the mantissa has a digit. -/
def readExponent (mantissa : Bool) : List Char → Option Int × List Char
  | c :: cs =>
    if (c = 'e' ∨ c = 'E') ∧ mantissa then
      let sr := readSign cs
      let ds := sr.2.takeWhile isDigit
      if ds.isEmpty then (none, sr.2.dropWhile isDigit)
      else (some (if sr.1 then - (digitsVal 0 ds : Int) else (digitsVal 0 ds : Int)),
            sr.2.dropWhile isDigit)
    else (some 0, c :: cs)
  | [] => (some 0, [])

/-- Fractional part of a floating literal: a decimal point and the digits after it, if the
next character is a decimal point. -/
def readFraction : List Char → List Char × List Char
  | c :: r => if c = '.' then (r.takeWhile isDigit, r.dropWhile isDigit) else ([], c :: r)
  | [] => ([], [])

/-- Extraction of a `double`: sign, digits, at most one decimal point, an exponent; the field
must have a mantissa digit, a complete exponent, and a finite value. -/
def readDouble (cs : List Char) : Option (ℚ × List Char) :=
  let sr := readSign (skipWs cs)
  let ip := sr.2.takeWhile isDigit
  let fr := readFraction (sr.2.dropWhile isDigit)
  let mantissa := !(ip.isEmpty && fr.1.isEmpty)
  let er := readExponent mantissa fr.2
  match er.1 with
  | none => none
  | some e =>
    if !mantissa then none
    else
      let m : ℚ := (digitsVal 0 (ip ++ fr.1) : ℚ) * (10 : ℚ) ^ (e - (fr.1.length : Int))
      if doubleOverflow ≤ m then none
      else some (if sr.1 then - m else m, er.2)

/-! ## DownloadManager.cpp: state and persistence -/

/-- Members of class `DownloadManager`, the task objects its pointers refer to (`heap`, with
`nextId` the next object to be allocated), and the state file at `_stateFilePath`: its content if
it can be opened for reading, and whether it can be opened for writing. -/
structure DownloadManager where
  heap : TaskId → DownloadTask
  nextId : TaskId
  threadPool : ThreadPool
  stateFile : Option (List Char)
  stateFileWritable : Bool
  queued : List TaskId
  active : List TaskId
  paused : List TaskId
  completed : List TaskId
  failed : List TaskId

/-- Function `statusToInt`: the ordinal of the enumerator. -/
def statusToInt : DownloadStatus → Int
  | .QUEUED => 0
  | .ACTIVE => 1
  | .PAUSED => 2
  | .COMPLETED => 3
  | .FAILED => 4
  | .CANCELED => 5

/-- The conversion `static_cast<DownloadStatus>(statusInt)` of `loadState`, for the integers that
name an enumerator.  Any other integer gives a value without enumerator, for which every `switch`
of the manager takes its `default` branch. -/
def castStatus (i : Int) : Option DownloadStatus :=
  if i = 0 then some .QUEUED
  else if i = 1 then some .ACTIVE
  else if i = 2 then some .PAUSED
  else if i = 3 then some .COMPLETED
  else if i = 4 then some .FAILED
  else if i = 5 then some .CANCELED
  else none

/-- One iteration of the loop in `writeContainer`, up to the line feed: the nine fields of a
task separated by single spaces. -/
def taskLine (t : DownloadTask) : List Char :=
  fmtQuoted t.url.data ++ [' '] ++ fmtQuoted t.destination.data ++ [' ']
    ++ fmtDouble t.bytesDownloaded ++ [' '] ++ fmtDouble t.totalBytes ++ [' ']
    ++ fmtInt (statusToInt t.status) ++ [' '] ++ fmtInt t.httpStatus ++ [' ']
    ++ fmtInt t.errorCode ++ [' '] ++ fmtInt t.addedAt ++ [' '] ++ fmtInt t.endedAt

/-- One iteration of the loop in `writeContainer`: the line written for a task. -/
def writeTask (t : DownloadTask) : List Char := taskLine t ++ [Char.ofNat 10]

/-- Lambda `writeContainer` of `saveState`. -/
def writeContainer (heap : TaskId → DownloadTask) : List TaskId → List Char
  | [] => []
  | task :: rest => writeTask (heap task) ++ writeContainer heap rest

/-- Text `saveState` writes: the five containers in the order queued, active, paused, completed,
failed. -/
def stateText (s : DownloadManager) : List Char :=
  writeContainer s.heap s.queued ++ writeContainer s.heap s.active
    ++ writeContainer s.heap s.paused ++ writeContainer s.heap s.completed
    ++ writeContainer s.heap s.failed

/-- Method `DownloadManager::saveState`: truncate and rewrite the file, or return at once when it
cannot be opened. -/
def saveState (s : DownloadManager) : DownloadManager :=
  if s.stateFileWritable then { s with stateFile := some (stateText s) } else s

/-- Method `addTaskToStatusContainer`. -/
def addTaskToStatusContainer (s : DownloadManager) (task : TaskId) : DownloadManager :=
  match (s.heap task).status with
  | .QUEUED => { s with queued := s.queued ++ [task] }
  | .ACTIVE => { s with active := s.active ++ [task] }
  | .PAUSED => { s with paused := s.paused ++ [task] }
  | .COMPLETED => { s with completed := s.completed ++ [task] }
  | .FAILED => { s with failed := s.failed ++ [task] }
  | .CANCELED => s

/-- Method `removeTaskFromCurrentContainer`: `std::find` and `erase` in the container selected
by the task's current status. -/
def removeTaskFromCurrentContainer (s : DownloadManager) (task : TaskId) : DownloadManager :=
  match (s.heap task).status with
  | .QUEUED => { s with queued := s.queued.erase task }
  | .ACTIVE => { s with active := s.active.erase task }
  | .PAUSED => { s with paused := s.paused.erase task }
  | .COMPLETED => { s with completed := s.completed.erase task }
  | .FAILED => { s with failed := s.failed.erase task }
  | .CANCELED => s

/-- Apply a mutation to one task object. -/
def modifyTask (s : DownloadManager) (task : TaskId) (f : DownloadTask → DownloadTask) :
    DownloadManager :=
  { s with heap := fun j => if j = task then f (s.heap j) else s.heap j }

/-- Expression `std::make_shared<DownloadTask>(...)`: a new object at the next free identity. -/
def allocTask (s : DownloadManager) (t : DownloadTask) : DownloadManager :=
  { s with heap := fun j => if j = s.nextId then t else s.heap j, nextId := s.nextId + 1 }

/-- Method `updateTaskStatus`. -/
def updateTaskStatus (s : DownloadManager) (task : TaskId) (newStatus : DownloadStatus) :
    DownloadManager :=
  let s1 := removeTaskFromCurrentContainer s task
  let s2 := modifyTask s1 task (fun t => { t with status := newStatus })
  let s3 := if newStatus ≠ .CANCELED then addTaskToStatusContainer s2 task else s2
  saveState s3

/-- The nine values `loadState` extracts from one line. -/
structure TaskRecord where
  url : List Char
  destination : List Char
  downloadedBytes : ℚ
  totalBytes : ℚ
  statusInt : Int
  httpStatus : Int
  errorCodeInt : Int
  addedAt : Int
  endedAt : Int
  deriving DecidableEq

/-- The chained extraction of `loadState`; `none` when the stream ends up failed. -/
def parseLine (line : List Char) : Option TaskRecord :=
  match readQuoted line with
  | none => none
  | some (url, r1) =>
  match readQuoted r1 with
  | none => none
  | some (destination, r2) =>
  match readDouble r2 with
  | none => none
  | some (downloadedBytes, r3) =>
  match readDouble r3 with
  | none => none
  | some (totalBytes, r4) =>
  match readInt32 r4 with
  | none => none
  | some (statusInt, r5) =>
  match readInt32 r5 with
  | none => none
  | some (httpStatus, r6) =>
  match readInt32 r6 with
  | none => none
  | some (errorCodeInt, r7) =>
  match readInt64 r7 with
  | none => none
  | some (addedAt, r8) =>
  match readInt64 r8 with
  | none => none
  | some (endedAt, _) =>
    some { url := url, destination := destination, downloadedBytes := downloadedBytes,
           totalBytes := totalBytes, statusInt := statusInt, httpStatus := httpStatus,
           errorCodeInt := errorCodeInt, addedAt := addedAt, endedAt := endedAt }

/-- The task `loadState` builds from a record whose status integer names the enumerator `st`. -/
def TaskRecord.toTask (r : TaskRecord) (st : DownloadStatus) : DownloadTask :=
  { url := String.mk r.url, destination := String.mk r.destination,
    bytesDownloaded := r.downloadedBytes, totalBytes := r.totalBytes, status := st,
    httpStatus := r.httpStatus, errorCode := r.errorCodeInt, addedAt := r.addedAt,
    endedAt := r.endedAt }

/-- Tail of the loop body of `loadState`: build the task and file it by its own status.  A status
without enumerator takes the `default` branch of `addTaskToStatusContainer`, as `CANCELED` does:
the task is stored nowhere and dies with the iteration. -/
def loadRecord (s : DownloadManager) (r : TaskRecord) : DownloadManager :=
  match castStatus r.statusInt with
  | none => s
  | some st => addTaskToStatusContainer (allocTask s (r.toTask st)) s.nextId

/-- The successive results of `std::getline`: the text is cut at every line feed, and no line is
produced when the end of the text is met before any character. -/
def splitLines : List Char → List Char → List (List Char)
  | cur, [] => if cur.isEmpty then [] else [cur.reverse]
  | cur, c :: cs =>
    if c = Char.ofNat 10 then cur.reverse :: splitLines [] cs else splitLines (c :: cur) cs

/-- The `while (std::getline(...))` loop of `loadState` over the lines still to be read: an empty
line is skipped, a line that fails to parse ends the loop. -/
def loadLines : List (List Char) → DownloadManager → DownloadManager
  | [], s => s
  | line :: rest, s =>
    if line.isEmpty then loadLines rest s
    else
      match parseLine line with
      | none => s
      | some r => loadLines rest (loadRecord s r)

/-- Method `DownloadManager::loadState`. -/
def loadState (s : DownloadManager) : DownloadManager :=
  match s.stateFile with
  | none => s
  | some content => loadLines (splitLines [] content) s

/-- Constructor `DownloadManager::DownloadManager`, for a pool of `workers` threads (5 in the
source) and a given state file. -/
def DownloadManager.new (workers : Nat) (stateFile : Option (List Char)) (writable : Bool) :
    DownloadManager :=
  loadState
    { heap := fun _ => DownloadTask.new "", nextId := 0, threadPool := { workers := workers },
      stateFile := stateFile, stateFileWritable := writable,
      queued := [], active := [], paused := [], completed := [], failed := [] }

/-! ## What a state file holds, in the words of the specification -/

/-- The collection that holds the tasks of a status; none holds `CANCELED` tasks. -/
def DownloadManager.collection (s : DownloadManager) : DownloadStatus → List TaskId
  | .QUEUED => s.queued
  | .ACTIVE => s.active
  | .PAUSED => s.paused
  | .COMPLETED => s.completed
  | .FAILED => s.failed
  | .CANCELED => []

/-- The task objects of a collection, in order. -/
def DownloadManager.tasksIn (s : DownloadManager) (st : DownloadStatus) : List DownloadTask :=
  (s.collection st).map s.heap

/-- Every task held in a collection is an object that has been allocated. -/
def DownloadManager.IdsAllocated (s : DownloadManager) : Prop :=
  ∀ st, ∀ task ∈ s.collection st, task < s.nextId

/-- The records of a state file: those of the non-empty lines in front of the first non-empty
line that does not parse. -/
def decodedRecords (content : List Char) : List TaskRecord :=
  (((splitLines [] content).filter (fun l => !l.isEmpty)).takeWhile
    (fun l => (parseLine l).isSome)).filterMap parseLine

/-- The tasks described by those records whose status integer names `st`, in order. -/
def tasksWithStatus (rs : List TaskRecord) (st : DownloadStatus) : List DownloadTask :=
  rs.filterMap (fun r => if castStatus r.statusInt = some st then some (r.toTask st) else none)

/-- The values of the numeric fields of a task lie in the range of their C++ types, and the byte
counters hold byte counts. -/
def DownloadTask.FieldsInRange (t : DownloadTask) : Prop :=
  IsByteCount t.bytesDownloaded ∧ IsByteCount t.totalBytes ∧
  (-(2 ^ 31) ≤ t.httpStatus ∧ t.httpStatus ≤ 2 ^ 31 - 1) ∧
  (-(2 ^ 31) ≤ t.errorCode ∧ t.errorCode ≤ 2 ^ 31 - 1) ∧
  (-(2 ^ 63) ≤ t.addedAt ∧ t.addedAt ≤ 2 ^ 63 - 1) ∧
  (-(2 ^ 63) ≤ t.endedAt ∧ t.endedAt ≤ 2 ^ 63 - 1)

instance (t : DownloadTask) : Decidable t.FieldsInRange := by
  unfold DownloadTask.FieldsInRange
  infer_instance

/-- The members of the five collections in the order in which `saveState` writes them. -/
def DownloadManager.held (s : DownloadManager) : List TaskId :=
  s.queued ++ s.active ++ s.paused ++ s.completed ++ s.failed

/-- Every member of a collection has the status that the collection stands for. -/
def DownloadManager.StatusMatches (s : DownloadManager) : Prop :=
  (∀ task ∈ s.queued, (s.heap task).status = .QUEUED) ∧
  (∀ task ∈ s.active, (s.heap task).status = .ACTIVE) ∧
  (∀ task ∈ s.paused, (s.heap task).status = .PAUSED) ∧
  (∀ task ∈ s.completed, (s.heap task).status = .COMPLETED) ∧
  (∀ task ∈ s.failed, (s.heap task).status = .FAILED)

instance (s : DownloadManager) : Decidable s.StatusMatches := by
  unfold DownloadManager.StatusMatches
  infer_instance

/-- A task whose line in the state file is read back as one record: numeric fields in range,
and no line feed in the URL or the destination. -/
def DownloadTask.Storable (t : DownloadTask) : Prop :=
  t.FieldsInRange ∧ Char.ofNat 10 ∉ t.url.data ∧ Char.ofNat 10 ∉ t.destination.data

instance (t : DownloadTask) : Decidable t.Storable := by
  unfold DownloadTask.Storable
  infer_instance

/-- Every task held by the manager is storable. -/
def DownloadManager.Storable (s : DownloadManager) : Prop :=
  ∀ task ∈ s.held, (s.heap task).Storable

instance (s : DownloadManager) : Decidable s.Storable := by
  unfold DownloadManager.Storable
  infer_instance

/-- The nine values that the line of a task holds once it is read back. -/
def DownloadTask.toRecord (t : DownloadTask) : TaskRecord :=
  { url := t.url.data, destination := t.destination.data,
    downloadedBytes := roundSix t.bytesDownloaded, totalBytes := roundSix t.totalBytes,
    statusInt := statusToInt t.status, httpStatus := t.httpStatus, errorCodeInt := t.errorCode,
    addedAt := t.addedAt, endedAt := t.endedAt }

/-- A task as it comes back from the state file: the nine persisted fields, the byte counters
rounded to six significant digits by the text form, and every other member at its initial value. -/
def DownloadTask.reloaded (t : DownloadTask) : DownloadTask :=
  { url := t.url, destination := t.destination,
    bytesDownloaded := roundSix t.bytesDownloaded, totalBytes := roundSix t.totalBytes,
    status := t.status, httpStatus := t.httpStatus, errorCode := t.errorCode,
    addedAt := t.addedAt, endedAt := t.endedAt }

/-! ## DownloadManager.cpp: operations -/

/-- Outcome of the HEAD request of `http::resolveFilenameFromServer` for a URL: the file name it
returns, and the HTTP status and transport result it records on the task. -/
structure ResolveResult where
  name : String
  httpStatus : Int
  errorCode : Int

/-- What `queueDownload` reads from outside the manager: the paths present on disk and the
answers of the server. -/
structure Env where
  files : List String
  resolve : String → ResolveResult

/-- Effect of `http::resolveFilenameFromServer` on the task, and its return value. -/
def resolveFilenameFromServer (env : Env) (t : DownloadTask) : String × DownloadTask :=
  let r := env.resolve t.url
  (r.name, { t with httpStatus := r.httpStatus,
                    errorCode := if r.errorCode ≠ CURLE_OK then r.errorCode else t.errorCode })

/-- Method `DownloadManager::queueDownload`. -/
def queueDownload (env : Env) (s : DownloadManager) (url destination : String) :
    DownloadManager :=
  let task := s.nextId
  let s0 := allocTask s (DownloadTask.new url)
  let rt : String × DownloadTask :=
    if destination.isEmpty then resolveFilenameFromServer env (s0.heap task)
    else (destination, s0.heap task)
  let s1 := modifyTask s0 task (fun _ => rt.2)
  if (s1.heap task).errorCode ≠ CURLE_OK then updateTaskStatus s1 task .FAILED
  else
    let s2 := modifyTask s1 task
      (fun t => { t with destination := getUniqueFilename env.files rt.1 })
    saveState { s2 with queued := s2.queued ++ [task] }

/-- Method `DownloadManager::pauseDownload`. -/
def pauseDownload (s : DownloadManager) (index : Nat) : DownloadManager :=
  if h : index < s.active.length then updateTaskStatus s s.active[index] .PAUSED else s

/-- Method `DownloadManager::resumeDownload`. -/
def resumeDownload (s : DownloadManager) (index : Nat) : DownloadManager :=
  if h : index < s.paused.length then
    updateTaskStatus (modifyTask s s.paused[index] DownloadTask.resume) s.paused[index] .QUEUED
  else s

/-- Method `DownloadManager::cancelDownload`. -/
def cancelDownload (s : DownloadManager) (index : Nat) : DownloadManager :=
  if h : index < s.active.length then updateTaskStatus s s.active[index] .CANCELED else s

/-- Method `DownloadManager::retryDownload`. -/
def retryDownload (env : Env) (s : DownloadManager) (index : Nat) : DownloadManager :=
  if h : index < s.failed.length then
    let task := s.failed[index]
    queueDownload env (removeTaskFromCurrentContainer s task)
      (s.heap task).url (s.heap task).destination
  else s

/-- First loop of `update`, over the members of `_active` still to be visited, with the
`stillActive` vector built so far.  A task found `COMPLETED` or `FAILED` is passed to
`updateTaskStatus`, which then looks for it in `_completed` or `_failed`, so `_active` itself is
not touched while it is iterated. -/
def reconcile : List TaskId → DownloadManager → List TaskId → DownloadManager × List TaskId
  | [], s, stillActive => (s, stillActive)
  | task :: rest, s, stillActive =>
    match (s.heap task).status with
    | .ACTIVE => reconcile rest s (stillActive ++ [task])
    | .COMPLETED => reconcile rest (updateTaskStatus s task .COMPLETED) stillActive
    | .FAILED => reconcile rest (updateTaskStatus s task .FAILED) stillActive
    | _ => reconcile rest s stillActive

/-- Second loop of `update`: while the queue is not empty and `_active` is smaller than the
pool, move the back of the queue to the back of `_active` and enqueue its `run`.  Every iteration
shortens the queue, so its length bounds the number of iterations. -/
def startQueuedTasks : Nat → DownloadManager → DownloadManager
  | 0, s => s
  | fuel + 1, s =>
    match s.queued.getLast? with
    | none => s
    | some task =>
      if s.active.length < s.threadPool.size then
        startQueuedTasks fuel
          { s with queued := s.queued.dropLast, active := s.active ++ [task],
                   threadPool := s.threadPool.enqueue task }
      else s

/-- First half of `update`: the loop over `_active` and the assignment
`_active = std::move(stillActive)`. -/
def reconcileActive (s : DownloadManager) : DownloadManager :=
  { (reconcile s.active s []).1 with active := (reconcile s.active s []).2 }

/-- Method `DownloadManager::update`. -/
def update (s : DownloadManager) : DownloadManager :=
  saveState (startQueuedTasks (reconcileActive s).queued.length (reconcileActive s))

/-- Method `DownloadManager::clearHistory`. -/
def clearHistory (s : DownloadManager) : DownloadManager :=
  saveState { s with completed := [], failed := [] }

/-- A worker thread of `ThreadPool::workerThread` takes the job at the front of the pool's queue
and starts it: the job is `task->run()`, which begins with `DownloadTask.runBegin`. -/
def workerTakeJob (s : DownloadManager) (now : Int) : DownloadManager :=
  match s.threadPool.tasks with
  | [] => s
  | task :: rest =>
    modifyTask { s with threadPool := { s.threadPool with tasks := rest } } task
      (DownloadTask.runBegin now)

/-- The transfer of a task ends on its worker thread with result `res`: the tail of `run`. -/
def workerFinish (s : DownloadManager) (task : TaskId) (res httpStatus now : Int) :
    DownloadManager :=
  modifyTask s task (fun t => (t.runEnd res httpStatus now []).1)

/-- The transport calls the progress callback of a task on its worker thread. -/
def workerProgress (s : DownloadManager) (task : TaskId) (now dltotal dlnow : Int) :
    DownloadManager :=
  modifyTask s task (fun t => (curlProgressCallback now dltotal dlnow t).2)

/-! ## DownloadManager.cpp: the operations on all downloads

A `while` loop that need not end is given a bound on the number of times its condition is
evaluated; the result is `none` when the bound is reached with the loop still running. -/

/-- First loop of `pauseAllDownloads`: while `_active` is not empty, pass its back to
`updateTaskStatus` with `PAUSED`. -/
def pauseActiveLoop : Nat → DownloadManager → Option DownloadManager
  | 0, _ => none
  | fuel + 1, s =>
    match s.active.getLast? with
    | none => some s
    | some task => pauseActiveLoop fuel (updateTaskStatus s task .PAUSED)

/-- Second loop of `pauseAllDownloads`, the same over `_queued`. -/
def pauseQueuedLoop : Nat → DownloadManager → Option DownloadManager
  | 0, _ => none
  | fuel + 1, s =>
    match s.queued.getLast? with
    | none => some s
    | some task => pauseQueuedLoop fuel (updateTaskStatus s task .PAUSED)

/-- Method `DownloadManager::pauseAllDownloads`. -/
def pauseAllDownloads (fuel : Nat) (s : DownloadManager) : Option DownloadManager :=
  (pauseActiveLoop fuel s).bind (pauseQueuedLoop fuel)

/-- Loop of `resumeAllDownloads`: while `_paused` is not empty, resume its back and pass it to
`updateTaskStatus` with `QUEUED`. -/
def resumeAllLoop : Nat → DownloadManager → Option DownloadManager
  | 0, _ => none
  | fuel + 1, s =>
    match s.paused.getLast? with
    | none => some s
    | some task =>
      resumeAllLoop fuel (updateTaskStatus (modifyTask s task DownloadTask.resume) task .QUEUED)

/-- Method `DownloadManager::resumeAllDownloads`. -/
def resumeAllDownloads (fuel : Nat) (s : DownloadManager) : Option DownloadManager :=
  resumeAllLoop fuel s

/-- Outcome of a range-based `for` over a vector that the loop body may shorten.  The loop
keeps the end position it computed on entry, so it makes as many iterations as the vector had
elements; an iteration whose position is no longer inside the vector reads an element that has
been destroyed, which is undefined behaviour. -/
inductive RangeResult
  | done (s : DownloadManager)
  | pastEnd (s : DownloadManager)

/-- The manager state in which the loop stopped. -/
def RangeResult.state : RangeResult → DownloadManager
  | .done s => s
  | .pastEnd s => s

/-- Whether the loop went on to a position outside the vector. -/
def RangeResult.ranPastEnd : RangeResult → Bool
  | .done _ => false
  | .pastEnd _ => true

/-- A loop `for (auto &task : v) updateTaskStatus(task, CANCELED)` of `cancelAllDownloads` over
the vector `sel`, with `count` iterations left and the iterator at position `pos`. -/
def cancelRange (sel : DownloadManager → List TaskId) : Nat → Nat → DownloadManager → RangeResult
  | 0, _, s => .done s
  | count + 1, pos, s =>
    match (sel s)[pos]? with
    | none => .pastEnd s
    | some task => cancelRange sel count (pos + 1) (updateTaskStatus s task .CANCELED)

/-- Method `DownloadManager::cancelAllDownloads`: the loop over `_active`, then the loop over
`_queued`. -/
def cancelAllDownloads (s : DownloadManager) : RangeResult :=
  match cancelRange (fun m => m.active) s.active.length 0 s with
  | .pastEnd s1 => .pastEnd s1
  | .done s1 => cancelRange (fun m => m.queued) s1.queued.length 0 s1

/-- Loop of `retryAllDownloads`: while `_failed` is not empty, remove its back from its current
container and queue its URL and destination again.  The source reads both through a reference to
the vector element after the element has been erased; the model takes the values the task object
had. -/
def retryAllLoop (env : Env) : Nat → DownloadManager → Option DownloadManager
  | 0, _ => none
  | fuel + 1, s =>
    match s.failed.getLast? with
    | none => some s
    | some task =>
      retryAllLoop env fuel
        (queueDownload env (removeTaskFromCurrentContainer s task)
          (s.heap task).url (s.heap task).destination)

/-- Method `DownloadManager::retryAllDownloads`. -/
def retryAllDownloads (env : Env) (fuel : Nat) (s : DownloadManager) : Option DownloadManager :=
  retryAllLoop env fuel s

/-- What the calls `updateTaskStatus(task, st)` of the first loop of `update` do to the
collection of `st`, for the tasks found with status `st` in turn: each is erased from the
collection, if it is there, and appended to it. -/
def refile (collection : List TaskId) (tasks : List TaskId) : List TaskId :=
  tasks.foldl (fun acc task => acc.erase task ++ [task]) collection

/-! ## Example states -/

/-- A disk that holds `a.txt` and a server that answers every HEAD request with 200. -/
def exampleEnv : Env :=
  { files := ["a.txt"],
    resolve := fun _ => { name := "downloaded_file", httpStatus := 200, errorCode := CURLE_OK } }

/-- The manager as constructed by the program when no state file exists. -/
def freshManager : DownloadManager := DownloadManager.new 5 none true

/-- One download queued and admitted by `update`; its job waits in the pool. -/
def admittedNotStarted : DownloadManager :=
  update (queueDownload exampleEnv freshManager "http://host/a.txt" "a.txt")

/-- The admitted download is paused before a worker has started it. -/
def pausedBeforeStart : DownloadManager := pauseDownload admittedNotStarted 0

/-- A worker then starts the job that was submitted for it. -/
def pausedThenStarted : DownloadManager := workerTakeJob pausedBeforeStart 100

/-- One download admitted and started by a worker. -/
def oneRunning : DownloadManager := workerTakeJob admittedNotStarted 100

/-- The running download paused by the user. -/
def onePaused : DownloadManager := pauseDownload oneRunning 0

/-- On a manager whose pool has two workers, one download is queued, admitted and started, and
three more are queued after it. -/
def oneRunningThreeQueued : DownloadManager :=
  queueDownload exampleEnv
    (queueDownload exampleEnv
      (queueDownload exampleEnv
        (workerTakeJob
          (update (queueDownload exampleEnv (DownloadManager.new 2 none true) "http://host/a" "a"))
          100)
        "http://host/b" "b")
      "http://host/c" "c")
    "http://host/d" "d"

/-- Three downloads queued on a manager whose pool has two workers. -/
def threeQueued : DownloadManager :=
  queueDownload exampleEnv
    (queueDownload exampleEnv
      (queueDownload exampleEnv (DownloadManager.new 2 none true) "http://host/a" "a")
      "http://host/b" "b")
    "http://host/c" "c"

/-- A manager with two queued, one active, one completed and one failed download; the active one
has received 1234567 of 5000000 bytes. -/
def persistedExample : DownloadManager :=
  { heap := fun task =>
      if task = 0 then { url := "http://host/a", destination := "a.bin", addedAt := 1700000000 }
      else if task = 1 then
        { url := "http://host/b c", destination := "my \"b\".bin", addedAt := 1700000001 }
      else if task = 2 then
        { url := "http://host/c", destination := "c.bin", status := .ACTIVE,
          bytesDownloaded := 1234567, totalBytes := 5000000, httpStatus := 200,
          addedAt := 1700000002 }
      else if task = 3 then
        { url := "http://host/d", destination := "d.bin", status := .COMPLETED,
          bytesDownloaded := 2048, totalBytes := 2048, progress := 100, httpStatus := 200,
          addedAt := 1700000003, endedAt := 1700000009 }
      else
        { url := "http://nowhere/e", destination := "e.bin", status := .FAILED,
          errorCode := 6, addedAt := 1700000004, endedAt := 1700000005 },
    nextId := 5, threadPool := { workers := 5 }, stateFile := none, stateFileWritable := true,
    queued := [0, 1], active := [2], paused := [], completed := [3], failed := [4] }

/-- The manager constructed from the state file that `persistedExample` saves. -/
def persistedExampleReloaded : DownloadManager :=
  DownloadManager.new 5 (saveState persistedExample).stateFile true

/-- A manager whose only download, queued, has a destination with a line feed in it. -/
def lineFeedExample : DownloadManager :=
  { heap := fun _ => { url := "http://host/a", destination := "a\nb" },
    nextId := 1, threadPool := { workers := 5 }, stateFile := none, stateFileWritable := true,
    queued := [0], active := [], paused := [], completed := [], failed := [] }

/-- A state file whose first line is empty and whose second line is a complete record. -/
def emptyLineFile : List Char := "\n\"http://host/a\" \"a.bin\" 0 0 0 0 0 0 0\n".data

/-- A state file whose only line is a complete record with the status integer of `CANCELED`. -/
def canceledLineFile : List Char := "\"http://host/a\" \"a.bin\" 0 0 5 0 0 0 0\n".data

/-- The running download is paused and resumed before its progress callback is called again, and
`update` admits it a second time: its first `run` is still in progress and a second job for it
waits in the pool. -/
def admittedTwice : DownloadManager := update (resumeDownload onePaused 0)

/-- The transfer of the first `run` then ends with transport error 56, and `update` files the
task as failed. -/
def failedWithJobWaiting : DownloadManager := update (workerFinish admittedTwice 0 56 0 300)

/-- A worker then starts the waiting job. -/
def failedThenStarted : DownloadManager := workerTakeJob failedWithJobWaiting 400

/-- The transfer of the running download has ended with success, and `update` has not run
since. -/
def completedNotReconciled : DownloadManager := workerFinish oneRunning 0 0 200 500

/-- An empty disk and a server that cannot be reached: every HEAD request ends with transport
error 6. -/
def errorEnv : Env :=
  { files := [],
    resolve := fun _ => { name := "downloaded_file", httpStatus := 0, errorCode := 6 } }

/-- A download queued without a destination while the server cannot be reached: it is filed as
failed. -/
def failedLookup : DownloadManager := queueDownload errorEnv freshManager "http://nowhere/x" ""

/-- The admitted download is cancelled before a worker has started it. -/
def canceledBeforeStart : DownloadManager := cancelDownload admittedNotStarted 0

/-- A worker then starts the job that was submitted for it. -/
def canceledThenStarted : DownloadManager := workerTakeJob canceledBeforeStart 100

/-- A task in the middle of a transfer: 250 of 1000 bytes received. -/
def halfwayTask : DownloadTask :=
  { url := "http://host/a", destination := "a.bin", status := .ACTIVE, totalBytes := 1000,
    bytesDownloaded := 250, progress := 25 }

/-- A disk that holds the partial file of `halfwayTask` and one other file. -/
def exampleDisk : Disk := [("a.bin", 250), ("b.bin", 10)]

/-- The resume flag is raised, and the steps of a `run` follow that finds 250 bytes on disk, is
told twice about its progress and ends with success. -/
def exampleSteps : List RunStep :=
  [.resumeFlag, .start 100, .resume (some 250), .progress 101 750 100, .progress 102 750 900,
   .finish 0 206 103]

/-- The task `halfwayTask` marked `PAUSED`. -/
def halfwayPaused : DownloadTask := { halfwayTask with status := .PAUSED }

/-- The task `halfwayTask` marked `CANCELED`. -/
def halfwayCanceled : DownloadTask := { halfwayTask with status := .CANCELED }

/-- Three runs of one task.  The first receives 250 bytes and is paused.  The task is resumed,
and its second run finds the 250 bytes on disk, receives 50 more and is paused.  The task is
resumed once more, and its third run starts. -/
def threeRunsSteps : List RunStep :=
  [.start 100, .progress 101 1000 250, .setStatus .PAUSED, .progress 102 1000 300,
   .finish 42 200 102,
   .resumeFlag, .setStatus .QUEUED,
   .start 200, .resume (some 250), .progress 201 750 50, .setStatus .PAUSED,
   .progress 202 750 60, .finish 42 206 202,
   .resumeFlag, .setStatus .QUEUED,
   .start 300]

/-- The task at the start of its third run. -/
def thirdRunTask : DownloadTask := runSteps threeRunsSteps (DownloadTask.new "http://host/a")

/-- A manager whose active collection holds six tasks, one of each status, and a seventh task
that is marked `ACTIVE`; an eighth task is in completed. -/
def mixedActive : DownloadManager :=
  { heap := fun task =>
      { url := "http://host/x",
        status :=
          if task = 0 then .ACTIVE else if task = 1 then .COMPLETED
          else if task = 2 then .FAILED else if task = 3 then .PAUSED
          else if task = 4 then .CANCELED else if task = 5 then .QUEUED
          else if task = 6 then .ACTIVE else .COMPLETED },
    nextId := 8, threadPool := { workers := 5 }, stateFile := none, stateFileWritable := true,
    queued := [], active := [0, 1, 2, 3, 4, 5, 6], paused := [3], completed := [7], failed := [] }

/-! # Theorems -/

/-! ## The two loops of `update` -/
@[simp] theorem saveState_queued (s : DownloadManager) : (saveState s).queued = s.queued := by
  unfold saveState; split <;> rfl
@[simp] theorem saveState_active (s : DownloadManager) : (saveState s).active = s.active := by
  unfold saveState; split <;> rfl
@[simp] theorem saveState_paused (s : DownloadManager) : (saveState s).paused = s.paused := by
  unfold saveState; split <;> rfl
@[simp] theorem saveState_completed (s : DownloadManager) : (saveState s).completed = s.completed := by
  unfold saveState; split <;> rfl
@[simp] theorem saveState_failed (s : DownloadManager) : (saveState s).failed = s.failed := by
  unfold saveState; split <;> rfl
@[simp] theorem saveState_heap (s : DownloadManager) : (saveState s).heap = s.heap := by
  unfold saveState; split <;> rfl
@[simp] theorem saveState_threadPool (s : DownloadManager) : (saveState s).threadPool = s.threadPool := by
  unfold saveState; split <;> rfl
@[simp] theorem saveState_nextId (s : DownloadManager) : (saveState s).nextId = s.nextId := by
  unfold saveState; split <;> rfl

theorem take_back_step {α : Type} (init : List α) (task : α) (c k : Nat) (h : k < c) :
    (init ++ [task]).reverse.take (min (init.length + 1) (c - k))
        = task :: init.reverse.take (min init.length (c - (k + 1))) ∧
    (init ++ [task]).take (init.length + 1 - min (init.length + 1) (c - k))
        = init.take (init.length - min init.length (c - (k + 1))) := by
  have hm : min (init.length + 1) (c - k) = min init.length (c - (k + 1)) + 1 := by omega
  constructor
  · rw [hm]; simp
  · rw [hm]
    have : init.length + 1 - (min init.length (c - (k + 1)) + 1)
        = init.length - min init.length (c - (k + 1)) := by omega
    rw [this, List.take_append_of_le_length (by omega)]

/-- The admission loop, given fuel for the whole queue, takes `min n (c - k)` tasks from the back
of the queue. -/
theorem startQueuedTasks_spec : ∀ (fuel : Nat) (s : DownloadManager), s.queued.length ≤ fuel →
    (startQueuedTasks fuel s).queued
        = s.queued.take (s.queued.length - min s.queued.length (s.threadPool.size - s.active.length)) ∧
    (startQueuedTasks fuel s).active
        = s.active ++ s.queued.reverse.take (min s.queued.length (s.threadPool.size - s.active.length)) ∧
    (startQueuedTasks fuel s).threadPool.tasks
        = s.threadPool.tasks ++ s.queued.reverse.take (min s.queued.length (s.threadPool.size - s.active.length)) ∧
    (startQueuedTasks fuel s).threadPool.workers = s.threadPool.workers ∧
    (startQueuedTasks fuel s).heap = s.heap ∧ (startQueuedTasks fuel s).paused = s.paused ∧
    (startQueuedTasks fuel s).completed = s.completed ∧ (startQueuedTasks fuel s).failed = s.failed ∧
    (startQueuedTasks fuel s).nextId = s.nextId ∧ (startQueuedTasks fuel s).stateFile = s.stateFile ∧
    (startQueuedTasks fuel s).stateFileWritable = s.stateFileWritable := by
  intro fuel
  induction fuel with
  | zero =>
    intro s h
    have h0 : s.queued = [] := List.length_eq_zero.mp (Nat.le_zero.mp h)
    simp [startQueuedTasks, h0]
  | succ fuel ih =>
    intro s h
    rcases hq : s.queued.getLast? with _ | task
    · have h0 : s.queued = [] := List.getLast?_eq_none_iff.mp hq
      simp [startQueuedTasks, h0]
    · have hsplit : s.queued.dropLast ++ [task] = s.queued :=
        List.dropLast_append_getLast? task (by simp [hq])
      by_cases hc : s.active.length < s.threadPool.size
      · have hlen : s.queued.length = s.queued.dropLast.length + 1 := by
          rw [← hsplit]; simp
        obtain ⟨i1, i2, i3, i4, i5, i6, i7, i8, i9, i10, i11⟩ :=
          ih { s with queued := s.queued.dropLast, active := s.active ++ [task],
                      threadPool := s.threadPool.enqueue task } (by simp at hlen ⊢; omega)
        simp only [startQueuedTasks, hq, if_pos hc]
        simp only [ThreadPool.enqueue, ThreadPool.size, List.length_append,
          List.length_singleton] at i1 i2 i3 i4 hc ⊢
        obtain ⟨t1, t2⟩ := take_back_step s.queued.dropLast task s.threadPool.workers
          s.active.length hc
        rw [hsplit, ← hlen] at t1 t2
        refine ⟨?_, ?_, ?_, i4, i5, i6, i7, i8, i9, i10, i11⟩
        · rw [i1, t2]
        · rw [i2, t1]; simp
        · rw [i3, t1]; simp
      · have hm : min s.queued.length (s.threadPool.size - s.active.length) = 0 := by omega
        simp only [startQueuedTasks, hq, if_neg hc, hm]
        simp

theorem modifyTask_status_same_heap (s : DownloadManager) (task : TaskId) (st : DownloadStatus)
    (h : (s.heap task).status = st) :
    (fun j => if j = task then { s.heap j with status := st } else s.heap j) = s.heap := by
  funext j
  by_cases hj : j = task
  · subst hj; simp [← h]
  · simp [hj]

theorem updateTaskStatus_completed (s : DownloadManager) (task : TaskId)
    (h : (s.heap task).status = .COMPLETED) :
    updateTaskStatus s task .COMPLETED
      = saveState { s with completed := s.completed.erase task ++ [task] } := by
  have hh := modifyTask_status_same_heap s task .COMPLETED h
  simp only [updateTaskStatus, removeTaskFromCurrentContainer, modifyTask,
    addTaskToStatusContainer, h, hh]
  simp [h]

theorem updateTaskStatus_failed (s : DownloadManager) (task : TaskId)
    (h : (s.heap task).status = .FAILED) :
    updateTaskStatus s task .FAILED
      = saveState { s with failed := s.failed.erase task ++ [task] } := by
  have hh := modifyTask_status_same_heap s task .FAILED h
  simp only [updateTaskStatus, removeTaskFromCurrentContainer, modifyTask,
    addTaskToStatusContainer, h, hh]
  simp [h]

theorem reconcile_frame : ∀ (l : List TaskId) (s : DownloadManager) (still : List TaskId),
    (reconcile l s still).1.queued = s.queued ∧
    (reconcile l s still).1.threadPool = s.threadPool ∧
    (reconcile l s still).1.heap = s.heap ∧
    (reconcile l s still).1.active = s.active ∧
    (reconcile l s still).1.paused = s.paused ∧
    (reconcile l s still).1.nextId = s.nextId ∧
    (reconcile l s still).1.stateFileWritable = s.stateFileWritable ∧
    (reconcile l s still).2
      = still ++ l.filter (fun t => decide ((s.heap t).status = .ACTIVE)) := by
  intro l
  induction l with
  | nil => intro s still; simp [reconcile]
  | cons t rest ih =>
    intro s still
    rcases hst : (s.heap t).status with _ | _ | _ | _ | _ | _
    all_goals simp only [reconcile, hst]
    · simpa [hst] using ih s still
    · simpa [hst] using ih s (still ++ [t])
    · simpa [hst] using ih s still
    · rw [updateTaskStatus_completed s t hst]
      obtain ⟨h1, h2, h3, h4, h5, h6, h7, h8⟩ :=
        ih (saveState { s with completed := s.completed.erase t ++ [t] }) still
      simp only [saveState_queued, saveState_threadPool, saveState_heap, saveState_active,
        saveState_paused, saveState_nextId] at h1 h2 h3 h4 h5 h6 h8
      refine ⟨h1, h2, h3, h4, h5, h6, ?_, ?_⟩
      · rw [h7]; unfold saveState; split <;> rfl
      · rw [h8]; simp [hst]
    · rw [updateTaskStatus_failed s t hst]
      obtain ⟨h1, h2, h3, h4, h5, h6, h7, h8⟩ :=
        ih (saveState { s with failed := s.failed.erase t ++ [t] }) still
      simp only [saveState_queued, saveState_threadPool, saveState_heap, saveState_active,
        saveState_paused, saveState_nextId] at h1 h2 h3 h4 h5 h6 h8
      refine ⟨h1, h2, h3, h4, h5, h6, ?_, ?_⟩
      · rw [h7]; unfold saveState; split <;> rfl
      · rw [h8]; simp [hst]
    · simpa [hst] using ih s still

theorem reconcileActive_spec (s : DownloadManager) :
    (reconcileActive s).queued = s.queued ∧
    (reconcileActive s).threadPool = s.threadPool ∧
    (reconcileActive s).heap = s.heap ∧
    (reconcileActive s).paused = s.paused ∧
    (reconcileActive s).nextId = s.nextId ∧
    (reconcileActive s).stateFileWritable = s.stateFileWritable ∧
    (reconcileActive s).active
      = s.active.filter (fun t => decide ((s.heap t).status = .ACTIVE)) := by
  obtain ⟨r1, r2, r3, -, r5, r6, r7, r8⟩ := reconcile_frame s.active s []
  exact ⟨r1, r2, r3, r5, r6, r7, by simpa [reconcileActive] using r8⟩

theorem reconcile_all_active (s : DownloadManager) :
    ∀ (l : List TaskId) (still : List TaskId),
      (∀ t ∈ l, (s.heap t).status = .ACTIVE) → reconcile l s still = (s, still ++ l) := by
  intro l
  induction l with
  | nil => intro still _; simp [reconcile]
  | cons t rest ih =>
    intro still hl
    have ht : (s.heap t).status = .ACTIVE := hl t (List.mem_cons_self _ _)
    simp only [reconcile, ht]
    rw [ih (still ++ [t]) (fun u hu => hl u (List.mem_cons_of_mem _ hu))]
    simp

/-! ### Decimal digits -/

theorem toDigitsCore_acc : ∀ (fuel n : Nat) (acc : List Char),
    Nat.toDigitsCore 10 fuel n acc = Nat.toDigitsCore 10 fuel n [] ++ acc := by
  intro fuel
  induction fuel with
  | zero => intro n acc; simp [Nat.toDigitsCore]
  | succ f ih =>
    intro n acc
    simp only [Nat.toDigitsCore]
    split
    · simp
    · rw [ih (n / 10) (_ :: acc), ih (n / 10) [_]]
      simp

theorem toDigitsCore_fuel : ∀ (fuel n : Nat) (acc : List Char), n < fuel →
    Nat.toDigitsCore 10 fuel n acc = Nat.toDigitsCore 10 (n + 1) n acc := by
  intro fuel
  induction fuel using Nat.strong_induction_on with
  | _ fuel ih =>
    intro n acc hn
    cases fuel with
    | zero => omega
    | succ f =>
      simp only [Nat.toDigitsCore]
      split
      · rfl
      · rename_i hne
        have h1 : n / 10 < n := by omega
        rw [ih f (Nat.lt_succ_self f) (n / 10) _ (by omega)]
        rw [ih n hn (n / 10) _ h1]

theorem toDigits_lt_ten (n : Nat) (h : n < 10) : Nat.toDigits 10 n = [Nat.digitChar n] := by
  have h0 : n / 10 = 0 := by omega
  have h1 : n % 10 = n := by omega
  simp [Nat.toDigits, Nat.toDigitsCore, h0, h1]

theorem toDigitsCore_succ (f n : Nat) (acc : List Char) :
    Nat.toDigitsCore 10 (f + 1) n acc
      = if n / 10 = 0 then Nat.digitChar (n % 10) :: acc
        else Nat.toDigitsCore 10 f (n / 10) (Nat.digitChar (n % 10) :: acc) := by
  simp only [Nat.toDigitsCore]

theorem toDigits_ge_ten (n : Nat) (h : 10 ≤ n) :
    Nat.toDigits 10 n = Nat.toDigits 10 (n / 10) ++ [Nat.digitChar (n % 10)] := by
  have h0 : n / 10 ≠ 0 := by omega
  have h1 : n / 10 < n := by omega
  have e1 : Nat.toDigits 10 n = Nat.toDigitsCore 10 (n + 1) n [] := rfl
  have e2 : Nat.toDigits 10 (n / 10) = Nat.toDigitsCore 10 (n / 10 + 1) (n / 10) [] := rfl
  rw [e1, e2, toDigitsCore_succ, if_neg h0, toDigitsCore_acc, toDigitsCore_fuel n (n / 10) [] h1]

theorem digitChar_isDigit (d : Nat) (h : d < 10) : isDigit (Nat.digitChar d) = true := by
  interval_cases d <;> decide

theorem digitVal_digitChar (d : Nat) (h : d < 10) : digitVal (Nat.digitChar d) = d := by
  interval_cases d <;> decide

theorem digitsVal_append (acc : Nat) (l : List Char) (c : Char) :
    digitsVal acc (l ++ [c]) = digitsVal acc l * 10 + digitVal c := by
  induction l generalizing acc with
  | nil => rfl
  | cons a l ih => exact ih _

theorem toDigits_ne_nil (n : Nat) : Nat.toDigits 10 n ≠ [] := by
  by_cases h : n < 10
  · simp [toDigits_lt_ten n h]
  · rw [toDigits_ge_ten n (by omega)]; simp

theorem toDigits_all_digits (n : Nat) : ∀ c ∈ Nat.toDigits 10 n, isDigit c = true := by
  induction n using Nat.strong_induction_on with
  | _ n ih =>
    by_cases h : n < 10
    · rw [toDigits_lt_ten n h]
      intro c hc
      simp only [List.mem_singleton] at hc
      subst hc
      exact digitChar_isDigit n h
    · rw [toDigits_ge_ten n (by omega)]
      intro c hc
      rcases List.mem_append.mp hc with hc | hc
      · exact ih (n / 10) (by omega) c hc
      · simp only [List.mem_singleton] at hc
        subst hc
        exact digitChar_isDigit _ (Nat.mod_lt _ (by decide))

theorem digitsVal_singleton (acc : Nat) (c : Char) :
    digitsVal acc [c] = acc * 10 + digitVal c := rfl

theorem digitsVal_toDigits (n : Nat) : digitsVal 0 (Nat.toDigits 10 n) = n := by
  induction n using Nat.strong_induction_on with
  | _ n ih =>
    by_cases h : n < 10
    · rw [toDigits_lt_ten n h, digitsVal_singleton, digitVal_digitChar n h]
      omega
    · have h10 : n % 10 < 10 := Nat.mod_lt _ (by omega)
      have hlt : n / 10 < n := by omega
      have e := ih (n / 10) hlt
      rw [toDigits_ge_ten n (by omega), digitsVal_append, e, digitVal_digitChar _ h10]
      omega

theorem toDigits_length_bounds (n : Nat) (h : 1 ≤ n) :
    10 ^ ((Nat.toDigits 10 n).length - 1) ≤ n ∧ n < 10 ^ (Nat.toDigits 10 n).length := by
  induction n using Nat.strong_induction_on with
  | _ n ih =>
    by_cases hn : n < 10
    · rw [toDigits_lt_ten n hn]
      simp
      omega
    · have hlt : n / 10 < n := by omega
      obtain ⟨i1, i2⟩ := ih (n / 10) hlt (by omega)
      have hne := toDigits_ne_nil (n / 10)
      have hpos : 1 ≤ (Nat.toDigits 10 (n / 10)).length := by
        rcases hd : Nat.toDigits 10 (n / 10) with _ | ⟨c, cs⟩
        · exact absurd hd hne
        · simp
      rw [toDigits_ge_ten n (by omega)]
      simp only [List.length_append, List.length_singleton, Nat.add_sub_cancel]
      constructor
      · have : 10 ^ (Nat.toDigits 10 (n / 10)).length
            = 10 ^ ((Nat.toDigits 10 (n / 10)).length - 1) * 10 := by
          rw [← Nat.pow_succ]; congr 1; omega
        rw [this]; omega
      · rw [Nat.pow_succ]; omega

theorem toDigits_length_of_bounds (n k : Nat) (h1 : 10 ^ k ≤ n) (h2 : n < 10 ^ (k + 1)) :
    (Nat.toDigits 10 n).length = k + 1 := by
  have hpos : 1 ≤ n := Nat.le_trans (Nat.one_le_pow _ _ (by decide)) h1
  obtain ⟨b1, b2⟩ := toDigits_length_bounds n hpos
  have c1 : (Nat.toDigits 10 n).length - 1 < k + 1 := by
    by_contra hc
    have := Nat.pow_le_pow_right (show 1 ≤ 10 by decide) (Nat.le_of_not_lt hc)
    omega
  have c2 : k < (Nat.toDigits 10 n).length := by
    by_contra hc
    have := Nat.pow_le_pow_right (show 1 ≤ 10 by decide) (Nat.le_of_not_lt hc)
    omega
  omega

theorem isDigit_not_space (c : Char) (h : isDigit c = true) : isSpace c = false := by
  cases hsp : isSpace c
  · rfl
  · exfalso
    simp only [isSpace, Bool.or_eq_true, decide_eq_true_eq] at hsp
    rcases hsp with ((((h1 | h1) | h1) | h1) | h1) | h1 <;> subst h1 <;> exact absurd h (by decide)

theorem takeWhile_append_stop (p : Char → Bool) (l rest : List Char)
    (hl : ∀ c ∈ l, p c = true) (hr : ∀ c ∈ rest.head?, p c = false) :
    (l ++ rest).takeWhile p = l ∧ (l ++ rest).dropWhile p = rest := by
  induction l with
  | nil =>
    cases rest with
    | nil => simp
    | cons c r =>
      have hc : p c = false := hr c (by simp)
      simp [List.takeWhile, List.dropWhile, hc]
  | cons a l ih =>
    have ha : p a = true := hl a (List.mem_cons_self _ _)
    obtain ⟨i1, i2⟩ := ih (fun c hc => hl c (List.mem_cons_of_mem _ hc))
    simp [List.takeWhile, List.dropWhile, ha, i1, i2]

theorem digitsVal_append_list (acc : Nat) (l1 l2 : List Char) :
    digitsVal acc (l1 ++ l2) = digitsVal (digitsVal acc l1) l2 := by
  induction l1 generalizing acc with
  | nil => rfl
  | cons a l ih => exact ih _

theorem digitsVal_zeros (acc j : Nat) : digitsVal acc (List.replicate j '0') = acc * 10 ^ j := by
  induction j generalizing acc with
  | zero =>
    show acc = acc * 10 ^ 0
    simp
  | succ j ih =>
    rw [List.replicate_succ]
    show digitsVal (acc * 10 + digitVal '0') (List.replicate j '0') = _
    rw [ih]
    have : digitVal '0' = 0 := by decide
    rw [this, Nat.pow_succ]
    ring

theorem stripZeros_spec (ds : List Char) :
    ∃ j, ds = stripZeros ds ++ List.replicate j '0' := by
  refine ⟨(ds.reverse.takeWhile (fun c => decide (c = '0'))).length, ?_⟩
  have h := List.takeWhile_append_dropWhile (fun c => decide (c = '0')) ds.reverse
  have hall : ∀ c ∈ ds.reverse.takeWhile (fun c => decide (c = '0')), c = '0' := by
    intro c hc
    simpa using List.mem_takeWhile_imp hc
  have hrep : ds.reverse.takeWhile (fun c => decide (c = '0'))
      = List.replicate (ds.reverse.takeWhile (fun c => decide (c = '0'))).length '0' :=
    List.eq_replicate_iff.mpr ⟨rfl, hall⟩
  have h2 : ds = (ds.reverse.dropWhile (fun c => decide (c = '0'))).reverse
      ++ (ds.reverse.takeWhile (fun c => decide (c = '0'))).reverse := by
    rw [← List.reverse_append, h, List.reverse_reverse]
  rw [hrep, List.reverse_replicate] at h2
  simpa [stripZeros] using h2

theorem stripZeros_subset (ds : List Char) : ∀ c ∈ stripZeros ds, c ∈ ds := by
  intro c hc
  simp only [stripZeros, List.mem_reverse] at hc
  have := (List.dropWhile_sublist (fun c => decide (c = '0'))).subset hc
  simpa using this

theorem toDigits_head (n : Nat) :
    ∃ c cs, Nat.toDigits 10 n = c :: cs ∧ isDigit c = true := by
  rcases hd : Nat.toDigits 10 n with _ | ⟨c, cs⟩
  · exact absurd hd (toDigits_ne_nil n)
  · exact ⟨c, cs, rfl, toDigits_all_digits n c (by rw [hd]; exact List.mem_cons_self _ _)⟩

theorem skipWs_cons_of_not_space (c : Char) (cs : List Char) (h : isSpace c = false) :
    skipWs (c :: cs) = c :: cs := by
  simp [skipWs, List.dropWhile, h]

theorem skipWs_space_cons (c : Char) (cs : List Char) (h : isSpace c = false) :
    skipWs (' ' :: c :: cs) = c :: cs := by
  have hs : isSpace ' ' = true := by decide
  simp [skipWs, List.dropWhile, h, hs]

theorem readSign_digit (c : Char) (cs : List Char) (h : isDigit c = true) :
    readSign (c :: cs) = (false, c :: cs) := by
  have h1 : c ≠ '-' := by rintro rfl; exact absurd h (by decide)
  have h2 : c ≠ '+' := by rintro rfl; exact absurd h (by decide)
  simp [readSign, h1, h2]

theorem readInt_of_parts (lo hi : Int) (pre : List Char) (sg : Bool) (n : Nat)
    (rest : List Char) (h1 : readSign (skipWs pre) = (sg, Nat.toDigits 10 n ++ rest))
    (hrest : ∀ c ∈ rest.head?, isDigit c = false)
    (hr : lo ≤ (if sg then - (n : Int) else (n : Int)) ∧ (if sg then - (n : Int) else (n : Int)) ≤ hi) :
    readInt lo hi pre = some (if sg then - (n : Int) else (n : Int), rest) := by
  obtain ⟨t1, t2⟩ := takeWhile_append_stop isDigit (Nat.toDigits 10 n) rest
    (toDigits_all_digits n) hrest
  have hne : (Nat.toDigits 10 n).isEmpty = false := by
    rcases hd : Nat.toDigits 10 n with _ | ⟨c, cs⟩
    · exact absurd hd (toDigits_ne_nil n)
    · rfl
  simp only [readInt, h1, t1, t2, hne, digitsVal_toDigits]
  simp only [Bool.false_eq_true, if_false]
  rw [if_pos hr]

theorem readInt_fmtInt (lo hi i : Int) (rest : List Char) (hlo : lo ≤ i) (hhi : i ≤ hi)
    (hrest : ∀ c ∈ rest.head?, isDigit c = false) :
    readInt lo hi (' ' :: (fmtInt i ++ rest)) = some (i, rest) := by
  by_cases hi0 : i < 0
  · have hv : (if true = true then - ((i.natAbs : Nat) : Int) else (i.natAbs : Int)) = i := by
      simp only [if_true]; omega
    have h1 : readSign (skipWs (' ' :: (fmtInt i ++ rest)))
        = (true, Nat.toDigits 10 i.natAbs ++ rest) := by
      simp only [fmtInt, if_pos hi0, List.cons_append]
      rw [skipWs_space_cons _ _ (by decide)]
      simp [readSign]
    have := readInt_of_parts lo hi _ true i.natAbs rest h1 hrest (by rw [hv]; exact ⟨hlo, hhi⟩)
    rw [hv] at this
    exact this
  · have hv : (if false = true then - ((i.natAbs : Nat) : Int) else (i.natAbs : Int)) = i := by
      simp only [Bool.false_eq_true, if_false]; omega
    obtain ⟨c, cs, hd, hc⟩ := toDigits_head i.natAbs
    have h1 : readSign (skipWs (' ' :: (fmtInt i ++ rest)))
        = (false, Nat.toDigits 10 i.natAbs ++ rest) := by
      simp only [fmtInt, if_neg hi0, hd, List.cons_append]
      rw [skipWs_space_cons _ _ (isDigit_not_space c hc), readSign_digit c _ hc]
    have := readInt_of_parts lo hi _ false i.natAbs rest h1 hrest (by rw [hv]; exact ⟨hlo, hhi⟩)
    rw [hv] at this
    exact this

theorem readDouble_of_parts (pre : List Char) (sg : Bool) (I F tail rest : List Char) (e : Int)
    (h1 : readSign (skipWs pre) = (sg, I ++ (withPoint F ++ tail)))
    (hI : ∀ c ∈ I, isDigit c = true) (hIne : I ≠ [])
    (hF : ∀ c ∈ F, isDigit c = true)
    (htail : ∀ c ∈ tail.head?, isDigit c = false ∧ c ≠ '.')
    (hexp : readExponent true tail = (some e, rest))
    (hfin : ¬ doubleOverflow ≤ (digitsVal 0 (I ++ F) : ℚ) * (10 : ℚ) ^ (e - (F.length : Int))) :
    readDouble pre
      = some (if sg then - ((digitsVal 0 (I ++ F) : ℚ) * (10 : ℚ) ^ (e - (F.length : Int)))
              else (digitsVal 0 (I ++ F) : ℚ) * (10 : ℚ) ^ (e - (F.length : Int)), rest) := by
  have hstop : ∀ c ∈ (withPoint F ++ tail).head?, isDigit c = false := by
    cases F with
    | nil =>
      intro c hc
      simp only [withPoint, List.isEmpty_nil, if_true, List.nil_append] at hc
      exact (htail c hc).1
    | cons f fs =>
      intro c hc
      simp only [withPoint, List.isEmpty_cons, Bool.false_eq_true, if_false, List.cons_append,
        List.head?_cons, Option.mem_def, Option.some.injEq] at hc
      subst hc
      decide
  obtain ⟨t1, t2⟩ := takeWhile_append_stop isDigit I (withPoint F ++ tail) hI hstop
  have hfr : readFraction (withPoint F ++ tail) = (F, tail) := by
    cases F with
    | nil =>
      simp only [withPoint, List.isEmpty_nil, if_true, List.nil_append]
      cases tail with
      | nil => rfl
      | cons c r =>
        have hc : c ≠ '.' := (htail c (by simp)).2
        simp [readFraction, hc]
    | cons f fs =>
      obtain ⟨u1, u2⟩ := takeWhile_append_stop isDigit (f :: fs) tail hF
        (fun c hc => (htail c hc).1)
      simp only [withPoint, List.isEmpty_cons, Bool.false_eq_true, if_false, List.cons_append,
        readFraction, if_true]
      simp only [List.cons_append] at u1 u2
      rw [u1, u2]
  have hIe : I.isEmpty = false := by
    cases I with
    | nil => exact absurd rfl hIne
    | cons a l => rfl
  simp only [readDouble, h1, t1, t2, hfr, hIe, Bool.false_and, Bool.not_false, hexp]
  simp only [Bool.not_true, Bool.false_eq_true, if_false]
  rw [if_neg hfin]

theorem expDigits_spec (x : Nat) :
    (∀ c ∈ expDigits x, isDigit c = true) ∧ expDigits x ≠ [] ∧ digitsVal 0 (expDigits x) = x := by
  unfold expDigits
  split
  · refine ⟨?_, by simp, ?_⟩
    · intro c hc
      rcases List.mem_cons.mp hc with h | h
      · subst h; decide
      · exact toDigits_all_digits x c h
    · show digitsVal (0 * 10 + digitVal '0') (Nat.toDigits 10 x) = x
      have : digitVal '0' = 0 := by decide
      rw [this]
      exact digitsVal_toDigits x
  · exact ⟨toDigits_all_digits x, toDigits_ne_nil x, digitsVal_toDigits x⟩

theorem readExponent_space (r : List Char) :
    readExponent true (' ' :: r) = (some 0, ' ' :: r) := by
  have h1 : ¬ ((' ' : Char) = 'e' ∨ (' ' : Char) = 'E') := by decide
  simp [readExponent, h1]

theorem readExponent_plus (x : Nat) (r : List Char) :
    readExponent true ('e' :: '+' :: (expDigits x ++ ' ' :: r)) = (some (x : Int), ' ' :: r) := by
  obtain ⟨e1, e2, e3⟩ := expDigits_spec x
  obtain ⟨t1, t2⟩ := takeWhile_append_stop isDigit (expDigits x) (' ' :: r) e1
    (by intro c hc; simp at hc; subst hc; decide)
  have hne : (expDigits x).isEmpty = false := by
    cases h : expDigits x with
    | nil => exact absurd h e2
    | cons a l => rfl
  have hs : readSign ('+' :: (expDigits x ++ ' ' :: r)) = (false, expDigits x ++ ' ' :: r) := by
    have : ('+' : Char) ≠ '-' := by decide
    simp [readSign, this]
  simp only [readExponent, true_or, and_self, if_true, hs, t1, t2, hne, e3]
  simp

theorem render_value (ds I F : List Char) (m i j : Nat) (e x : Int)
    (hds : ds = I ++ (F ++ List.replicate j '0')) (hval : digitsVal 0 ds = m)
    (hlen : ds.length = 6) (hI : I.length = i) (hei : e + i = x + 1) :
    (digitsVal 0 (I ++ F) : ℚ) * (10 : ℚ) ^ (e - (F.length : Int))
      = (m : ℚ) * (10 : ℚ) ^ (x - 5) := by
  have hm : m = digitsVal 0 (I ++ F) * 10 ^ j := by
    rw [← hval, hds, ← List.append_assoc, digitsVal_append_list, digitsVal_zeros]
  have hF : (F.length : Int) = 6 - i - j := by
    have : ds.length = I.length + (F.length + j) := by
      rw [hds]; simp
    omega
  have hexp : e - (F.length : Int) = (j : Int) + (x - 5) := by omega
  rw [hexp, zpow_add₀ (by norm_num : (10 : ℚ) ≠ 0), hm]
  push_cast
  rw [zpow_natCast]
  ring

theorem readDouble_renderG (m x : Nat) (hm1 : 100000 ≤ m) (hm2 : m < 1000000) (r : List Char)
    (hfin : ¬ doubleOverflow ≤ (m : ℚ) * (10 : ℚ) ^ ((x : Int) - 5)) :
    readDouble (' ' :: (renderG m (x : Int) ++ ' ' :: r))
      = some ((m : ℚ) * (10 : ℚ) ^ ((x : Int) - 5), ' ' :: r) := by
  have hlen : (Nat.toDigits 10 m).length = 6 := toDigits_length_of_bounds m 5 hm1 hm2
  have hall := toDigits_all_digits m
  have hval := digitsVal_toDigits m
  -- the shape shared by both styles
  have key : ∀ (i : Nat) (e : Int) (tail : List Char), 1 ≤ i → i ≤ 6 → e + i = (x : Int) + 1 →
      (∀ c ∈ tail.head?, isDigit c = false ∧ c ≠ '.') →
      readExponent true tail = (some e, ' ' :: r) →
      readDouble (' ' :: ((Nat.toDigits 10 m).take i
          ++ (withPoint (stripZeros ((Nat.toDigits 10 m).drop i)) ++ tail)))
        = some ((m : ℚ) * (10 : ℚ) ^ ((x : Int) - 5), ' ' :: r) := by
    intro i e tail hi1 hi6 hei htail hexp
    obtain ⟨j, hj⟩ := stripZeros_spec ((Nat.toDigits 10 m).drop i)
    have hds : Nat.toDigits 10 m = (Nat.toDigits 10 m).take i
        ++ (stripZeros ((Nat.toDigits 10 m).drop i) ++ List.replicate j '0') := by
      rw [← hj, List.take_append_drop]
    have hIlen : ((Nat.toDigits 10 m).take i).length = i := by
      rw [List.length_take, hlen]; omega
    have hv := render_value (Nat.toDigits 10 m) _ _ m i j e (x : Int) hds hval hlen hIlen hei
    have hI : ∀ c ∈ (Nat.toDigits 10 m).take i, isDigit c = true :=
      fun c hc => hall c (List.mem_of_mem_take hc)
    have hF : ∀ c ∈ stripZeros ((Nat.toDigits 10 m).drop i), isDigit c = true :=
      fun c hc => hall c (List.mem_of_mem_drop (stripZeros_subset _ c hc))
    have hIne : (Nat.toDigits 10 m).take i ≠ [] := by
      intro h0
      rw [h0] at hIlen
      simp at hIlen
      omega
    obtain ⟨c, cs, hcs⟩ : ∃ c cs, (Nat.toDigits 10 m).take i = c :: cs := by
      cases h : (Nat.toDigits 10 m).take i with
      | nil => exact absurd h hIne
      | cons c cs => exact ⟨c, cs, rfl⟩
    have hc : isDigit c = true := hI c (by rw [hcs]; exact List.mem_cons_self _ _)
    have h1 : readSign (skipWs (' ' :: ((Nat.toDigits 10 m).take i
          ++ (withPoint (stripZeros ((Nat.toDigits 10 m).drop i)) ++ tail))))
        = (false, (Nat.toDigits 10 m).take i
          ++ (withPoint (stripZeros ((Nat.toDigits 10 m).drop i)) ++ tail)) := by
      rw [hcs, List.cons_append, skipWs_space_cons _ _ (isDigit_not_space c hc),
        readSign_digit c _ hc]
    have := readDouble_of_parts _ false _ _ tail (' ' :: r) e h1 hI hIne hF htail hexp
      (by rw [hv]; exact hfin)
    rw [this, hv]
    simp
  by_cases hx : 6 ≤ x
  · have hcond : ((x : Int) < -4 ∨ 6 ≤ (x : Int)) := Or.inr (by omega)
    have hneg : ¬ ((x : Int) < 0) := by omega
    have hrw : renderG m (x : Int) ++ ' ' :: r
        = (Nat.toDigits 10 m).take 1
          ++ (withPoint (stripZeros ((Nat.toDigits 10 m).drop 1))
            ++ ('e' :: '+' :: (expDigits x ++ ' ' :: r))) := by
      simp only [renderG, if_pos hcond, if_neg hneg, Int.natAbs_ofNat, List.append_assoc,
        List.cons_append]
    rw [hrw]
    exact key 1 (x : Int) _ (by omega) (by omega) (by omega)
      (by intro c hc; simp at hc; subst hc; exact ⟨by decide, by decide⟩)
      (readExponent_plus x r)
  · have hcond : ¬ ((x : Int) < -4 ∨ 6 ≤ (x : Int)) := by omega
    have hpos : (0 : Int) ≤ (x : Int) := by omega
    have hrw : renderG m (x : Int) ++ ' ' :: r
        = (Nat.toDigits 10 m).take (x + 1)
          ++ (withPoint (stripZeros ((Nat.toDigits 10 m).drop (x + 1))) ++ (' ' :: r)) := by
      simp only [renderG, if_neg hcond, if_pos hpos, Int.toNat_ofNat, List.append_assoc]
    rw [hrw]
    exact key (x + 1) 0 _ (by omega) (by omega) (by push_cast; omega)
      (by intro c hc; simp at hc; subst hc; exact ⟨by decide, by decide⟩)
      (readExponent_space r)

theorem roundHalfEven_cases (p q : Nat) :
    roundHalfEven p q = p / q ∨ roundHalfEven p q = p / q + 1 := by
  unfold roundHalfEven
  simp only []
  split_ifs <;> simp

theorem roundHalfEven_one (p : Nat) : roundHalfEven p 1 = p := by
  unfold roundHalfEven
  simp [Nat.mod_one]

theorem sixDigits_nat (n : Nat) (hn : 1 ≤ n) :
    ∃ (m x : Nat), sixDigits n 1 = (m, (x : Int)) ∧ 100000 ≤ m ∧ m < 1000000 ∧
      x ≤ (Nat.toDigits 10 n).length ∧
      (n < 1000000 → (m : ℚ) * (10 : ℚ) ^ ((x : Int) - 5) = (n : ℚ)) := by
  obtain ⟨b1, b2⟩ := toDigits_length_bounds n hn
  have hL : 1 ≤ (Nat.toDigits 10 n).length := by
    cases h : Nat.toDigits 10 n with
    | nil => exact absurd h (toDigits_ne_nil n)
    | cons a l => simp
  obtain ⟨k, hk⟩ : ∃ k, (Nat.toDigits 10 n).length = k + 1 := ⟨_, (Nat.sub_add_cancel hL).symm⟩
  rw [hk] at b1 b2
  simp only [Nat.add_sub_cancel] at b1
  have hdec : decExponent n 1 = (k : Int) := by
    simp only [decExponent, if_pos hn, Nat.div_one, hk]
    push_cast
    omega
  by_cases hk5 : k ≤ 5
  · have hx : (5 - (k : Int)).toNat = 5 - k := by omega
    have hle : (k : Int) ≤ 5 := by omega
    have hm0 : n * 10 ^ (5 - k) < 1000000 ∧ 100000 ≤ n * 10 ^ (5 - k) := by
      interval_cases k <;> norm_num at b1 b2 ⊢ <;> omega
    refine ⟨n * 10 ^ (5 - k), k, ?_, hm0.2, hm0.1, by omega, ?_⟩
    · simp only [sixDigits, hdec, if_pos hle, hx, roundHalfEven_one]
      rw [if_neg (by omega)]
    · intro _
      push_cast
      rw [mul_assoc, ← zpow_natCast, ← zpow_add₀ (by norm_num : (10 : ℚ) ≠ 0)]
      have : ((5 - k : Nat) : Int) + ((k : Int) - 5) = 0 := by omega
      rw [this]; simp
  · have hx : ((k : Int) - 5).toNat = k - 5 := by omega
    have hle : ¬ (k : Int) ≤ 5 := by omega
    have hq : 10 ^ k = 100000 * 10 ^ (k - 5) := by
      have : k = 5 + (k - 5) := by omega
      conv_lhs => rw [this, Nat.pow_add]
    have hq2 : 10 ^ (k + 1) = 1000000 * 10 ^ (k - 5) := by
      have : k + 1 = 6 + (k - 5) := by omega
      conv_lhs => rw [this, Nat.pow_add]
    have hqpos : 0 < 10 ^ (k - 5) := Nat.pow_pos (by decide)
    have hd1 : 100000 ≤ n / 10 ^ (k - 5) := by
      rw [Nat.le_div_iff_mul_le hqpos]; omega
    have hd2 : n / 10 ^ (k - 5) < 1000000 := by
      rw [Nat.div_lt_iff_lt_mul hqpos]; omega
    have hbig : ¬ n < 1000000 := by
      intro hlt
      have : 10 ^ 6 ≤ 10 ^ k := Nat.pow_le_pow_right (by decide) (by omega)
      omega
    have hsix : sixDigits n 1
        = if roundHalfEven n (10 ^ (k - 5)) = 1000000 then (100000, (k : Int) + 1)
          else (roundHalfEven n (10 ^ (k - 5)), (k : Int)) := by
      simp only [sixDigits, hdec, if_neg hle, hx, Nat.one_mul]
    by_cases hcarry : roundHalfEven n (10 ^ (k - 5)) = 1000000
    · refine ⟨100000, k + 1, ?_, by omega, by omega, by omega, fun h => absurd h hbig⟩
      rw [hsix, if_pos hcarry]; simp
    · refine ⟨roundHalfEven n (10 ^ (k - 5)), k, ?_, ?_, ?_, by omega, fun h => absurd h hbig⟩
      · rw [hsix, if_neg hcarry]
      · rcases roundHalfEven_cases n (10 ^ (k - 5)) with h | h <;> omega
      · rcases roundHalfEven_cases n (10 ^ (k - 5)) with h | h <;> omega

theorem isByteCount_eq_natCast (v : ℚ) (h : IsByteCount v) :
    ∃ n : Nat, n < 2 ^ 53 ∧ v = (n : ℚ) := by
  obtain ⟨h1, h2, h3⟩ := h
  refine ⟨v.num.toNat, by omega, ?_⟩
  have hnum : ((v.num.toNat : Nat) : Int) = v.num := Int.toNat_of_nonneg h2
  have hv : v = (v.num : ℚ) := by
    conv_lhs => rw [← Rat.num_div_den v, h1]
    simp
  calc v = (v.num : ℚ) := hv
    _ = (((v.num.toNat : Nat) : Int) : ℚ) := by rw [hnum]
    _ = ((v.num.toNat : Nat) : ℚ) := by push_cast; rfl

theorem roundSix_natCast (n : Nat) (hn : 1 ≤ n) :
    fmtDouble (n : ℚ) = renderG (sixDigits n 1).1 (sixDigits n 1).2 ∧
    roundSix (n : ℚ) = ((sixDigits n 1).1 : ℚ) * (10 : ℚ) ^ ((sixDigits n 1).2 - 5) := by
  have h0 : ((n : ℚ) = 0) = False := by
    simp only [eq_iff_iff, iff_false]
    exact_mod_cast (by omega : n ≠ 0)
  have hneg : ¬ ((n : ℚ) < 0) := by
    have : (0 : ℚ) ≤ (n : ℚ) := Nat.cast_nonneg n
    linarith
  constructor
  · simp only [fmtDouble, h0, if_false, if_neg hneg, fmtG, Rat.num_natCast, Int.natAbs_ofNat,
      Rat.den_natCast]
  · simp only [roundSix, h0, if_false, if_neg hneg, Rat.num_natCast, Int.natAbs_ofNat,
      Rat.den_natCast, one_mul]

theorem readDouble_fmtDouble (v : ℚ) (hv : IsByteCount v) (r : List Char) :
    readDouble (' ' :: (fmtDouble v ++ ' ' :: r)) = some (roundSix v, ' ' :: r) := by
  obtain ⟨n, hn, rfl⟩ := isByteCount_eq_natCast v hv
  by_cases h0 : n = 0
  · subst h0
    have hfmt : fmtDouble ((0 : Nat) : ℚ) = ['0'] := by simp [fmtDouble]
    have hround : roundSix ((0 : Nat) : ℚ) = 0 := by simp [roundSix]
    rw [hfmt, hround]
    have h1 : readSign (skipWs (' ' :: (['0'] ++ ' ' :: r)))
        = (false, ['0'] ++ (withPoint [] ++ ' ' :: r)) := by
      simp only [List.cons_append, List.nil_append, withPoint, List.isEmpty_nil, if_true]
      rw [skipWs_space_cons _ _ (by decide), readSign_digit _ _ (by decide)]
    have := readDouble_of_parts _ false ['0'] [] (' ' :: r) (' ' :: r) 0 h1
      (by intro c hc; simp at hc; subst hc; decide) (by simp) (by simp)
      (by intro c hc; simp at hc; subst hc; exact ⟨by decide, by decide⟩)
      (readExponent_space r)
      (by
        have hz : digitsVal 0 (['0'] ++ []) = 0 := by decide
        rw [hz]
        norm_num [doubleOverflow])
    rw [this]
    have hz : digitsVal 0 (['0'] ++ []) = 0 := by decide
    rw [hz]
    simp
  · have hn1 : 1 ≤ n := by omega
    obtain ⟨m, x, hsix, hm1, hm2, hx, -⟩ := sixDigits_nat n hn1
    obtain ⟨e1, e2⟩ := roundSix_natCast n hn1
    rw [e1, e2, hsix]
    simp only []
    have hL : (Nat.toDigits 10 n).length ≤ 16 := by
      obtain ⟨b1, -⟩ := toDigits_length_bounds n hn1
      by_contra hc
      have : 10 ^ 16 ≤ 10 ^ ((Nat.toDigits 10 n).length - 1) :=
        Nat.pow_le_pow_right (by decide) (by omega)
      have h53 : (2 : Nat) ^ 53 < 10 ^ 16 := by norm_num
      omega
    have hfin : ¬ doubleOverflow ≤ (m : ℚ) * (10 : ℚ) ^ ((x : Int) - 5) := by
      have hp : (10 : ℚ) ^ ((x : Int) - 5) ≤ (10 : ℚ) ^ (11 : Int) :=
        zpow_le_zpow_right₀ (by norm_num) (by omega)
      have hp0 : (0 : ℚ) < (10 : ℚ) ^ ((x : Int) - 5) := zpow_pos (by norm_num) _
      have hmq : (m : ℚ) ≤ 1000000 := by exact_mod_cast (by omega : m ≤ 1000000)
      have h1 : (m : ℚ) * (10 : ℚ) ^ ((x : Int) - 5) ≤ 1000000 * (10 : ℚ) ^ (11 : Int) :=
        mul_le_mul hmq hp (le_of_lt hp0) (by norm_num)
      have h2 : (1000000 : ℚ) * (10 : ℚ) ^ (11 : Int) < doubleOverflow := by
        norm_num [doubleOverflow]
      intro hc
      linarith
    exact readDouble_renderG m x hm1 hm2 r hfin

theorem roundSix_small (v : ℚ) (hv : IsByteCount v) (hsmall : v < 1000000) : roundSix v = v := by
  obtain ⟨n, hn, rfl⟩ := isByteCount_eq_natCast v hv
  by_cases h0 : n = 0
  · subst h0; simp [roundSix]
  · have hn1 : 1 ≤ n := by omega
    obtain ⟨m, x, hsix, -, -, -, hval⟩ := sixDigits_nat n hn1
    obtain ⟨-, e2⟩ := roundSix_natCast n hn1
    rw [e2, hsix]
    exact hval (by exact_mod_cast hsmall)

theorem quotedLoop_escapeChars (s : List Char) :
    ∀ (rest acc : List Char),
      quotedLoop (escapeChars s ++ quoteDelim :: rest) acc = some (acc ++ s, rest) := by
  have hde : quoteDelim ≠ quoteEscape := by decide
  induction s with
  | nil =>
    intro rest acc
    cases rest with
    | nil => simp [escapeChars, quotedLoop, hde]
    | cons d cs => simp [escapeChars, quotedLoop, hde]
  | cons c s ih =>
    intro rest acc
    by_cases hc : c = quoteDelim ∨ c = quoteEscape
    · simp only [escapeChars, if_pos hc, List.cons_append, quotedLoop, if_true]
      rw [ih rest (acc ++ [c])]
      simp
    · have h1 : c ≠ quoteEscape := fun h => hc (Or.inr h)
      have h2 : c ≠ quoteDelim := fun h => hc (Or.inl h)
      simp only [escapeChars, if_neg hc, List.cons_append]
      cases htail : escapeChars s ++ quoteDelim :: rest with
      | nil => simp at htail
      | cons d cs =>
        simp only [quotedLoop, if_neg h1, if_neg h2]
        rw [← htail, ih rest (acc ++ [c])]
        simp

theorem readQuoted_fmtQuoted (s rest : List Char) :
    readQuoted (fmtQuoted s ++ rest) = some (s, rest) := by
  have hsp : isSpace quoteDelim = false := by decide
  have := quotedLoop_escapeChars s rest []
  simp only [List.nil_append] at this
  simp only [readQuoted, fmtQuoted, List.cons_append, List.append_assoc, List.singleton_append,
    skipWs_cons_of_not_space _ _ hsp, if_true, List.nil_append, this]

theorem readQuoted_space_fmtQuoted (s rest : List Char) :
    readQuoted (' ' :: (fmtQuoted s ++ rest)) = some (s, rest) := by
  have hsp : isSpace quoteDelim = false := by decide
  have := quotedLoop_escapeChars s rest []
  simp only [List.nil_append] at this
  simp only [readQuoted, fmtQuoted, List.cons_append, List.append_assoc, List.singleton_append,
    skipWs_space_cons _ _ hsp, if_true, List.nil_append, this]

theorem statusToInt_range (st : DownloadStatus) :
    (-(2 ^ 31) ≤ statusToInt st ∧ statusToInt st ≤ 2 ^ 31 - 1) ∧
      castStatus (statusToInt st) = some st := by
  cases st <;> exact ⟨by decide, by decide⟩

theorem parseLine_taskLine (t : DownloadTask) (h : t.FieldsInRange) :
    parseLine (taskLine t)
      = some t.toRecord := by
  unfold DownloadTask.toRecord
  obtain ⟨hb, ht, hh, he, ha, hn⟩ := h
  have hsp : ∀ (r : List Char), ∀ c ∈ (' ' :: r).head?, isDigit c = false := by
    intro r c hc; simp at hc; subst hc; decide
  have e0 : taskLine t
      = fmtQuoted t.url.data ++ (' ' :: (fmtQuoted t.destination.data ++ (' ' :: (fmtDouble t.bytesDownloaded ++ (' ' :: (fmtDouble t.totalBytes ++ (' ' :: (fmtInt (statusToInt t.status) ++ (' ' :: (fmtInt t.httpStatus ++ (' ' :: (fmtInt t.errorCode ++ (' ' :: (fmtInt t.addedAt ++ (' ' :: (fmtInt t.endedAt ++ [])))))))))))))))) := by
    simp only [taskLine, List.append_assoc, List.singleton_append, List.append_nil,
      List.cons_append, List.nil_append]
  have r1 := readQuoted_fmtQuoted t.url.data
    (' ' :: (fmtQuoted t.destination.data ++ (' ' :: (fmtDouble t.bytesDownloaded ++ (' ' :: (fmtDouble t.totalBytes ++ (' ' :: (fmtInt (statusToInt t.status) ++ (' ' :: (fmtInt t.httpStatus ++ (' ' :: (fmtInt t.errorCode ++ (' ' :: (fmtInt t.addedAt ++ (' ' :: (fmtInt t.endedAt ++ []))))))))))))))))
  have r2 := readQuoted_space_fmtQuoted t.destination.data
    (' ' :: (fmtDouble t.bytesDownloaded ++ (' ' :: (fmtDouble t.totalBytes ++ (' ' :: (fmtInt (statusToInt t.status) ++ (' ' :: (fmtInt t.httpStatus ++ (' ' :: (fmtInt t.errorCode ++ (' ' :: (fmtInt t.addedAt ++ (' ' :: (fmtInt t.endedAt ++ []))))))))))))))
  have r3 := readDouble_fmtDouble t.bytesDownloaded hb
    (fmtDouble t.totalBytes ++ (' ' :: (fmtInt (statusToInt t.status) ++ (' ' :: (fmtInt t.httpStatus ++ (' ' :: (fmtInt t.errorCode ++ (' ' :: (fmtInt t.addedAt ++ (' ' :: (fmtInt t.endedAt ++ [])))))))))))
  have r4 := readDouble_fmtDouble t.totalBytes ht
    (fmtInt (statusToInt t.status) ++ (' ' :: (fmtInt t.httpStatus ++ (' ' :: (fmtInt t.errorCode ++ (' ' :: (fmtInt t.addedAt ++ (' ' :: (fmtInt t.endedAt ++ [])))))))))
  have r5 := readInt_fmtInt (-(2 ^ 31)) (2 ^ 31 - 1) (statusToInt t.status)
    (' ' :: (fmtInt t.httpStatus ++ (' ' :: (fmtInt t.errorCode ++ (' ' :: (fmtInt t.addedAt ++ (' ' :: (fmtInt t.endedAt ++ [])))))))) (statusToInt_range t.status).1.1 (statusToInt_range t.status).1.2 (hsp _)
  have r6 := readInt_fmtInt (-(2 ^ 31)) (2 ^ 31 - 1) t.httpStatus
    (' ' :: (fmtInt t.errorCode ++ (' ' :: (fmtInt t.addedAt ++ (' ' :: (fmtInt t.endedAt ++ [])))))) hh.1 hh.2 (hsp _)
  have r7 := readInt_fmtInt (-(2 ^ 31)) (2 ^ 31 - 1) t.errorCode
    (' ' :: (fmtInt t.addedAt ++ (' ' :: (fmtInt t.endedAt ++ [])))) he.1 he.2 (hsp _)
  have r8 := readInt_fmtInt (-(2 ^ 63)) (2 ^ 63 - 1) t.addedAt
    (' ' :: (fmtInt t.endedAt ++ [])) ha.1 ha.2 (hsp _)
  have r9 := readInt_fmtInt (-(2 ^ 63)) (2 ^ 63 - 1) t.endedAt [] hn.1 hn.2 (by simp)
  rw [e0]
  simp only [parseLine, readInt32, readInt64, r1, r2, r3, r4, r5, r6, r7, r8, r9]

theorem addTask_collection (s : DownloadManager) (task : TaskId) (st : DownloadStatus) :
    (addTaskToStatusContainer s task).collection st
      = if (s.heap task).status = st ∧ st ≠ .CANCELED then s.collection st ++ [task]
        else s.collection st := by
  unfold addTaskToStatusContainer
  cases h : (s.heap task).status <;> cases st <;> simp [DownloadManager.collection]

theorem addTask_frame (s : DownloadManager) (task : TaskId) :
    (addTaskToStatusContainer s task).heap = s.heap ∧
    (addTaskToStatusContainer s task).nextId = s.nextId ∧
    (addTaskToStatusContainer s task).threadPool = s.threadPool := by
  unfold addTaskToStatusContainer
  cases h : (s.heap task).status <;> exact ⟨rfl, rfl, rfl⟩

theorem loadRecord_spec (s : DownloadManager) (r : TaskRecord) (hinv : s.IdsAllocated) :
    (loadRecord s r).IdsAllocated ∧
    (loadRecord s r).threadPool = s.threadPool ∧
    ∀ st, st ≠ .CANCELED →
      (loadRecord s r).tasksIn st
        = s.tasksIn st ++ (if castStatus r.statusInt = some st then [r.toTask st] else []) := by
  unfold loadRecord
  rcases hcast : castStatus r.statusInt with _ | st0
  · exact ⟨hinv, rfl, fun st _ => by simp⟩
  · obtain ⟨f1, f2, f3⟩ := addTask_frame (allocTask s (r.toTask st0)) s.nextId
    have hnew : ((allocTask s (r.toTask st0)).heap s.nextId).status = st0 := by
      simp [allocTask, TaskRecord.toTask]
    have hcol : ∀ st, (allocTask s (r.toTask st0)).collection st = s.collection st := by
      intro st; cases st <;> rfl
    refine ⟨?_, ?_, ?_⟩
    · intro st task ht
      simp only [f2]
      rw [addTask_collection, hnew, hcol] at ht
      show task < s.nextId + 1
      split at ht
      · rcases List.mem_append.mp ht with h | h
        · exact Nat.lt_succ_of_lt (hinv st task h)
        · rw [List.mem_singleton.mp h]; exact Nat.lt_succ_self _
      · exact Nat.lt_succ_of_lt (hinv st task ht)
    · rw [f3]; rfl
    · intro st hst
      have hmap : ∀ l : List TaskId, (∀ task ∈ l, task < s.nextId) →
          l.map (allocTask s (r.toTask st0)).heap = l.map s.heap := by
        intro l hl
        apply List.map_congr_left
        intro task ht
        simp only [allocTask]
        rw [if_neg (Nat.ne_of_lt (hl task ht))]
      simp only [DownloadManager.tasksIn, f1]
      rw [addTask_collection, hnew, hcol]
      by_cases hs : st0 = st
      · subst hs
        rw [if_pos ⟨rfl, hst⟩, List.map_append, hmap _ (hinv st0)]
        simp [allocTask]
      · have hs2 : ¬ (some st0 = some st) := by simpa using hs
        rw [if_neg (fun h => hs h.1), if_neg hs2, hmap _ (hinv st)]
        simp

theorem loadLines_spec : ∀ (ls : List (List Char)) (s : DownloadManager), s.IdsAllocated →
    (loadLines ls s).IdsAllocated ∧
    (loadLines ls s).threadPool = s.threadPool ∧
    ∀ st, st ≠ .CANCELED →
      (loadLines ls s).tasksIn st
        = s.tasksIn st ++ tasksWithStatus
            (((ls.filter (fun l => !l.isEmpty)).takeWhile
              (fun l => (parseLine l).isSome)).filterMap parseLine) st := by
  intro ls
  induction ls with
  | nil => intro s hinv; exact ⟨hinv, rfl, fun st _ => by simp [loadLines, tasksWithStatus]⟩
  | cons line rest ih =>
    intro s hinv
    by_cases hempty : line.isEmpty = true
    · have := ih s hinv
      simpa [loadLines, hempty] using this
    · rcases hparse : parseLine line with _ | r
      · refine ⟨by simpa [loadLines, hempty, hparse] using hinv,
          by simp [loadLines, hempty, hparse], fun st _ => ?_⟩
        simp [loadLines, hempty, hparse, tasksWithStatus, List.takeWhile]
      · obtain ⟨i1, i2, i3⟩ := loadRecord_spec s r hinv
        obtain ⟨j1, j2, j3⟩ := ih (loadRecord s r) i1
        refine ⟨by simpa [loadLines, hempty, hparse] using j1,
          by simpa [loadLines, hempty, hparse, i2] using j2, fun st hst => ?_⟩
        have := j3 st hst
        rw [i3 st hst] at this
        simp only [loadLines, hempty, hparse, Bool.false_eq_true, if_false]
        rw [this]
        simp only [tasksWithStatus, List.filter, hempty, Bool.not_false, List.takeWhile, hparse,
          Option.isSome_some, List.filterMap_cons, List.append_assoc]
        split <;> simp

/-! ### The text of a saved state, line by line -/

theorem splitLines_line (l : List Char) (hl : Char.ofNat 10 ∉ l) :
    ∀ (cur rest : List Char),
      splitLines cur (l ++ Char.ofNat 10 :: rest) = (cur.reverse ++ l) :: splitLines [] rest := by
  induction l with
  | nil => intro cur rest; simp [splitLines]
  | cons c l ih =>
    intro cur rest
    have hc : c ≠ Char.ofNat 10 := fun h => hl (by rw [h]; exact List.mem_cons_self _ _)
    have hl2 : Char.ofNat 10 ∉ l := fun h => hl (List.mem_cons_of_mem _ h)
    have e := ih hl2 (c :: cur) rest
    have step : splitLines cur (c :: l ++ Char.ofNat 10 :: rest)
        = splitLines (c :: cur) (l ++ Char.ofNat 10 :: rest) := by
      show splitLines cur (c :: (l ++ Char.ofNat 10 :: rest)) = _
      rw [splitLines, if_neg hc]
    rw [step, e]
    simp

/-- Lines written one after the other. -/
theorem splitLines_lines : ∀ (ls : List (List Char)), (∀ l ∈ ls, Char.ofNat 10 ∉ l) →
    splitLines [] ((ls.map (fun l => l ++ [Char.ofNat 10])).flatten) = ls := by
  intro ls
  induction ls with
  | nil => intro _; simp [splitLines]
  | cons l ls ih =>
    intro h
    have h1 : Char.ofNat 10 ∉ l := h l (List.mem_cons_self _ _)
    have h2 := ih (fun x hx => h x (List.mem_cons_of_mem _ hx))
    simp only [List.map_cons, List.flatten_cons, List.append_assoc, List.singleton_append]
    rw [splitLines_line l h1 [] _, h2]
    simp

theorem writeContainer_eq (heap : TaskId → DownloadTask) (ids : List TaskId) :
    writeContainer heap ids
      = ((ids.map heap).map (fun t => taskLine t ++ [Char.ofNat 10])).flatten := by
  induction ids with
  | nil => rfl
  | cons a l ih => simp [writeContainer, writeTask, ih]

theorem newline_not_digit (l : List Char) (h : ∀ c ∈ l, isDigit c = true) :
    Char.ofNat 10 ∉ l := by
  intro hm
  exact absurd (h _ hm) (by decide)

theorem newline_not_mem_toDigits (n : Nat) : Char.ofNat 10 ∉ Nat.toDigits 10 n :=
  newline_not_digit _ (toDigits_all_digits n)

theorem newline_not_mem_fmtInt (i : Int) : Char.ofNat 10 ∉ fmtInt i := by
  unfold fmtInt
  split
  · intro h
    rcases List.mem_cons.mp h with h | h
    · exact absurd h (by decide)
    · exact newline_not_mem_toDigits _ h
  · exact newline_not_mem_toDigits _

theorem newline_not_mem_escapeChars (s : List Char) (h : Char.ofNat 10 ∉ s) :
    Char.ofNat 10 ∉ escapeChars s := by
  induction s with
  | nil => simp [escapeChars]
  | cons c s ih =>
    have hc : Char.ofNat 10 ≠ c := fun e => h (by rw [e]; exact List.mem_cons_self _ _)
    have hs := ih (fun e => h (List.mem_cons_of_mem _ e))
    have he : Char.ofNat 10 ≠ quoteEscape := by decide
    unfold escapeChars
    split
    · intro hm
      rcases List.mem_cons.mp hm with e | hm
      · exact he e
      · rcases List.mem_cons.mp hm with e | hm
        · exact hc e
        · exact hs hm
    · intro hm
      rcases List.mem_cons.mp hm with e | hm
      · exact hc e
      · exact hs hm

theorem newline_not_mem_fmtQuoted (s : List Char) (h : Char.ofNat 10 ∉ s) :
    Char.ofNat 10 ∉ fmtQuoted s := by
  have hd : Char.ofNat 10 ≠ quoteDelim := by decide
  intro hm
  simp only [fmtQuoted, List.mem_cons, List.mem_append, List.mem_singleton] at hm
  rcases hm with e | e | e
  · exact hd e
  · exact newline_not_mem_escapeChars s h e
  · rcases e with e | e
    · exact hd e
    · exact absurd e (List.not_mem_nil _)

theorem newline_not_mem_withPoint (fp : List Char) (h : Char.ofNat 10 ∉ fp) :
    Char.ofNat 10 ∉ withPoint fp := by
  unfold withPoint
  split
  · simp
  · intro hm
    rcases List.mem_cons.mp hm with e | e
    · exact absurd e (by decide)
    · exact h e

theorem newline_not_mem_renderG (m : Nat) (x : Int) : Char.ofNat 10 ∉ renderG m x := by
  have hds := newline_not_mem_toDigits m
  have htake : ∀ k, Char.ofNat 10 ∉ (Nat.toDigits 10 m).take k :=
    fun k h => hds (List.mem_of_mem_take h)
  have hstrip : ∀ k, Char.ofNat 10 ∉ withPoint (stripZeros ((Nat.toDigits 10 m).drop k)) :=
    fun k => newline_not_mem_withPoint _
      (fun h => hds (List.mem_of_mem_drop (stripZeros_subset _ _ h)))
  have hexp : Char.ofNat 10 ∉ expDigits x.natAbs := newline_not_digit _ (expDigits_spec _).1
  unfold renderG
  simp only []
  split
  · intro hm
    rcases List.mem_append.mp hm with hm | hm
    · rcases List.mem_append.mp hm with hm | hm
      · exact htake 1 hm
      · exact hstrip 1 hm
    · rcases List.mem_cons.mp hm with e | hm
      · exact absurd e (by decide)
      · rcases List.mem_cons.mp hm with e | hm
        · split at e <;> exact absurd e (by decide)
        · exact hexp hm
  · split
    · intro hm
      rcases List.mem_append.mp hm with hm | hm
      · exact htake _ hm
      · exact hstrip _ hm
    · intro hm
      rcases List.mem_cons.mp hm with e | hm
      · exact absurd e (by decide)
      · refine newline_not_mem_withPoint _ (fun h => ?_) hm
        have h2 := stripZeros_subset _ _ h
        rcases List.mem_append.mp h2 with h3 | h3
        · exact absurd (List.eq_of_mem_replicate h3) (by decide)
        · exact hds h3

theorem newline_not_mem_fmtDouble (v : ℚ) : Char.ofNat 10 ∉ fmtDouble v := by
  unfold fmtDouble
  split
  · decide
  · split
    · intro hm
      rcases List.mem_cons.mp hm with e | hm
      · exact absurd e (by decide)
      · exact newline_not_mem_renderG _ _ hm
    · exact newline_not_mem_renderG _ _

theorem newline_not_mem_taskLine (t : DownloadTask) (hu : Char.ofNat 10 ∉ t.url.data)
    (hd : Char.ofNat 10 ∉ t.destination.data) : Char.ofNat 10 ∉ taskLine t := by
  have hs : Char.ofNat 10 ≠ ' ' := by decide
  simp only [taskLine, List.mem_append, List.mem_singleton, not_or]
  exact ⟨⟨⟨⟨⟨⟨⟨⟨⟨⟨⟨⟨⟨⟨⟨⟨newline_not_mem_fmtQuoted _ hu, hs⟩,
    newline_not_mem_fmtQuoted _ hd⟩, hs⟩, newline_not_mem_fmtDouble _⟩, hs⟩,
    newline_not_mem_fmtDouble _⟩, hs⟩, newline_not_mem_fmtInt _⟩, hs⟩,
    newline_not_mem_fmtInt _⟩, hs⟩, newline_not_mem_fmtInt _⟩, hs⟩,
    newline_not_mem_fmtInt _⟩, hs⟩, newline_not_mem_fmtInt _⟩

theorem taskLine_ne_nil (t : DownloadTask) : (taskLine t).isEmpty = false := by
  simp [taskLine, fmtQuoted]

theorem stateText_eq (s : DownloadManager) :
    stateText s
      = (((s.held.map s.heap).map taskLine).map (fun l => l ++ [Char.ofNat 10])).flatten := by
  simp only [stateText, writeContainer_eq, DownloadManager.held, List.map_append,
    List.flatten_append, List.map_map, List.append_assoc]
  rfl

theorem decoded_lines (ts : List DownloadTask) (h : ∀ t ∈ ts, t.FieldsInRange) :
    (((ts.map taskLine).filter (fun l => !l.isEmpty)).takeWhile
      (fun l => (parseLine l).isSome)).filterMap parseLine = ts.map DownloadTask.toRecord := by
  induction ts with
  | nil => rfl
  | cons t ts ih =>
    have ht := parseLine_taskLine t (h t (List.mem_cons_self _ _))
    have hne := taskLine_ne_nil t
    have := ih (fun u hu => h u (List.mem_cons_of_mem _ hu))
    simp only [List.map_cons, List.filter, hne, Bool.not_false, List.takeWhile, ht,
      Option.isSome_some, List.filterMap_cons, this]

theorem tasksWithStatus_records (ts : List DownloadTask) (st : DownloadStatus) :
    tasksWithStatus (ts.map DownloadTask.toRecord) st
      = (ts.filter (fun t => decide (t.status = st))).map DownloadTask.reloaded := by
  induction ts with
  | nil => rfl
  | cons t ts ih =>
    have hc : castStatus (t.toRecord).statusInt = some t.status := (statusToInt_range t.status).2
    simp only [tasksWithStatus] at ih
    by_cases hs : t.status = st
    · have h1 : castStatus (t.toRecord).statusInt = some st := by rw [hc, hs]
      simp only [tasksWithStatus, List.map_cons, List.filterMap_cons, h1, if_true, ih,
        List.filter, hs, decide_True, List.map_cons]
      congr 1
      subst hs
      rfl
    · have h1 : ¬ castStatus (t.toRecord).statusInt = some st := by
        rw [hc]; simpa using hs
      simp only [tasksWithStatus, List.map_cons, List.filterMap_cons, h1, if_false, ih,
        List.filter, hs, decide_False]

theorem new_spec (w : Nat) (content : List Char) (wr : Bool) :
    (DownloadManager.new w (some content) wr).threadPool.tasks = [] ∧
    ∀ st, st ≠ .CANCELED →
      (DownloadManager.new w (some content) wr).tasksIn st
        = tasksWithStatus (decodedRecords content) st := by
  have hinv : DownloadManager.IdsAllocated
      { heap := fun _ => DownloadTask.new "", nextId := 0, threadPool := { workers := w },
        stateFile := some content, stateFileWritable := wr,
        queued := [], active := [], paused := [], completed := [], failed := [] } := by
    intro st task ht
    cases st <;> simp [DownloadManager.collection] at ht
  obtain ⟨-, h2, h3⟩ := loadLines_spec (splitLines [] content) _ hinv
  refine ⟨?_, ?_⟩
  · simp only [DownloadManager.new, loadState, h2]
  · intro st hst
    have := h3 st hst
    simp only [DownloadManager.new, loadState, decodedRecords]
    rw [this]
    cases st <;> simp [DownloadManager.tasksIn, DownloadManager.collection]

theorem saved_then_loaded (s : DownloadManager) (w : Nat) (wr : Bool)
    (hw : s.stateFileWritable = true) (hs : s.Storable) :
    (DownloadManager.new w (saveState s).stateFile wr).threadPool.tasks = [] ∧
    ∀ st, st ≠ .CANCELED →
      (DownloadManager.new w (saveState s).stateFile wr).tasksIn st
        = ((s.held.map s.heap).filter (fun t => decide (t.status = st))).map
            DownloadTask.reloaded := by
  have hfile : (saveState s).stateFile = some (stateText s) := by
    simp [saveState, hw]
  have hrange : ∀ t ∈ s.held.map s.heap, t.FieldsInRange := by
    intro t ht
    obtain ⟨task, hmem, rfl⟩ := List.mem_map.mp ht
    exact (hs task hmem).1
  have hnl : ∀ l ∈ (s.held.map s.heap).map taskLine, Char.ofNat 10 ∉ l := by
    intro l hl
    obtain ⟨t, ht, rfl⟩ := List.mem_map.mp hl
    obtain ⟨task, hmem, rfl⟩ := List.mem_map.mp ht
    exact newline_not_mem_taskLine _ (hs task hmem).2.1 (hs task hmem).2.2
  have hdec : decodedRecords (stateText s) = (s.held.map s.heap).map DownloadTask.toRecord := by
    unfold decodedRecords
    rw [stateText_eq, splitLines_lines _ hnl, decoded_lines _ hrange]
  obtain ⟨n1, n2⟩ := new_spec w (stateText s) wr
  rw [hfile]
  refine ⟨n1, fun st hst => ?_⟩
  rw [n2 st hst, hdec, tasksWithStatus_records]

theorem filter_status_map (heap : TaskId → DownloadTask) (l : List TaskId)
    (c st : DownloadStatus) (h : ∀ task ∈ l, (heap task).status = c) :
    (l.map heap).filter (fun t => decide (t.status = st)) = if c = st then l.map heap else [] := by
  split
  · rename_i hc
    rw [List.filter_eq_self]
    intro t ht
    obtain ⟨task, hmem, rfl⟩ := List.mem_map.mp ht
    simpa [← hc] using h task hmem
  · rename_i hc
    rw [List.filter_eq_nil_iff]
    intro t ht
    obtain ⟨task, hmem, rfl⟩ := List.mem_map.mp ht
    simpa [h task hmem] using hc

theorem held_filter_status (s : DownloadManager) (hm : s.StatusMatches) (st : DownloadStatus)
    (hst : st ≠ .CANCELED) :
    (s.held.map s.heap).filter (fun t => decide (t.status = st)) = s.tasksIn st := by
  obtain ⟨h1, h2, h3, h4, h5⟩ := hm
  simp only [DownloadManager.held, List.map_append, List.filter_append,
    filter_status_map s.heap _ _ st h1, filter_status_map s.heap _ _ st h2,
    filter_status_map s.heap _ _ st h3, filter_status_map s.heap _ _ st h4,
    filter_status_map s.heap _ _ st h5]
  cases st <;> simp [DownloadManager.tasksIn, DownloadManager.collection] at hst ⊢

/-! ## Pause, resume and cancel on a task whose status matches its collection -/

theorem erase_getElem_of_count_one {α : Type} [DecidableEq α] :
    ∀ (l : List α) (i : Nat) (h : i < l.length), l.count l[i] = 1 → l.erase l[i] = l.eraseIdx i := by
  intro l
  induction l with
  | nil => intro i h; simp at h
  | cons a l ih =>
    intro i h hc
    cases i with
    | zero => simp
    | succ i =>
      have hi : i < l.length := by simpa using h
      simp only [List.getElem_cons_succ] at hc ⊢
      have hne : a ≠ l[i] := by
        intro heq
        have hmem : l[i] ∈ l := List.getElem_mem hi
        have hpos : 0 < l.count l[i] := List.count_pos_iff.mpr hmem
        rw [List.count_cons, heq] at hc
        simp at hc
        omega
      have hc2 : l.count l[i] = 1 := by
        rw [List.count_cons] at hc
        simpa [hne] using hc
      rw [List.erase_cons_tail (by simpa using hne), List.eraseIdx_cons_succ, ih i hi hc2]

theorem not_mem_erase_of_count_one {α : Type} [DecidableEq α] (l : List α) (a : α)
    (h : l.count a = 1) : a ∉ l.erase a := by
  rw [← List.count_eq_zero, List.count_erase_self, h]

/-- Cancelling an active task that has status `ACTIVE` and is held once, in active only: it gets
status `CANCELED` and is in no collection; nothing else changes. -/
theorem cancelDownload_of_active_status (s : DownloadManager) (index : Nat)
    (h : index < s.active.length)
    (hst : (s.heap s.active[index]).status = .ACTIVE)
    (honce : s.active.count s.active[index] = 1)
    (hq : s.active[index] ∉ s.queued) (hp : s.active[index] ∉ s.paused)
    (hc : s.active[index] ∉ s.completed) (hf : s.active[index] ∉ s.failed) :
    (cancelDownload s index).heap s.active[index]
      = { s.heap s.active[index] with status := .CANCELED } ∧
    (∀ task, task ≠ s.active[index] → (cancelDownload s index).heap task = s.heap task) ∧
    s.active[index] ∉ (cancelDownload s index).held ∧
    (cancelDownload s index).active = s.active.eraseIdx index ∧
    (cancelDownload s index).queued = s.queued ∧ (cancelDownload s index).paused = s.paused ∧
    (cancelDownload s index).completed = s.completed ∧
    (cancelDownload s index).failed = s.failed := by
  have herase := erase_getElem_of_count_one s.active index h honce
  have hnot := not_mem_erase_of_count_one s.active _ honce
  simp only [cancelDownload, dif_pos h, updateTaskStatus, removeTaskFromCurrentContainer, hst,
    modifyTask, ne_eq, not_true_eq_false, if_false, saveState_heap, saveState_active,
    saveState_queued, saveState_paused, saveState_completed, saveState_failed,
    DownloadManager.held]
  refine ⟨by simp, fun task ht => by simp [ht], ?_, herase, trivial, trivial, trivial, trivial⟩
  simp only [saveState_queued, saveState_active, saveState_paused, saveState_completed,
    saveState_failed, List.mem_append, not_or]
  exact ⟨⟨⟨⟨hq, hnot⟩, hp⟩, hc⟩, hf⟩

/-- Resuming a paused task that has status `PAUSED` and is held once in paused: the resume flag
is raised, the status becomes `QUEUED`, the task moves from paused to the end of queued, and
nothing else changes. -/
theorem resumeDownload_of_paused_status (s : DownloadManager) (index : Nat)
    (h : index < s.paused.length)
    (hst : (s.heap s.paused[index]).status = .PAUSED)
    (honce : s.paused.count s.paused[index] = 1) :
    (resumeDownload s index).heap s.paused[index]
      = { s.heap s.paused[index] with resumeEnabled := true, status := .QUEUED } ∧
    (∀ task, task ≠ s.paused[index] → (resumeDownload s index).heap task = s.heap task) ∧
    (resumeDownload s index).paused = s.paused.eraseIdx index ∧
    (resumeDownload s index).queued = s.queued ++ [s.paused[index]] ∧
    (resumeDownload s index).active = s.active ∧
    (resumeDownload s index).completed = s.completed ∧
    (resumeDownload s index).failed = s.failed := by
  have herase := erase_getElem_of_count_one s.paused index h honce
  simp only [resumeDownload, dif_pos h, updateTaskStatus, removeTaskFromCurrentContainer,
    modifyTask, DownloadTask.resume, if_true, hst, ne_eq, reduceCtorEq, not_false_eq_true,
    addTaskToStatusContainer, saveState_heap, saveState_active, saveState_queued,
    saveState_paused, saveState_completed, saveState_failed]
  exact ⟨by simp, fun task ht => by simp [ht], herase, trivial, trivial, trivial, trivial⟩

/-! ## `updateTaskStatus` on the collections -/

theorem updateTaskStatus_heap (s : DownloadManager) (task : TaskId) (st : DownloadStatus) :
    (updateTaskStatus s task st).heap
      = fun j => if j = task then { s.heap j with status := st } else s.heap j := by
  unfold updateTaskStatus removeTaskFromCurrentContainer addTaskToStatusContainer modifyTask
  cases h : (s.heap task).status <;> cases st <;> simp [h]

theorem updateTaskStatus_frame (s : DownloadManager) (task : TaskId) (st : DownloadStatus) :
    (updateTaskStatus s task st).nextId = s.nextId ∧
    (updateTaskStatus s task st).threadPool = s.threadPool ∧
    (updateTaskStatus s task st).stateFileWritable = s.stateFileWritable := by
  unfold updateTaskStatus removeTaskFromCurrentContainer addTaskToStatusContainer modifyTask
    saveState
  cases h : (s.heap task).status <;> cases st <;> simp [h] <;> split <;> simp

theorem updateTaskStatus_collection (s : DownloadManager) (task : TaskId)
    (st c : DownloadStatus) :
    (updateTaskStatus s task st).collection c
      = (if c = (s.heap task).status then (s.collection c).erase task else s.collection c)
        ++ (if c = st ∧ st ≠ .CANCELED then [task] else []) := by
  unfold updateTaskStatus removeTaskFromCurrentContainer addTaskToStatusContainer modifyTask
  cases h : (s.heap task).status <;> cases st <;> cases c <;>
    simp [h, DownloadManager.collection]

/-! ## The loops of the operations on all downloads -/

/-- The first loop of `pauseAllDownloads` never ends when the task at the back of active is not
marked `ACTIVE`: `updateTaskStatus` then leaves active as it is. -/
theorem pauseActiveLoop_diverges (fuel : Nat) :
    ∀ (s : DownloadManager) (task : TaskId), s.active.getLast? = some task →
      (s.heap task).status ≠ .ACTIVE → pauseActiveLoop fuel s = none := by
  induction fuel with
  | zero => intro s task _ _; rfl
  | succ fuel ih =>
    intro s task h1 h2
    simp only [pauseActiveLoop, h1]
    apply ih (updateTaskStatus s task .PAUSED) task
    · have := updateTaskStatus_collection s task .PAUSED .ACTIVE
      simp only [DownloadManager.collection] at this
      rw [this, if_neg (fun h => h2 h.symm)]
      simpa using h1
    · rw [updateTaskStatus_heap]
      simp

/-- The second loop of `pauseAllDownloads` never ends when the task at the back of queued is
not marked `QUEUED`. -/
theorem pauseQueuedLoop_diverges (fuel : Nat) :
    ∀ (s : DownloadManager) (task : TaskId), s.queued.getLast? = some task →
      (s.heap task).status ≠ .QUEUED → pauseQueuedLoop fuel s = none := by
  induction fuel with
  | zero => intro s task _ _; rfl
  | succ fuel ih =>
    intro s task h1 h2
    simp only [pauseQueuedLoop, h1]
    apply ih (updateTaskStatus s task .PAUSED) task
    · have := updateTaskStatus_collection s task .PAUSED .QUEUED
      simp only [DownloadManager.collection] at this
      rw [this, if_neg (fun h => h2 h.symm)]
      simpa using h1
    · rw [updateTaskStatus_heap]
      simp


/-! ## `queueDownload` -/

/-- The error branch of `queueDownload`: the destination is empty and the lookup sets an error
code. -/
theorem queueDownload_error (env : Env) (s : DownloadManager) (url destination : String)
    (hd : destination.isEmpty = true) (he : (env.resolve url).errorCode ≠ CURLE_OK) :
    (queueDownload env s url destination).heap
      = (fun j => if j = s.nextId then
          { url := url, httpStatus := (env.resolve url).httpStatus,
            errorCode := (env.resolve url).errorCode, status := .FAILED }
        else s.heap j) ∧
    (queueDownload env s url destination).nextId = s.nextId + 1 ∧
    (queueDownload env s url destination).queued = s.queued.erase s.nextId ∧
    (queueDownload env s url destination).failed = s.failed ++ [s.nextId] ∧
    (queueDownload env s url destination).active = s.active ∧
    (queueDownload env s url destination).paused = s.paused ∧
    (queueDownload env s url destination).completed = s.completed ∧
    (queueDownload env s url destination).threadPool = s.threadPool := by
  have hnew : (if (env.resolve url).errorCode ≠ CURLE_OK then (env.resolve url).errorCode
      else CURLE_OK) = (env.resolve url).errorCode := by rw [if_pos he]
  have hcond : (modifyTask (allocTask s (DownloadTask.new url)) s.nextId
      (fun _ => (resolveFilenameFromServer env
        ((allocTask s (DownloadTask.new url)).heap s.nextId)).2)).heap s.nextId
      = { url := url, httpStatus := (env.resolve url).httpStatus,
          errorCode := (env.resolve url).errorCode } := by
    simp [modifyTask, allocTask, resolveFilenameFromServer, DownloadTask.new, hnew]
  have hq : queueDownload env s url destination
      = updateTaskStatus (modifyTask (allocTask s (DownloadTask.new url)) s.nextId
          (fun _ => (resolveFilenameFromServer env
            ((allocTask s (DownloadTask.new url)).heap s.nextId)).2)) s.nextId .FAILED := by
    simp only [queueDownload, hd, if_true]
    rw [if_pos (by rw [hcond]; exact he)]
  have hstat : ((modifyTask (allocTask s (DownloadTask.new url)) s.nextId
      (fun _ => (resolveFilenameFromServer env
        ((allocTask s (DownloadTask.new url)).heap s.nextId)).2)).heap s.nextId).status
      = .QUEUED := by rw [hcond]
  have hcol := updateTaskStatus_collection (modifyTask (allocTask s (DownloadTask.new url))
    s.nextId (fun _ => (resolveFilenameFromServer env
      ((allocTask s (DownloadTask.new url)).heap s.nextId)).2)) s.nextId .FAILED
  have hfr := updateTaskStatus_frame (modifyTask (allocTask s (DownloadTask.new url))
    s.nextId (fun _ => (resolveFilenameFromServer env
      ((allocTask s (DownloadTask.new url)).heap s.nextId)).2)) s.nextId .FAILED
  have hQ := hcol .QUEUED
  have hA := hcol .ACTIVE
  have hP := hcol .PAUSED
  have hC := hcol .COMPLETED
  have hF := hcol .FAILED
  rw [hstat] at hQ hA hP hC hF
  simp only [DownloadManager.collection, if_true, reduceCtorEq, if_false, List.append_nil,
    ne_eq, not_false_eq_true, and_self, and_true, and_false, false_and] at hQ hA hP hC hF
  rw [hq]
  refine ⟨?_, hfr.1, hQ, hF, hA, hP, hC, hfr.2.1⟩
  rw [updateTaskStatus_heap]
  funext j
  by_cases hj : j = s.nextId
  · subst hj
    simp only [if_true]
    rw [hcond]
  · simp [hj, modifyTask, allocTask]

/-- The other branch of `queueDownload`: a destination is given, or the lookup sets no error
code. -/
theorem queueDownload_ok (env : Env) (s : DownloadManager) (url destination : String)
    (h : destination.isEmpty = false ∨ (env.resolve url).errorCode = CURLE_OK) :
    (queueDownload env s url destination).heap
      = (fun j => if j = s.nextId then
          (if destination.isEmpty then
            { url := url, httpStatus := (env.resolve url).httpStatus,
              destination := getUniqueFilename env.files (env.resolve url).name }
           else { url := url, destination := getUniqueFilename env.files destination })
        else s.heap j) ∧
    (queueDownload env s url destination).nextId = s.nextId + 1 ∧
    (queueDownload env s url destination).queued = s.queued ++ [s.nextId] ∧
    (queueDownload env s url destination).failed = s.failed ∧
    (queueDownload env s url destination).active = s.active ∧
    (queueDownload env s url destination).paused = s.paused ∧
    (queueDownload env s url destination).completed = s.completed ∧
    (queueDownload env s url destination).threadPool = s.threadPool := by
  by_cases hd : destination.isEmpty = true
  · have he : (env.resolve url).errorCode = CURLE_OK := by
      rcases h with h | h
      · rw [hd] at h; exact absurd h (by decide)
      · exact h
    have hnew : (if (env.resolve url).errorCode ≠ CURLE_OK then (env.resolve url).errorCode
        else CURLE_OK) = CURLE_OK := by rw [if_neg (by simpa using he)]
    simp only [queueDownload, hd, if_true, modifyTask, allocTask, resolveFilenameFromServer,
      DownloadTask.new, hnew, ne_eq, not_true_eq_false, if_false, saveState_heap,
      saveState_nextId, saveState_queued, saveState_failed, saveState_active, saveState_paused,
      saveState_completed, saveState_threadPool, and_self, and_true]
    funext j
    by_cases hj : j = s.nextId
    · simp [hj]
    · simp [hj]
  · have hd2 : destination.isEmpty = false := by simpa using hd
    simp only [queueDownload, hd2, Bool.false_eq_true, if_false, modifyTask, allocTask,
      DownloadTask.new, CURLE_OK, ne_eq, not_true_eq_false, saveState_heap,
      saveState_nextId, saveState_queued, saveState_failed, saveState_active, saveState_paused,
      saveState_completed, saveState_threadPool, and_self, and_true, if_true]
    funext j
    by_cases hj : j = s.nextId
    · simp [hj]
    · simp [hj]

theorem removeTask_frame (s : DownloadManager) (task : TaskId) :
    (removeTaskFromCurrentContainer s task).heap = s.heap ∧
    (removeTaskFromCurrentContainer s task).nextId = s.nextId ∧
    (removeTaskFromCurrentContainer s task).threadPool = s.threadPool := by
  unfold removeTaskFromCurrentContainer
  cases (s.heap task).status <;> simp

theorem removeTask_collection (s : DownloadManager) (task : TaskId) (c : DownloadStatus) :
    (removeTaskFromCurrentContainer s task).collection c
      = if c = (s.heap task).status then (s.collection c).erase task else s.collection c := by
  unfold removeTaskFromCurrentContainer
  cases h : (s.heap task).status <;> cases c <;> simp [DownloadManager.collection]

/-- The loop of `retryAllDownloads` never ends when every lookup fails and the task at the back
of failed has no destination: each round files a new task without destination at the back of
failed. -/
theorem retryAllLoop_diverges (env : Env) (herr : ∀ url, (env.resolve url).errorCode ≠ CURLE_OK)
    (fuel : Nat) :
    ∀ (s : DownloadManager) (task : TaskId), s.failed.getLast? = some task →
      (s.heap task).destination = "" → retryAllLoop env fuel s = none := by
  induction fuel with
  | zero => intro s task _ _; rfl
  | succ fuel ih =>
    intro s task h1 h2
    simp only [retryAllLoop, h1]
    obtain ⟨e1, -, -, e4, -⟩ := queueDownload_error env (removeTaskFromCurrentContainer s task)
      (s.heap task).url (s.heap task).destination (by rw [h2]; rfl) (herr _)
    apply ih _ (removeTaskFromCurrentContainer s task).nextId
    · rw [e4]; simp
    · rw [e1]; simp

theorem filter_ne_erase {α : Type} [DecidableEq α] (l : List α) (a : α) :
    (l.erase a).filter (fun b => decide (b ≠ a)) = l.filter (fun b => decide (b ≠ a)) := by
  induction l with
  | nil => rfl
  | cons x l ih =>
    by_cases hx : x = a
    · subst hx; simp
    · rw [List.erase_cons_tail (by simpa using hx), List.filter_cons, List.filter_cons, ih]

theorem Disk.stat_remove (d : Disk) (path : String) : (d.remove path).stat path = none := by
  unfold Disk.stat Disk.remove
  rw [Option.map_eq_none', List.find?_eq_none]
  intro e he
  have := (List.mem_filter.mp he).2
  simpa using this

/-- The progress callback called for a task marked `PAUSED` or `CANCELED` returns 1 and leaves
the task as it is. -/
theorem curlProgressCallback_of_marked (now dltotal dlnow : Int) (t : DownloadTask)
    (h : t.status = .PAUSED ∨ t.status = .CANCELED) :
    curlProgressCallback now dltotal dlnow t = (1, t) := by
  unfold curlProgressCallback DownloadTask.isPaused DownloadTask.isCanceled
  rcases h with h | h <;> simp [h]

/-- The head of `run` leaves a task marked `COMPLETED` or `ACTIVE` as it is, and marks every
other task `ACTIVE`. -/
theorem runBegin_spec (now : Int) (t : DownloadTask) :
    (t.status = .COMPLETED ∨ t.status = .ACTIVE → t.runBegin now = t) ∧
    (¬ (t.status = .COMPLETED ∨ t.status = .ACTIVE) → (t.runBegin now).status = .ACTIVE) := by
  unfold DownloadTask.runBegin
  exact ⟨fun h => by rw [if_pos h], fun h => by rw [if_neg h]⟩

/-- Retrying a failed task that has status `FAILED`, is held once in failed and has a
destination: it leaves failed, and a new task with its URL and the collision-free form of its
destination is appended to queued. -/
theorem retryDownload_of_failed_status (env : Env) (s : DownloadManager) (index : Nat)
    (h : index < s.failed.length)
    (hst : (s.heap s.failed[index]).status = .FAILED)
    (honce : s.failed.count s.failed[index] = 1)
    (hd : (s.heap s.failed[index]).destination.isEmpty = false) :
    (retryDownload env s index).failed = s.failed.eraseIdx index ∧
    (retryDownload env s index).queued = s.queued ++ [s.nextId] ∧
    (retryDownload env s index).heap s.nextId
      = { url := (s.heap s.failed[index]).url,
          destination := getUniqueFilename env.files (s.heap s.failed[index]).destination } ∧
    (∀ task, task ≠ s.nextId → (retryDownload env s index).heap task = s.heap task) := by
  obtain ⟨f1, f2, -⟩ := removeTask_frame s s.failed[index]
  have cF := removeTask_collection s s.failed[index] .FAILED
  have cQ := removeTask_collection s s.failed[index] .QUEUED
  rw [hst] at cF cQ
  simp only [DownloadManager.collection, if_true, reduceCtorEq, if_false] at cF cQ
  obtain ⟨e1, -, e3, e4, -⟩ := queueDownload_ok env (removeTaskFromCurrentContainer s s.failed[index])
    (s.heap s.failed[index]).url (s.heap s.failed[index]).destination (Or.inl hd)
  simp only [retryDownload, dif_pos h]
  rw [e1, e3, e4, cF, cQ, f1, f2, erase_getElem_of_count_one s.failed index h honce]
  refine ⟨rfl, rfl, by simp [hd], fun task ht => by simp [ht]⟩

/-! ## The progress value during `run` -/

theorem percentage_bounds (downloaded total : ℚ) (hd : 0 ≤ downloaded) (ht : 0 < total) :
    0 ≤ (if 100 < downloaded / total * 100 then 100 else downloaded / total * 100) ∧
    (if 100 < downloaded / total * 100 then 100 else downloaded / total * 100) ≤ (100 : ℚ) := by
  have h0 : 0 ≤ downloaded / total * 100 :=
    mul_nonneg (div_nonneg hd (le_of_lt ht)) (by norm_num)
  split
  · exact ⟨by norm_num, le_refl _⟩
  · rename_i h
    exact ⟨h0, not_lt.mp h⟩

theorem curlProgressCallback_inRange (now dltotal dlnow : Int) (t : DownloadTask)
    (h2 : 0 ≤ dlnow) (h : t.ProgressInRange) :
    (curlProgressCallback now dltotal dlnow t).2.ProgressInRange := by
  obtain ⟨p0, p1, r0⟩ := h
  have hd : 0 ≤ (dlnow : ℚ) + t.resumeOffset := add_nonneg (by exact_mod_cast h2) r0
  unfold curlProgressCallback DownloadTask.ProgressInRange
  by_cases hm : (t.isPaused || t.isCanceled) = true
  · rw [if_pos hm]; exact ⟨p0, p1, r0⟩
  · rw [if_neg hm]
    simp only [DownloadTask.recordSpeedSample]
    by_cases hT : 0 < (dltotal : ℚ) + t.resumeOffset ∧ t.totalBytes < (dltotal : ℚ) + t.resumeOffset
    · rw [if_pos hT]
      simp only []
      rw [if_pos hT.1]
      exact ⟨(percentage_bounds _ _ hd hT.1).1, (percentage_bounds _ _ hd hT.1).2, r0⟩
    · rw [if_neg hT]
      by_cases hk : 0 < t.totalBytes
      · rw [if_pos hk]
        exact ⟨(percentage_bounds _ _ hd hk).1, (percentage_bounds _ _ hd hk).2, r0⟩
      · rw [if_neg hk]
        exact ⟨p0, p1, r0⟩

theorem configureResume_inRange (fileSize : Option Nat) (t : DownloadTask)
    (h : t.ProgressInRange) : (t.configureResume fileSize).1.ProgressInRange := by
  obtain ⟨p0, p1, r0⟩ := h
  unfold DownloadTask.configureResume DownloadTask.ProgressInRange
  cases fileSize with
  | none => exact ⟨p0, p1, r0⟩
  | some resumeFrom =>
    simp only []
    by_cases hpos : 0 < resumeFrom
    · rw [if_pos hpos]
      have hr : (0 : ℚ) ≤ (resumeFrom : ℚ) := by exact_mod_cast Nat.zero_le resumeFrom
      by_cases hk : 0 < t.totalBytes ∧ (resumeFrom : ℚ) < t.totalBytes
      · rw [if_pos hk]
        refine ⟨mul_nonneg (div_nonneg hr (le_of_lt hk.1)) (by norm_num), ?_, hr⟩
        have : (resumeFrom : ℚ) / t.totalBytes ≤ 1 := (div_le_one hk.1).mpr (le_of_lt hk.2)
        show (resumeFrom : ℚ) / t.totalBytes * 100 ≤ 100
        linarith
      · rw [if_neg hk]
        exact ⟨p0, p1, hr⟩
    · rw [if_neg hpos]
      exact ⟨p0, p1, r0⟩

theorem runEnd_inRange (res httpStatus now : Int) (t : DownloadTask) (d : Disk)
    (h : t.ProgressInRange) : (t.runEnd res httpStatus now d).1.ProgressInRange := by
  obtain ⟨p0, p1, r0⟩ := h
  unfold DownloadTask.runEnd DownloadTask.onDownloadComplete DownloadTask.onDownloadPause
    DownloadTask.onDownloadCancel DownloadTask.onDownloadError DownloadTask.ProgressInRange
  split
  · exact ⟨by norm_num, le_refl _, r0⟩
  · split
    · exact ⟨p0, p1, r0⟩
    · split
      · exact ⟨p0, p1, r0⟩
      · exact ⟨p0, p1, r0⟩

/-- Every step of `run`, and every status change made meanwhile by the manager, keeps the
progress value a percentage. -/
theorem step_inRange (step : RunStep) (t : DownloadTask) (hc : step.CountersNonneg)
    (h : t.ProgressInRange) : (step.apply t).ProgressInRange := by
  cases step with
  | start now =>
    show (t.runBegin now).ProgressInRange
    unfold DownloadTask.runBegin
    split
    · exact h
    · exact h
  | initFailed now => exact h
  | openFailed now => exact h
  | resume fileSize =>
    show (if t.resumeEnabled then (t.configureResume fileSize).1 else t).ProgressInRange
    split
    · exact configureResume_inRange fileSize t h
    · exact h
  | progress now dltotal dlnow => exact curlProgressCallback_inRange now dltotal dlnow t hc.2 h
  | finish res httpStatus now => exact runEnd_inRange res httpStatus now t [] h
  | setStatus st => exact h
  | resumeFlag => exact h

theorem runSteps_inRange : ∀ (steps : List RunStep) (t : DownloadTask),
    (∀ step ∈ steps, step.CountersNonneg) → t.ProgressInRange →
    (runSteps steps t).ProgressInRange := by
  intro steps
  induction steps with
  | nil => intro t _ h; exact h
  | cons step steps ih =>
    intro t hc h
    show (runSteps steps (step.apply t)).ProgressInRange
    exact ih _ (fun st hst => hc st (List.mem_cons_of_mem _ hst))
      (step_inRange step t (hc step (List.mem_cons_self _ _)) h)

/-! ## The operations on all downloads where they end -/

/-- With a running download marked `ACTIVE` and three queued ones marked `QUEUED`, both loops of
`pauseAllDownloads` end: the four tasks are in paused, taken from the back of each vector. -/
theorem pauseAllDownloads_of_matching_example :
    (pauseAllDownloads 5 oneRunningThreeQueued).map (fun s => (s.active, s.queued, s.paused))
      = some ([], [], [0, 3, 2, 1]) := by
  decide

/-- With a single running download marked `ACTIVE`, `cancelAllDownloads` stays inside the vector
and leaves active empty. -/
theorem cancelAllDownloads_of_single_example :
    (cancelAllDownloads oneRunning).ranPastEnd = false ∧
    (cancelAllDownloads oneRunning).state.active = [] ∧
    ((cancelAllDownloads oneRunning).state.heap 0).status = .CANCELED := by
  decide

/-- Once the server answers, the loop of `retryAllDownloads` ends on the failed lookup: the new
task is queued and failed is empty. -/
theorem retryAllDownloads_of_reachable_example :
    (retryAllDownloads exampleEnv 2 failedLookup).map (fun s => (s.queued, s.failed))
      = some ([1], []) := by
  decide

/-! ## Collections hold allocated tasks only -/

theorem new_idsAllocated (w : Nat) (stateFile : Option (List Char)) (wr : Bool) :
    (DownloadManager.new w stateFile wr).IdsAllocated := by
  have hinv : DownloadManager.IdsAllocated
      { heap := fun _ => DownloadTask.new "", nextId := 0, threadPool := { workers := w },
        stateFile := stateFile, stateFileWritable := wr,
        queued := [], active := [], paused := [], completed := [], failed := [] } := by
    intro st task ht
    cases st <;> simp [DownloadManager.collection] at ht
  unfold DownloadManager.new loadState
  cases stateFile with
  | none => exact hinv
  | some content => exact (loadLines_spec (splitLines [] content) _ hinv).1

theorem removeTask_idsAllocated (s : DownloadManager) (task : TaskId) (h : s.IdsAllocated) :
    (removeTaskFromCurrentContainer s task).IdsAllocated := by
  intro c t ht
  rw [removeTask_collection] at ht
  rw [(removeTask_frame s task).2.1]
  split at ht
  · exact h c t (List.mem_of_mem_erase ht)
  · exact h c t ht

theorem updateTaskStatus_idsAllocated (s : DownloadManager) (task : TaskId)
    (st : DownloadStatus) (ht : task < s.nextId) (h : s.IdsAllocated) :
    (updateTaskStatus s task st).IdsAllocated := by
  intro c t hmem
  rw [updateTaskStatus_collection, List.mem_append] at hmem
  rw [(updateTaskStatus_frame s task st).1]
  rcases hmem with hmem | hmem
  · split at hmem
    · exact h c t (List.mem_of_mem_erase hmem)
    · exact h c t hmem
  · split at hmem
    · rw [List.mem_singleton.mp hmem]; exact ht
    · simp at hmem

theorem queueDownload_idsAllocated (env : Env) (s : DownloadManager) (url destination : String)
    (h : s.IdsAllocated) : (queueDownload env s url destination).IdsAllocated := by
  have hlt : ∀ c, ∀ t ∈ s.collection c, t < s.nextId + 1 := fun c t ht =>
    Nat.lt_succ_of_lt (h c t ht)
  by_cases hcase : destination.isEmpty = true ∧ (env.resolve url).errorCode ≠ CURLE_OK
  · obtain ⟨-, e2, e3, e4, e5, e6, e7, -⟩ :=
      queueDownload_error env s url destination hcase.1 hcase.2
    intro c t ht
    rw [e2]
    cases c <;> simp only [DownloadManager.collection, e3, e4, e5, e6, e7] at ht
    · exact hlt .QUEUED t (List.mem_of_mem_erase ht)
    · exact hlt .ACTIVE t ht
    · exact hlt .PAUSED t ht
    · exact hlt .COMPLETED t ht
    · rcases List.mem_append.mp ht with ht | ht
      · exact hlt .FAILED t ht
      · rw [List.mem_singleton.mp ht]; exact Nat.lt_succ_self _
    · simp at ht
  · have hor : destination.isEmpty = false ∨ (env.resolve url).errorCode = CURLE_OK := by
      by_cases hd : destination.isEmpty = true
      · exact Or.inr (by_contra fun he => hcase ⟨hd, he⟩)
      · exact Or.inl (by simpa using hd)
    obtain ⟨-, e2, e3, e4, e5, e6, e7, -⟩ := queueDownload_ok env s url destination hor
    intro c t ht
    rw [e2]
    cases c <;> simp only [DownloadManager.collection, e3, e4, e5, e6, e7] at ht
    · rcases List.mem_append.mp ht with ht | ht
      · exact hlt .QUEUED t ht
      · rw [List.mem_singleton.mp ht]; exact Nat.lt_succ_self _
    · exact hlt .ACTIVE t ht
    · exact hlt .PAUSED t ht
    · exact hlt .COMPLETED t ht
    · exact hlt .FAILED t ht
    · simp at ht

theorem pauseDownload_idsAllocated (s : DownloadManager) (index : Nat) (h : s.IdsAllocated) :
    (pauseDownload s index).IdsAllocated := by
  unfold pauseDownload
  split
  · rename_i hi
    exact updateTaskStatus_idsAllocated s _ _ (h .ACTIVE _ (List.getElem_mem hi)) h
  · exact h

theorem cancelDownload_idsAllocated (s : DownloadManager) (index : Nat) (h : s.IdsAllocated) :
    (cancelDownload s index).IdsAllocated := by
  unfold cancelDownload
  split
  · rename_i hi
    exact updateTaskStatus_idsAllocated s _ _ (h .ACTIVE _ (List.getElem_mem hi)) h
  · exact h

theorem resumeDownload_idsAllocated (s : DownloadManager) (index : Nat) (h : s.IdsAllocated) :
    (resumeDownload s index).IdsAllocated := by
  unfold resumeDownload
  split
  · rename_i hi
    exact updateTaskStatus_idsAllocated (modifyTask s s.paused[index] DownloadTask.resume) _ _
      (h .PAUSED _ (List.getElem_mem hi)) (fun c t ht => h c t (by cases c <;> exact ht))
  · exact h

theorem retryDownload_idsAllocated (env : Env) (s : DownloadManager) (index : Nat)
    (h : s.IdsAllocated) : (retryDownload env s index).IdsAllocated := by
  unfold retryDownload
  split
  · exact queueDownload_idsAllocated env _ _ _ (removeTask_idsAllocated s _ h)
  · exact h
theorem reconcile_idsAllocated : ∀ (l : List TaskId) (s : DownloadManager) (still : List TaskId),
    (∀ t ∈ l, t < s.nextId) → s.IdsAllocated → (reconcile l s still).1.IdsAllocated := by
  intro l
  induction l with
  | nil => intro s still _ h; exact h
  | cons task rest ih =>
    intro s still hl h
    have hrest : ∀ t ∈ rest, t < s.nextId := fun t ht => hl t (List.mem_cons_of_mem _ ht)
    have htask : task < s.nextId := hl task (List.mem_cons_self _ _)
    unfold reconcile
    split
    · exact ih s _ hrest h
    · exact ih _ _ (by rw [(updateTaskStatus_frame s task .COMPLETED).1]; exact hrest)
        (updateTaskStatus_idsAllocated s task .COMPLETED htask h)
    · exact ih _ _ (by rw [(updateTaskStatus_frame s task .FAILED).1]; exact hrest)
        (updateTaskStatus_idsAllocated s task .FAILED htask h)
    · exact ih s _ hrest h

theorem saveState_idsAllocated (s : DownloadManager) (h : s.IdsAllocated) :
    (saveState s).IdsAllocated := by
  intro c t ht
  rw [saveState_nextId]
  exact h c t (by cases c <;> simp [DownloadManager.collection] at ht ⊢ <;> exact ht)

theorem update_idsAllocated (s : DownloadManager) (h : s.IdsAllocated) :
    (update s).IdsAllocated := by
  have hrec := reconcile_idsAllocated s.active s [] (fun t ht => h .ACTIVE t ht) h
  obtain ⟨r1, -, -, -, r5, -, r7⟩ := reconcileActive_spec s
  obtain ⟨-, -, -, -, -, n1, -, -⟩ := reconcile_frame s.active s []
  have hra : (reconcileActive s).IdsAllocated := by
    intro c t ht
    rw [r5]
    cases c
    · exact h .QUEUED t (by simpa [DownloadManager.collection, r1] using ht)
    · have : t ∈ s.active.filter (fun t => decide ((s.heap t).status = .ACTIVE)) := by
        simpa [DownloadManager.collection, r7] using ht
      exact h .ACTIVE t (List.mem_of_mem_filter this)
    · rw [← n1]; exact hrec .PAUSED t ht
    · rw [← n1]; exact hrec .COMPLETED t ht
    · rw [← n1]; exact hrec .FAILED t ht
    · simp [DownloadManager.collection] at ht
  obtain ⟨a1, a2, -, -, -, a6, a7, a8, a9, -⟩ :=
    startQueuedTasks_spec (reconcileActive s).queued.length (reconcileActive s) (le_refl _)
  apply saveState_idsAllocated
  intro c t ht
  rw [a9]
  cases c
  · exact hra .QUEUED t (List.mem_of_mem_take (by simpa [DownloadManager.collection, a1] using ht))
  · have : t ∈ (reconcileActive s).active ++ (reconcileActive s).queued.reverse.take
        (min (reconcileActive s).queued.length
          ((reconcileActive s).threadPool.size - (reconcileActive s).active.length)) := by
      simpa [DownloadManager.collection, a2] using ht
    rcases List.mem_append.mp this with hm | hm
    · exact hra .ACTIVE t hm
    · exact hra .QUEUED t (List.mem_reverse.mp (List.mem_of_mem_take hm))
  · exact hra .PAUSED t (by simpa [DownloadManager.collection, a6] using ht)
  · exact hra .COMPLETED t (by simpa [DownloadManager.collection, a7] using ht)
  · exact hra .FAILED t (by simpa [DownloadManager.collection, a8] using ht)
  · simp [DownloadManager.collection] at ht

/-! ## Speed and remaining time -/

/-- What a callback that returns 0 stores: the counters plus the resume offset; the resume
offset itself is never written by the callback. -/
theorem curlProgressCallback_stores (now dltotal dlnow : Int) (t : DownloadTask) :
    (curlProgressCallback now dltotal dlnow t).2.resumeOffset = t.resumeOffset ∧
    ((curlProgressCallback now dltotal dlnow t).1 = 0 →
      (curlProgressCallback now dltotal dlnow t).2.bytesDownloaded
        = (dlnow : ℚ) + t.resumeOffset) ∧
    ((curlProgressCallback now dltotal dlnow t).1 ≠ 0 →
      (curlProgressCallback now dltotal dlnow t).2 = t) := by
  unfold curlProgressCallback
  by_cases hm : (t.isPaused || t.isCanceled) = true
  · rw [if_pos hm]
    exact ⟨rfl, fun h => by simp at h, fun _ => rfl⟩
  · rw [if_neg hm]
    refine ⟨?_, fun _ => ?_, fun h => absurd rfl h⟩
    · simp only [DownloadTask.recordSpeedSample]
      split <;> split <;> rfl
    · simp only [DownloadTask.recordSpeedSample]

/-- The writes of the manager thread leave the byte counters and the resume offset alone. -/
theorem managerWrites_bytes : ∀ (steps : List RunStep) (t : DownloadTask),
    (∀ step ∈ steps, step.IsManagerWrite) →
    (runSteps steps t).bytesDownloaded = t.bytesDownloaded ∧
    (runSteps steps t).totalBytes = t.totalBytes ∧
    (runSteps steps t).resumeOffset = t.resumeOffset := by
  intro steps
  induction steps with
  | nil => intro t _; exact ⟨rfl, rfl, rfl⟩
  | cons step steps ih =>
    intro t h
    have hs := h step (List.mem_cons_self _ _)
    have hrest := ih (step.apply t) (fun st hst => h st (List.mem_cons_of_mem _ hst))
    show (runSteps steps (step.apply t)).bytesDownloaded = _ ∧ _
    cases step with
    | setStatus st => exact hrest
    | resumeFlag => exact hrest
    | start now => exact absurd hs (by simp [RunStep.IsManagerWrite])
    | initFailed now => exact absurd hs (by simp [RunStep.IsManagerWrite])
    | openFailed now => exact absurd hs (by simp [RunStep.IsManagerWrite])
    | resume fileSize => exact absurd hs (by simp [RunStep.IsManagerWrite])
    | progress now dltotal dlnow => exact absurd hs (by simp [RunStep.IsManagerWrite])
    | finish res httpStatus now => exact absurd hs (by simp [RunStep.IsManagerWrite])

/-! ## The window of speed samples -/

theorem recordSpeedSample_samples (timestamp : Int) (bytesDownloaded : ℚ) (t : DownloadTask) :
    (t.recordSpeedSample timestamp bytesDownloaded).speedSamples
      = (t.speedSamples ++ [(timestamp, bytesDownloaded)]).dropWhile
          (fun p => decide ((p.1 : ℚ) < (timestamp : ℚ) - 10)) := rfl

/-- Dropping from the front of a list whose last element is kept leaves a list with the same
last element. -/
theorem dropWhile_append_keep {α : Type} (p : α → Bool) (x : α) (hx : p x = false) :
    ∀ l : List α, ∃ pre : List α, (l ++ [x]).dropWhile p = pre ++ [x] := by
  intro l
  induction l with
  | nil => exact ⟨[], by simp [List.dropWhile, hx]⟩
  | cons a l ih =>
    by_cases ha : p a = true
    · obtain ⟨pre, hpre⟩ := ih
      exact ⟨pre, by rw [List.cons_append, List.dropWhile_cons_of_pos ha, hpre]⟩
    · exact ⟨a :: l, by rw [List.cons_append, List.dropWhile_cons_of_neg ha]⟩

/-- In a list with non-decreasing timestamps, what `dropWhile` leaves is not older than the
cutoff. -/
theorem dropWhile_sorted_cutoff (cutoff : ℚ) :
    ∀ l : List (Int × ℚ), l.Pairwise (fun x y => x.1 ≤ y.1) →
      ∀ a ∈ l.dropWhile (fun p => decide ((p.1 : ℚ) < cutoff)), cutoff ≤ (a.1 : ℚ) := by
  intro l
  induction l with
  | nil => intro _ a ha; simp at ha
  | cons x l ih =>
    intro hs a ha
    have hl := (List.pairwise_cons.mp hs).2
    have hx := (List.pairwise_cons.mp hs).1
    by_cases hp : (x.1 : ℚ) < cutoff
    · rw [List.dropWhile_cons_of_pos (by simpa using hp)] at ha
      exact ih hl a ha
    · rw [List.dropWhile_cons_of_neg (by simpa using hp)] at ha
      rcases List.mem_cons.mp ha with rfl | hmem
      · exact not_lt.mp hp
      · have h1 : (x.1 : ℚ) ≤ (a.1 : ℚ) := by exact_mod_cast hx a hmem
        exact le_trans (not_lt.mp hp) h1

/-- The window after a sequence of calls is an end piece of the earlier window followed by the
samples of the calls. -/
theorem recordAll_suffix : ∀ (calls : List (Int × ℚ)) (t : DownloadTask),
    (recordAll calls t).speedSamples <:+ t.speedSamples ++ calls := by
  intro calls
  induction calls with
  | nil => intro t; simp [recordAll]
  | cons c calls ih =>
    intro t
    have h1 : (recordAll (c :: calls) t).speedSamples
        = (recordAll calls (t.recordSpeedSample c.1 c.2)).speedSamples := rfl
    rw [h1]
    obtain ⟨pre1, hpre1⟩ := ih (t.recordSpeedSample c.1 c.2)
    obtain ⟨pre2, hpre2⟩ : (t.recordSpeedSample c.1 c.2).speedSamples <:+ t.speedSamples ++ [c] := by
      rw [recordSpeedSample_samples]
      exact List.dropWhile_suffix _
    refine ⟨pre2 ++ pre1, ?_⟩
    rw [List.append_assoc, hpre1, ← List.append_assoc, hpre2]
    simp

/-! ## Resuming -/

/-- Without a file, or with an empty one, `configureResume` passes no offset to the transport
and leaves the task as it is, its resume offset included. -/
theorem configureResume_no_file (t : DownloadTask) :
    t.configureResume none = (t, none) ∧ t.configureResume (some 0) = (t, none) :=
  ⟨rfl, rfl⟩

/-! ## The first loop of `update`, collection by collection -/

theorem refile_cons (collection : List TaskId) (task : TaskId) (tasks : List TaskId) :
    refile collection (task :: tasks) = refile (collection.erase task ++ [task]) tasks := rfl

/-- Tasks that the collection does not hold yet, each named once, are appended in order. -/
theorem refile_of_new : ∀ (tasks collection : List TaskId), tasks.Nodup →
    (∀ task ∈ tasks, task ∉ collection) → refile collection tasks = collection ++ tasks := by
  intro tasks
  induction tasks with
  | nil => intro collection _ _; simp [refile]
  | cons task tasks ih =>
    intro collection hnd hnew
    have h1 : task ∉ collection := hnew task (List.mem_cons_self _ _)
    rw [refile_cons, List.erase_of_not_mem h1, ih _ (List.nodup_cons.mp hnd).2]
    · simp
    · intro u hu hmem
      rcases List.mem_append.mp hmem with h | h
      · exact hnew u (List.mem_cons_of_mem _ hu) h
      · rw [List.mem_singleton.mp h] at hu
        exact (List.nodup_cons.mp hnd).1 hu

theorem filter_erase_of_neg {α : Type} [DecidableEq α] (p : α → Bool) (a : α) (ha : p a = false) :
    ∀ l : List α, (l.erase a).filter p = l.filter p := by
  intro l
  induction l with
  | nil => rfl
  | cons x l ih =>
    by_cases hx : x = a
    · subst hx; simp [ha]
    · rw [List.erase_cons_tail (by simpa using hx), List.filter_cons, List.filter_cons, ih]

/-- The members of the collection that are not among the tasks keep their places. -/
theorem refile_others : ∀ (tasks collection : List TaskId) (p : TaskId → Bool),
    (∀ task ∈ tasks, p task = false) →
    (refile collection tasks).filter p = collection.filter p := by
  intro tasks
  induction tasks with
  | nil => intro collection p _; rfl
  | cons task tasks ih =>
    intro collection p hp
    have h1 : p task = false := hp task (List.mem_cons_self _ _)
    rw [refile_cons, ih _ p (fun u hu => hp u (List.mem_cons_of_mem _ hu)), List.filter_append,
      filter_erase_of_neg p task h1]
    simp [h1]

/-- The first loop of `update` on the collections of completed and failed tasks. -/
theorem reconcile_collections : ∀ (l : List TaskId) (s : DownloadManager) (still : List TaskId),
    (reconcile l s still).1.completed
      = refile s.completed (l.filter (fun t => decide ((s.heap t).status = .COMPLETED))) ∧
    (reconcile l s still).1.failed
      = refile s.failed (l.filter (fun t => decide ((s.heap t).status = .FAILED))) := by
  intro l
  induction l with
  | nil => intro s still; exact ⟨rfl, rfl⟩
  | cons task rest ih =>
    intro s still
    rcases hst : (s.heap task).status with _ | _ | _ | _ | _ | _
    all_goals simp only [reconcile, hst, List.filter_cons, reduceCtorEq, decide_False,
      decide_True, if_true, if_false, Bool.false_eq_true]
    · exact ih s still
    · exact ih s _
    · exact ih s still
    · rw [updateTaskStatus_completed s task hst]
      have h := ih (saveState { s with completed := s.completed.erase task ++ [task] }) still
      simp only [saveState_heap, saveState_completed, saveState_failed] at h
      rw [refile_cons]
      exact h
    · rw [updateTaskStatus_failed s task hst]
      have h := ih (saveState { s with failed := s.failed.erase task ++ [task] }) still
      simp only [saveState_heap, saveState_completed, saveState_failed] at h
      rw [refile_cons]
      exact h
    · exact ih s still

/-! ## `getUniqueFilename` -/

theorem uniqueLoop_zero (files : List String) (base extension : String) (counter : Nat) :
    uniqueLoop files base extension 0 counter = candidateName base extension counter := rfl

theorem uniqueLoop_succ (files : List String) (base extension : String) (fuel counter : Nat) :
    uniqueLoop files base extension (fuel + 1) counter
      = if !fileExists files (candidateName base extension counter) then
          candidateName base extension counter
        else uniqueLoop files base extension fuel (counter + 1) := rfl

theorem fileExists_iff (files : List String) (path : String) :
    fileExists files path = true ↔ path ∈ files := by
  simp [fileExists]

/-- The loop returns the candidate of the first counter, from its start value on, whose name is
free; when it stops because its bound is used up, all candidates before are taken. -/
theorem uniqueLoop_spec (files : List String) (base extension : String) :
    ∀ (fuel counter : Nat), ∃ n, counter ≤ n ∧ n ≤ counter + fuel ∧
      uniqueLoop files base extension fuel counter = candidateName base extension n ∧
      (∀ m, counter ≤ m → m < n → candidateName base extension m ∈ files) ∧
      (n < counter + fuel → candidateName base extension n ∉ files) := by
  intro fuel
  induction fuel with
  | zero =>
    intro counter
    exact ⟨counter, le_refl _, le_refl _, rfl, fun m h1 h2 => absurd h1 (by omega),
      fun h => absurd h (by omega)⟩
  | succ fuel ih =>
    intro counter
    rw [uniqueLoop_succ]
    by_cases hex : fileExists files (candidateName base extension counter) = true
    · obtain ⟨n, h1, h2, h3, h4, h5⟩ := ih (counter + 1)
      refine ⟨n, by omega, by omega, by simp [hex, h3], fun m hm1 hm2 => ?_, fun h => h5 (by omega)⟩
      by_cases hm : m = counter
      · rw [hm]; exact (fileExists_iff _ _).mp hex
      · exact h4 m (by omega) hm2
    · refine ⟨counter, le_refl _, by omega, by simp [hex], fun m h1 h2 => absurd h1 (by omega),
        fun _ h => hex ((fileExists_iff _ _).mpr h)⟩

/-- Different counters give different candidates. -/
theorem candidateName_injective (base extension : String) (n m : Nat)
    (h : candidateName base extension n = candidateName base extension m) : n = m := by
  unfold candidateName at h
  have h1 := congrArg String.data h
  simp only [String.data_append, List.append_assoc] at h1
  have h2 := List.append_cancel_left (List.append_cancel_left h1)
  have h3 := List.append_cancel_right h2
  have h4 : digitsVal 0 (Nat.toDigits 10 n) = digitsVal 0 (Nat.toDigits 10 m) := by rw [h3]
  rwa [digitsVal_toDigits, digitsVal_toDigits] at h4

/-- Among the candidates of the counters 1 to `files.length + 1` one is free. -/
theorem candidate_free_at_bound (files : List String) (base extension : String)
    (h : ∀ m, 1 ≤ m → m < files.length + 1 → candidateName base extension m ∈ files) :
    candidateName base extension (files.length + 1) ∉ files := by
  intro hlast
  have hnd : ((List.range' 1 (files.length + 1)).map (candidateName base extension)).Nodup := by
    refine (List.nodup_range' 1 (files.length + 1)).map_on ?_
    intro a _ b _ hab
    exact candidateName_injective base extension a b hab
  have hsub : (List.range' 1 (files.length + 1)).map (candidateName base extension) ⊆ files := by
    intro x hx
    obtain ⟨m, hm, rfl⟩ := List.mem_map.mp hx
    have hm2 := List.mem_range'_1.mp hm
    by_cases hlt : m < files.length + 1
    · exact h m hm2.1 hlt
    · have : m = files.length + 1 := by omega
      rw [this]; exact hlast
  have hlen := (List.subperm_of_subset hnd hsub).length_le
  simp at hlen

theorem span_not_dot (ext rest : List Char) (hext : '.' ∉ ext)
    (hrest : ∀ c ∈ rest.head?, c = '.') :
    (ext.reverse ++ rest).span (fun c => c != '.') = (ext.reverse, rest) := by
  rw [List.span_eq_take_drop]
  obtain ⟨h1, h2⟩ := takeWhile_append_stop (fun c => c != '.') ext.reverse rest
    (fun c hc => by
      have : c ∈ ext := List.mem_reverse.mp hc
      have hne : c ≠ '.' := fun h => hext (h ▸ this)
      simpa using hne)
    (fun c hc => by simp [hrest c hc])
  rw [h1, h2]

/-- The split made by `getUniqueFilename`, for a path with a dot: the extension starts at the
last dot, unless nothing stands before that dot. -/
theorem splitExtension_of_dot (path : String) (base ext : List Char)
    (h : path.data = base ++ '.' :: ext) (hext : '.' ∉ ext) :
    splitExtension path
      = if base.isEmpty then (path, "") else (String.mk base, String.mk ('.' :: ext)) := by
  have hrev : path.data.reverse = ext.reverse ++ '.' :: base.reverse := by
    rw [h]; simp
  unfold splitExtension
  rw [hrev, span_not_dot ext ('.' :: base.reverse) hext (by simp)]
  cases base with
  | nil => simp
  | cons b bs => simp

/-- The split made by `getUniqueFilename`, for a path without dot. -/
theorem splitExtension_no_dot (path : String) (h : '.' ∉ path.data) :
    splitExtension path = (path, "") := by
  have hsp := span_not_dot path.data [] h (by simp)
  rw [List.append_nil] at hsp
  unfold splitExtension
  rw [hsp]

/-- What `getUniqueFilename` returns: a path at which no file exists; the given path when that
one is free, and otherwise the candidate of the smallest counter from 1 on whose name is free. -/
theorem getUniqueFilename_spec (files : List String) (originalPath : String) :
    getUniqueFilename files originalPath ∉ files ∧
    (originalPath ∉ files → getUniqueFilename files originalPath = originalPath) ∧
    (originalPath ∈ files →
      ∃ n, 1 ≤ n ∧ n ≤ files.length + 1 ∧
        getUniqueFilename files originalPath
          = candidateName (splitExtension originalPath).1 (splitExtension originalPath).2 n ∧
        ∀ m, 1 ≤ m → m < n →
          candidateName (splitExtension originalPath).1 (splitExtension originalPath).2 m
            ∈ files) := by
  by_cases h : originalPath ∈ files
  · have hex : fileExists files originalPath = true := (fileExists_iff _ _).mpr h
    have hval : getUniqueFilename files originalPath
        = uniqueLoop files (splitExtension originalPath).1 (splitExtension originalPath).2
            files.length 1 := by
      simp [getUniqueFilename, hex]
    obtain ⟨n, h1, h2, h3, h4, h5⟩ := uniqueLoop_spec files (splitExtension originalPath).1
      (splitExtension originalPath).2 files.length 1
    have hfree : getUniqueFilename files originalPath ∉ files := by
      rw [hval, h3]
      by_cases hn : n < 1 + files.length
      · exact h5 hn
      · have hn2 : n = files.length + 1 := by omega
        rw [hn2]
        exact candidate_free_at_bound files _ _ (fun m hm1 hm2 => h4 m hm1 (by omega))
    exact ⟨hfree, fun hn => absurd h hn, fun _ => ⟨n, h1, by omega, by rw [hval, h3], h4⟩⟩
  · have hne : fileExists files originalPath = false := by
      simpa [fileExists] using h
    have hval : getUniqueFilename files originalPath = originalPath := by
      simp [getUniqueFilename, hne]
    exact ⟨by rw [hval]; exact h, fun _ => hval, fun hin => absurd hin h⟩

/-! ## The claims -/

/-- C1 (failing input). A download is queued, admitted by `update` and paused before a worker has
started it: `update` left its status `QUEUED`, so `updateTaskStatus` looks for it in the queued
collection, does not find it, and files it under paused while it is still in active. -/
theorem C1_pause_before_start_is_in_two_collections :
    admittedNotStarted.active = [0] ∧ (admittedNotStarted.heap 0).status = .QUEUED ∧
    pausedBeforeStart.active = [0] ∧ pausedBeforeStart.paused = [0] ∧
    (pausedBeforeStart.heap 0).status = .PAUSED := by
  decide

/-- C2. When the active collection holds at most as many tasks as the pool has workers, it still
does after `update`; and `update` extends the tasks that stay active by tasks taken from the back
of the queue, each of them admitted at a moment when active was smaller than the pool. -/
theorem C2_update_respects_capacity (s : DownloadManager)
    (h : s.active.length ≤ s.threadPool.size) :
    (update s).threadPool.size = s.threadPool.size ∧
    (update s).active.length ≤ s.threadPool.size ∧
    ∃ admitted : List TaskId,
      (update s).active = (reconcileActive s).active ++ admitted ∧
      (update s).queued ++ admitted.reverse = s.queued ∧
      ∀ i, i < admitted.length → (reconcileActive s).active.length + i < s.threadPool.size := by
  obtain ⟨r1, r2, -, -, -, -, r8⟩ := reconcileActive_spec s
  obtain ⟨a1, a2, -, a4, -⟩ :=
    startQueuedTasks_spec (reconcileActive s).queued.length (reconcileActive s) (Nat.le_refl _)
  have hstill : (reconcileActive s).active.length ≤ s.active.length := by
    rw [r8]; exact List.length_filter_le _ s.active
  simp only [update, saveState_threadPool, saveState_active, saveState_queued]
  refine ⟨?_, ?_, ?_⟩
  · simp only [ThreadPool.size, a4, r2]
  · rw [a2, r1, r2]
    simp only [List.length_append, List.length_take, List.length_reverse]
    omega
  · refine ⟨s.queued.reverse.take
      (min s.queued.length (s.threadPool.size - (reconcileActive s).active.length)), ?_, ?_, ?_⟩
    · rw [a2, r1, r2]
    · rw [a1, r1, r2, List.take_reverse, List.reverse_reverse]
      exact List.take_append_drop _ _
    · intro i hi
      simp only [List.length_take, List.length_reverse] at hi
      omega

/-- C2 (witness). Three downloads queued on a pool of two workers. -/
theorem C2_update_respects_capacity_witness :
    threeQueued.active.length ≤ threeQueued.threadPool.size ∧
    (update threeQueued).active.length ≤ threeQueued.threadPool.size :=
  ⟨by decide, (C2_update_respects_capacity threeQueued (by decide)).2.1⟩

/-- C3. With `k ≤ c` tasks in active, all of status `ACTIVE`, and `n` tasks queued, `update` moves
`m = min n (c - k)` tasks: active is extended by the last `m` members of the queue, back first,
the first `n - m` members stay queued in order, and the pool receives one job per admitted task,
in the order of admission. -/
theorem C3_update_admits_from_back (s : DownloadManager)
    (_hk : s.active.length ≤ s.threadPool.size)
    (hact : ∀ t ∈ s.active, (s.heap t).status = .ACTIVE) :
    (update s).active
      = s.active ++ (s.queued.drop
          (s.queued.length - min s.queued.length (s.threadPool.size - s.active.length))).reverse ∧
    (update s).queued
      = s.queued.take (s.queued.length - min s.queued.length (s.threadPool.size - s.active.length)) ∧
    (update s).threadPool.tasks
      = s.threadPool.tasks ++ (s.queued.drop
          (s.queued.length - min s.queued.length (s.threadPool.size - s.active.length))).reverse ∧
    (update s).active.length
      = s.active.length + min s.queued.length (s.threadPool.size - s.active.length) ∧
    (update s).paused = s.paused ∧ (update s).completed = s.completed ∧
    (update s).failed = s.failed ∧ (update s).heap = s.heap := by
  have hrec : reconcileActive s = s := by
    have := reconcile_all_active s s.active [] hact
    simp only [reconcileActive, this, List.nil_append]
  obtain ⟨a1, a2, a3, -, a5, a6, a7, a8, -⟩ :=
    startQueuedTasks_spec (reconcileActive s).queued.length (reconcileActive s) (Nat.le_refl _)
  rw [hrec] at a1 a2 a3 a5 a6 a7 a8
  have hrev : s.queued.reverse.take (min s.queued.length (s.threadPool.size - s.active.length))
      = (s.queued.drop (s.queued.length
          - min s.queued.length (s.threadPool.size - s.active.length))).reverse := by
    rw [List.take_reverse]
  simp only [update, hrec, saveState_active, saveState_queued, saveState_threadPool,
    saveState_paused, saveState_completed, saveState_failed, saveState_heap]
  refine ⟨by rw [a2, hrev], a1, by rw [a3, hrev], ?_, a6, a7, a8, a5⟩
  rw [a2]
  simp only [List.length_append, List.length_take, List.length_reverse]
  omega

/-- C3 (witness). One download running and three queued on a pool of two workers: `update` moves
the last queued download, and only that one. -/
theorem C3_update_admits_from_back_witness :
    oneRunningThreeQueued.active.length ≤ oneRunningThreeQueued.threadPool.size ∧
    (∀ t ∈ oneRunningThreeQueued.active, (oneRunningThreeQueued.heap t).status = .ACTIVE) ∧
    oneRunningThreeQueued.active = [0] ∧ oneRunningThreeQueued.queued = [1, 2, 3] ∧
    (update oneRunningThreeQueued).active
      = oneRunningThreeQueued.active ++ (oneRunningThreeQueued.queued.drop
          (oneRunningThreeQueued.queued.length - min oneRunningThreeQueued.queued.length
            (oneRunningThreeQueued.threadPool.size - oneRunningThreeQueued.active.length))).reverse :=
  ⟨by decide, by decide, by decide, by decide,
    (C3_update_admits_from_back oneRunningThreeQueued (by decide) (by decide)).1⟩

/-- C4 (counterexample). The manager with two queued, one active, one completed and one failed
download has every task in the collection of its status, yet the active task, saved with 1234567
bytes received, comes back from the state file with 1234570. -/
theorem C4_reloaded_byte_count_differs :
    persistedExample.StatusMatches ∧
    (persistedExample.tasksIn .ACTIVE).map (fun t => t.bytesDownloaded) = [1234567] ∧
    (persistedExampleReloaded.tasksIn .ACTIVE).map (fun t => t.bytesDownloaded) = [1234570] := by
  decide!

/-- C4 (amended). When the state file can be written, every task held sits in the collection of
its status, its numeric fields are in range with whole byte counts, and its URL and destination
have no line feed, then the manager constructed from the saved file holds in each of the five
collections the tasks of the original collection, in the same order, each with its nine persisted
fields, the two byte counts rounded to six significant digits and unchanged when below 1000000;
in particular an active task is reloaded into active.  Loading submits no job to the pool. -/
theorem C4_saved_state_reloads (s : DownloadManager) (w : Nat) (wr : Bool)
    (hw : s.stateFileWritable = true) (hs : s.Storable) (hm : s.StatusMatches) :
    (DownloadManager.new w (saveState s).stateFile wr).tasksIn .QUEUED
      = (s.tasksIn .QUEUED).map DownloadTask.reloaded ∧
    (DownloadManager.new w (saveState s).stateFile wr).tasksIn .ACTIVE
      = (s.tasksIn .ACTIVE).map DownloadTask.reloaded ∧
    (DownloadManager.new w (saveState s).stateFile wr).tasksIn .PAUSED
      = (s.tasksIn .PAUSED).map DownloadTask.reloaded ∧
    (DownloadManager.new w (saveState s).stateFile wr).tasksIn .COMPLETED
      = (s.tasksIn .COMPLETED).map DownloadTask.reloaded ∧
    (DownloadManager.new w (saveState s).stateFile wr).tasksIn .FAILED
      = (s.tasksIn .FAILED).map DownloadTask.reloaded ∧
    (DownloadManager.new w (saveState s).stateFile wr).threadPool.tasks = [] ∧
    ∀ task ∈ s.held,
      ((s.heap task).bytesDownloaded < 1000000 →
        (s.heap task).reloaded.bytesDownloaded = (s.heap task).bytesDownloaded) ∧
      ((s.heap task).totalBytes < 1000000 →
        (s.heap task).reloaded.totalBytes = (s.heap task).totalBytes) := by
  obtain ⟨h1, h2⟩ := saved_then_loaded s w wr hw hs
  refine ⟨?_, ?_, ?_, ?_, ?_, h1, ?_⟩
  · rw [h2 _ (by decide), held_filter_status s hm _ (by decide)]
  · rw [h2 _ (by decide), held_filter_status s hm _ (by decide)]
  · rw [h2 _ (by decide), held_filter_status s hm _ (by decide)]
  · rw [h2 _ (by decide), held_filter_status s hm _ (by decide)]
  · rw [h2 _ (by decide), held_filter_status s hm _ (by decide)]
  · intro task ht
    exact ⟨fun hlt => roundSix_small _ (hs task ht).1.1 hlt,
      fun hlt => roundSix_small _ (hs task ht).1.2.1 hlt⟩

/-- C4 (witness). The amended statement at the manager with two queued, one active, one completed
and one failed download. -/
theorem C4_saved_state_reloads_witness :
    persistedExample.stateFileWritable = true ∧ persistedExample.Storable ∧
    persistedExample.StatusMatches ∧
    persistedExampleReloaded.tasksIn .ACTIVE
      = (persistedExample.tasksIn .ACTIVE).map DownloadTask.reloaded ∧
    persistedExampleReloaded.threadPool.tasks = [] :=
  ⟨by decide, by decide, by decide,
    (C4_saved_state_reloads persistedExample 5 true (by decide) (by decide) (by decide)).2.1,
    (C4_saved_state_reloads persistedExample 5 true (by decide) (by decide) (by decide)).2.2.2.2.2.1⟩

/-- C5 (counterexample). The line written for a task with 1234567 bytes received decodes to a
record with 1234570 bytes received. -/
theorem C5_line_byte_count_differs :
    (persistedExample.heap 2).FieldsInRange ∧
    (persistedExample.heap 2).bytesDownloaded = 1234567 ∧
    (parseLine (taskLine (persistedExample.heap 2))).map (fun r => r.downloadedBytes)
      = some 1234570 := by
  decide!

/-- C5 (amended). For a task whose numeric fields are in range, with whole byte counts, the line
that `saveState` writes decodes to a record with the same status, HTTP status, error kind,
created-at and ended-at, and with the two byte counts rounded to six significant digits, which
leaves a byte count below 1000000 unchanged. -/
theorem C5_line_round_trip (t : DownloadTask) (h : t.FieldsInRange) :
    ∃ r, parseLine (taskLine t) = some r ∧
      castStatus r.statusInt = some t.status ∧ r.httpStatus = t.httpStatus ∧
      r.errorCodeInt = t.errorCode ∧ r.addedAt = t.addedAt ∧ r.endedAt = t.endedAt ∧
      r.downloadedBytes = roundSix t.bytesDownloaded ∧ r.totalBytes = roundSix t.totalBytes ∧
      (t.bytesDownloaded < 1000000 → r.downloadedBytes = t.bytesDownloaded) ∧
      (t.totalBytes < 1000000 → r.totalBytes = t.totalBytes) :=
  ⟨t.toRecord, parseLine_taskLine t h, (statusToInt_range t.status).2, rfl, rfl, rfl, rfl, rfl, rfl,
    fun hlt => roundSix_small _ h.1 hlt, fun hlt => roundSix_small _ h.2.1 hlt⟩

/-- C5 (witness). The amended statement at the completed task of the example, whose byte counts
are 2048. -/
theorem C5_line_round_trip_witness :
    (persistedExample.heap 3).FieldsInRange ∧
    ∃ r, parseLine (taskLine (persistedExample.heap 3)) = some r ∧
      castStatus r.statusInt = some (persistedExample.heap 3).status ∧
      r.httpStatus = (persistedExample.heap 3).httpStatus ∧
      r.errorCodeInt = (persistedExample.heap 3).errorCode ∧
      r.addedAt = (persistedExample.heap 3).addedAt ∧
      r.endedAt = (persistedExample.heap 3).endedAt ∧
      r.downloadedBytes = roundSix (persistedExample.heap 3).bytesDownloaded ∧
      r.totalBytes = roundSix (persistedExample.heap 3).totalBytes ∧
      ((persistedExample.heap 3).bytesDownloaded < 1000000 →
        r.downloadedBytes = (persistedExample.heap 3).bytesDownloaded) ∧
      ((persistedExample.heap 3).totalBytes < 1000000 →
        r.totalBytes = (persistedExample.heap 3).totalBytes) :=
  ⟨by decide, C5_line_round_trip (persistedExample.heap 3) (by decide)⟩

/-- C6 (counterexample). A queued download whose destination contains a line feed is written
over two lines, neither of which parses, so the manager constructed from the saved file holds no
task at all. -/
theorem C6_line_feed_destination_is_lost :
    lineFeedExample.queued = [0] ∧ (lineFeedExample.heap 0).destination = "a\nb" ∧
    (DownloadManager.new 5 (saveState lineFeedExample).stateFile true).held = [] := by
  decide

/-- C6 (amended). When the state file can be written, every task held sits in the collection of
its status, its numeric fields are in range, and its URL and destination have no line feed, then
in the manager constructed from the saved file every collection lists exactly the URLs and
destinations of the original collection, in order: spaces, quotes, backslashes and the empty
string come back unchanged. -/
theorem C6_url_destination_round_trip (s : DownloadManager) (w : Nat) (wr : Bool)
    (hw : s.stateFileWritable = true) (hs : s.Storable) (hm : s.StatusMatches) :
    ((DownloadManager.new w (saveState s).stateFile wr).tasksIn .QUEUED).map
        (fun t => (t.url, t.destination))
      = (s.tasksIn .QUEUED).map (fun t => (t.url, t.destination)) ∧
    ((DownloadManager.new w (saveState s).stateFile wr).tasksIn .ACTIVE).map
        (fun t => (t.url, t.destination))
      = (s.tasksIn .ACTIVE).map (fun t => (t.url, t.destination)) ∧
    ((DownloadManager.new w (saveState s).stateFile wr).tasksIn .PAUSED).map
        (fun t => (t.url, t.destination))
      = (s.tasksIn .PAUSED).map (fun t => (t.url, t.destination)) ∧
    ((DownloadManager.new w (saveState s).stateFile wr).tasksIn .COMPLETED).map
        (fun t => (t.url, t.destination))
      = (s.tasksIn .COMPLETED).map (fun t => (t.url, t.destination)) ∧
    ((DownloadManager.new w (saveState s).stateFile wr).tasksIn .FAILED).map
        (fun t => (t.url, t.destination))
      = (s.tasksIn .FAILED).map (fun t => (t.url, t.destination)) := by
  obtain ⟨-, h2⟩ := saved_then_loaded s w wr hw hs
  have key : ∀ st, st ≠ .CANCELED →
      ((DownloadManager.new w (saveState s).stateFile wr).tasksIn st).map
          (fun t => (t.url, t.destination))
        = (s.tasksIn st).map (fun t => (t.url, t.destination)) := by
    intro st hst
    rw [h2 st hst, held_filter_status s hm st hst, List.map_map]
    rfl
  exact ⟨key _ (by decide), key _ (by decide), key _ (by decide), key _ (by decide),
    key _ (by decide)⟩

/-- C6 (witness). The amended statement at the example manager, whose second queued download has
a space in its URL and spaces and double quotes in its destination. -/
theorem C6_url_destination_round_trip_witness :
    persistedExample.stateFileWritable = true ∧ persistedExample.Storable ∧
    persistedExample.StatusMatches ∧
    (persistedExampleReloaded.tasksIn .QUEUED).map (fun t => (t.url, t.destination))
      = (persistedExample.tasksIn .QUEUED).map (fun t => (t.url, t.destination)) :=
  ⟨by decide, by decide, by decide,
    (C6_url_destination_round_trip persistedExample 5 true (by decide) (by decide)
      (by decide)).1⟩

/-- C7 (counterexample). An empty first line, which holds none of the nine fields, does not end
the loading: the record on the line after it is loaded.  And a complete line whose status integer
is that of `CANCELED` parses, but its task is stored in no collection. -/
theorem C7_empty_line_skipped_canceled_dropped :
    parseLine [] = none ∧
    (DownloadManager.new 5 (some emptyLineFile) true).queued = [0] ∧
    (decodedRecords canceledLineFile).length = 1 ∧
    (DownloadManager.new 5 (some canceledLineFile) true).held = [] := by
  decide!

/-- C7 (amended). Loading is a total function of the file content.  Without a file nothing is
loaded.  With a file, empty lines are passed over, reading stops at the first non-empty line
whose extraction fails, and each record read before that is turned into a task and appended to
the collection that its status integer 0 to 4 names, in file order; a record with another status
integer is stored nowhere.  Nothing is submitted to the pool. -/
theorem C7_load_state_prefix (w : Nat) (content : List Char) (wr : Bool) :
    (DownloadManager.new w none wr).held = [] ∧
    (DownloadManager.new w (some content) wr).tasksIn .QUEUED
      = tasksWithStatus (decodedRecords content) .QUEUED ∧
    (DownloadManager.new w (some content) wr).tasksIn .ACTIVE
      = tasksWithStatus (decodedRecords content) .ACTIVE ∧
    (DownloadManager.new w (some content) wr).tasksIn .PAUSED
      = tasksWithStatus (decodedRecords content) .PAUSED ∧
    (DownloadManager.new w (some content) wr).tasksIn .COMPLETED
      = tasksWithStatus (decodedRecords content) .COMPLETED ∧
    (DownloadManager.new w (some content) wr).tasksIn .FAILED
      = tasksWithStatus (decodedRecords content) .FAILED ∧
    (DownloadManager.new w (some content) wr).threadPool.tasks = [] := by
  obtain ⟨h1, h2⟩ := new_spec w content wr
  exact ⟨rfl, h2 _ (by decide), h2 _ (by decide), h2 _ (by decide), h2 _ (by decide),
    h2 _ (by decide), h1⟩

/-- C8. An index at or beyond the size of the addressed collection leaves the manager exactly as
it was: the collections, every task, the pool and the state file. -/
theorem C8_out_of_range_index_is_noop (env : Env) (s : DownloadManager) (index : Nat) :
    (s.active.length ≤ index → pauseDownload s index = s ∧ cancelDownload s index = s) ∧
    (s.paused.length ≤ index → resumeDownload s index = s) ∧
    (s.failed.length ≤ index → retryDownload env s index = s) := by
  refine ⟨fun h => ⟨?_, ?_⟩, fun h => ?_, fun h => ?_⟩
  · simp [pauseDownload, Nat.not_lt.mpr h]
  · simp [cancelDownload, Nat.not_lt.mpr h]
  · simp [resumeDownload, Nat.not_lt.mpr h]
  · simp [retryDownload, Nat.not_lt.mpr h]

/-- C8 (witness). Index 7 on a manager with one active download and nothing else. -/
theorem C8_out_of_range_index_is_noop_witness :
    oneRunning.active.length ≤ 7 ∧ oneRunning.paused.length ≤ 7 ∧ oneRunning.failed.length ≤ 7 ∧
    pauseDownload oneRunning 7 = oneRunning ∧ cancelDownload oneRunning 7 = oneRunning ∧
    resumeDownload oneRunning 7 = oneRunning ∧ retryDownload exampleEnv oneRunning 7 = oneRunning :=
  ⟨by decide, by decide, by decide,
    ((C8_out_of_range_index_is_noop exampleEnv oneRunning 7).1 (by decide)).1,
    ((C8_out_of_range_index_is_noop exampleEnv oneRunning 7).1 (by decide)).2,
    (C8_out_of_range_index_is_noop exampleEnv oneRunning 7).2.1 (by decide),
    (C8_out_of_range_index_is_noop exampleEnv oneRunning 7).2.2 (by decide)⟩

/-- C9 (failing input). A download is cancelled after `update` has admitted it and before a
worker has started it: its status becomes `CANCELED`, but it is still a member of active. -/
theorem C9_cancel_before_start_stays_active :
    admittedNotStarted.active = [0] ∧
    ((cancelDownload admittedNotStarted 0).heap 0).status = .CANCELED ∧
    (cancelDownload admittedNotStarted 0).active = [0] := by
  decide

/-- C10 (failing input). A download is paused before a worker has started it, and then started by
the worker, so that it sits in paused with status `ACTIVE`: resuming it sets the resume flag and
appends it to queued, but leaves it in paused and empties active instead. -/
theorem C10_resume_of_started_task_stays_paused :
    pausedThenStarted.paused = [0] ∧ pausedThenStarted.active = [0] ∧
    (pausedThenStarted.heap 0).status = .ACTIVE ∧
    (resumeDownload pausedThenStarted 0).paused = [0] ∧
    (resumeDownload pausedThenStarted 0).active = [] ∧
    (resumeDownload pausedThenStarted 0).queued = [0] ∧
    ((resumeDownload pausedThenStarted 0).heap 0).resumeEnabled = true := by
  decide

/-- C11 (failing input). A running download is paused, resumed and admitted again before its
transfer fails; `update` files it as failed, and the second job then marks it `ACTIVE`.
`retryDownload` looks for it in active, so it stays in failed while a new task is queued. -/
theorem C11_retry_leaves_task_in_failed :
    failedThenStarted.failed = [0] ∧ (failedThenStarted.heap 0).status = .ACTIVE ∧
    (failedThenStarted.heap 0).destination = "a__1.txt" ∧
    (retryDownload exampleEnv failedThenStarted 0).failed = [0] ∧
    (retryDownload exampleEnv failedThenStarted 0).queued = [1] := by
  decide

/-- C12 (failing input). With a download that `update` has admitted and no worker has started
yet, or one whose transfer has ended and that `update` has not yet moved to completed, the first
loop of `pauseAllDownloads` is still running after any number of rounds. -/
theorem C12_pause_all_never_ends :
    admittedNotStarted.active = [0] ∧ (admittedNotStarted.heap 0).status = .QUEUED ∧
    (∀ fuel, pauseAllDownloads fuel admittedNotStarted = none) ∧
    completedNotReconciled.active = [0] ∧ (completedNotReconciled.heap 0).status = .COMPLETED ∧
    (∀ fuel, pauseAllDownloads fuel completedNotReconciled = none) := by
  refine ⟨by decide, by decide, fun fuel => ?_, by decide, by decide, fun fuel => ?_⟩
  · have h := pauseActiveLoop_diverges fuel admittedNotStarted 0 (by decide) (by decide)
    simp [pauseAllDownloads, h]
  · have h := pauseActiveLoop_diverges fuel completedNotReconciled 0 (by decide) (by decide)
    simp [pauseAllDownloads, h]

/-- C13 (failing input). With three queued downloads the loop over queued cancels the first and
the third, passes over the second, and its third iteration is at a position outside the
vector. -/
theorem C13_cancel_all_skips_and_runs_past_end :
    threeQueued.queued = [0, 1, 2] ∧
    (cancelAllDownloads threeQueued).ranPastEnd = true ∧
    (cancelAllDownloads threeQueued).state.queued = [1] ∧
    ((cancelAllDownloads threeQueued).state.heap 0).status = .CANCELED ∧
    ((cancelAllDownloads threeQueued).state.heap 1).status = .QUEUED ∧
    ((cancelAllDownloads threeQueued).state.heap 2).status = .CANCELED := by
  decide

/-- C14 (failing input). One download without destination is in failed and the server cannot be
reached: the loop of `retryAllDownloads` is still running after any number of rounds. -/
theorem C14_retry_all_never_ends :
    failedLookup.failed = [0] ∧ (failedLookup.heap 0).status = .FAILED ∧
    (failedLookup.heap 0).destination = "" ∧
    ∀ fuel, retryAllDownloads errorEnv fuel failedLookup = none := by
  refine ⟨by decide, by decide, by decide, fun fuel => ?_⟩
  exact retryAllLoop_diverges errorEnv (fun _ => show (6 : Int) ≠ 0 by decide) fuel failedLookup 0 (by decide)
    (by decide)

/-- C15. On a manager whose collections hold allocated tasks only, `queueDownload` creates one
task, which no collection held before, and changes no other task and none of active, paused and
completed.  With an empty destination and a lookup that reports a transport error, the new task
is appended to failed with status `FAILED` and queued is unchanged; otherwise it is appended to
queued with status `QUEUED` and failed is unchanged, and its destination is the collision-free
form of the given, or else resolved, destination: the value of `getUniqueFilename`, which is a
path at which no file exists, that destination itself when it is free, and otherwise the
candidate of the smallest counter from 1 on whose name is free. -/
theorem C15_queue_download_adds_one_task (env : Env) (s : DownloadManager)
    (url destination : String) (h : s.IdsAllocated) :
    s.nextId ∉ s.held ∧
    (∀ task, task ≠ s.nextId → (queueDownload env s url destination).heap task = s.heap task) ∧
    (queueDownload env s url destination).active = s.active ∧
    (queueDownload env s url destination).paused = s.paused ∧
    (queueDownload env s url destination).completed = s.completed ∧
    (destination.isEmpty = true ∧ (env.resolve url).errorCode ≠ CURLE_OK →
      (queueDownload env s url destination).failed = s.failed ++ [s.nextId] ∧
      ((queueDownload env s url destination).heap s.nextId).status = .FAILED ∧
      (queueDownload env s url destination).queued = s.queued) ∧
    (¬ (destination.isEmpty = true ∧ (env.resolve url).errorCode ≠ CURLE_OK) →
      (queueDownload env s url destination).queued = s.queued ++ [s.nextId] ∧
      ((queueDownload env s url destination).heap s.nextId).status = .QUEUED ∧
      ((queueDownload env s url destination).heap s.nextId).destination
        = getUniqueFilename env.files
            (if destination.isEmpty then (env.resolve url).name else destination) ∧
      (queueDownload env s url destination).failed = s.failed ∧
      ((queueDownload env s url destination).heap s.nextId).destination ∉ env.files ∧
      ((if destination.isEmpty then (env.resolve url).name else destination) ∉ env.files →
        ((queueDownload env s url destination).heap s.nextId).destination
          = (if destination.isEmpty then (env.resolve url).name else destination)) ∧
      ((if destination.isEmpty then (env.resolve url).name else destination) ∈ env.files →
        ∃ n, 1 ≤ n ∧ n ≤ env.files.length + 1 ∧
          ((queueDownload env s url destination).heap s.nextId).destination
            = candidateName
                (splitExtension
                  (if destination.isEmpty then (env.resolve url).name else destination)).1
                (splitExtension
                  (if destination.isEmpty then (env.resolve url).name else destination)).2 n ∧
          ∀ m, 1 ≤ m → m < n →
            candidateName
                (splitExtension
                  (if destination.isEmpty then (env.resolve url).name else destination)).1
                (splitExtension
                  (if destination.isEmpty then (env.resolve url).name else destination)).2 m
              ∈ env.files)) := by
  have hfresh : ∀ st, s.nextId ∉ s.collection st := fun st hmem =>
    Nat.lt_irrefl _ (h st _ hmem)
  have hheld : s.nextId ∉ s.held := by
    simp only [DownloadManager.held, List.mem_append, not_or]
    exact ⟨⟨⟨⟨hfresh .QUEUED, hfresh .ACTIVE⟩, hfresh .PAUSED⟩, hfresh .COMPLETED⟩,
      hfresh .FAILED⟩
  by_cases hc : destination.isEmpty = true ∧ (env.resolve url).errorCode ≠ CURLE_OK
  · obtain ⟨e1, -, e3, e4, e5, e6, e7, -⟩ := queueDownload_error env s url destination hc.1 hc.2
    refine ⟨hheld, fun task ht => by rw [e1]; simp [ht], e5, e6, e7, fun _ => ⟨e4, ?_, ?_⟩,
      fun hn => absurd hc hn⟩
    · rw [e1]; simp
    · rw [e3]; exact List.erase_of_not_mem (hfresh .QUEUED)
  · have hor : destination.isEmpty = false ∨ (env.resolve url).errorCode = CURLE_OK := by
      by_cases hd : destination.isEmpty = true
      · exact Or.inr (by_contra fun he => hc ⟨hd, he⟩)
      · exact Or.inl (by simpa using hd)
    obtain ⟨e1, -, e3, e4, e5, e6, e7, -⟩ := queueDownload_ok env s url destination hor
    have hdest : ((queueDownload env s url destination).heap s.nextId).destination
        = getUniqueFilename env.files
            (if destination.isEmpty then (env.resolve url).name else destination) := by
      rw [e1]; by_cases hd : destination.isEmpty = true <;> simp [hd]
    obtain ⟨u1, u2, u3⟩ := getUniqueFilename_spec env.files
      (if destination.isEmpty then (env.resolve url).name else destination)
    refine ⟨hheld, fun task ht => by rw [e1]; simp [ht], e5, e6, e7, fun hp => absurd hp hc,
      fun _ => ⟨e3, ?_, hdest, e4, ?_, fun hfree => ?_, fun htaken => ?_⟩⟩
    · rw [e1]; by_cases hd : destination.isEmpty = true <;> simp [hd]
    · rw [hdest]; exact u1
    · rw [hdest]; exact u2 hfree
    · rw [hdest]; exact u3 htaken

/-- C15 (witness). A second download, with destination `a.txt`, is queued on the manager that
has admitted the first, while `a.txt` is on disk: it is appended to queued, and its destination
`a__1.txt` is a path at which no file exists. -/
theorem C15_queue_download_adds_one_task_witness :
    admittedNotStarted.IdsAllocated ∧
    (queueDownload exampleEnv admittedNotStarted "http://host/a.txt" "a.txt").queued
      = admittedNotStarted.queued ++ [admittedNotStarted.nextId] ∧
    ((queueDownload exampleEnv admittedNotStarted "http://host/a.txt" "a.txt").heap
      admittedNotStarted.nextId).destination ∉ exampleEnv.files ∧
    ((queueDownload exampleEnv admittedNotStarted "http://host/a.txt" "a.txt").heap
      admittedNotStarted.nextId).destination = "a__1.txt" ∧
    "a.txt" ∈ exampleEnv.files :=
  ⟨fun st => by cases st <;> decide,
    ((C15_queue_download_adds_one_task exampleEnv admittedNotStarted "http://host/a.txt" "a.txt"
      (fun st => by cases st <;> decide)).2.2.2.2.2.2 (by decide)).1,
    ((C15_queue_download_adds_one_task exampleEnv admittedNotStarted "http://host/a.txt" "a.txt"
      (fun st => by cases st <;> decide)).2.2.2.2.2.2 (by decide)).2.2.2.2.1,
    by decide, by decide⟩

/-- C16. For a task that sits in the collection of its status, `updateTaskStatus` erases it
there, which shortens that collection by one, marks it with the new status, and appends it to
the collection of the new status, to none for `CANCELED`; no other task object changes, and with
the task left out every collection is what it was. -/
theorem C16_update_task_status_moves_one_task (s : DownloadManager) (task : TaskId)
    (st : DownloadStatus) (h : task ∈ s.collection (s.heap task).status) :
    (∀ c, (updateTaskStatus s task st).collection c
      = (if c = (s.heap task).status then (s.collection c).erase task else s.collection c)
        ++ (if c = st ∧ st ≠ .CANCELED then [task] else [])) ∧
    ((s.collection (s.heap task).status).erase task).length + 1
      = (s.collection (s.heap task).status).length ∧
    (updateTaskStatus s task st).heap task = { s.heap task with status := st } ∧
    (∀ other, other ≠ task → (updateTaskStatus s task st).heap other = s.heap other) ∧
    (∀ c, ((updateTaskStatus s task st).collection c).filter (fun other => decide (other ≠ task))
      = (s.collection c).filter (fun other => decide (other ≠ task))) := by
  refine ⟨fun c => updateTaskStatus_collection s task st c, ?_, ?_, ?_, fun c => ?_⟩
  · rw [List.length_erase_of_mem h]
    have : 0 < (s.collection (s.heap task).status).length := List.length_pos_of_mem h
    omega
  · rw [updateTaskStatus_heap]; simp
  · intro other ho
    rw [updateTaskStatus_heap]; simp [ho]
  · rw [updateTaskStatus_collection, List.filter_append]
    have h2 : (if c = st ∧ st ≠ .CANCELED then [task] else []).filter
        (fun other => decide (other ≠ task)) = [] := by
      split <;> simp
    rw [h2, List.append_nil]
    split
    · exact filter_ne_erase _ _
    · rfl

/-- C16 (witness). The running download of a manager with three more queued is marked
`PAUSED`. -/
theorem C16_update_task_status_moves_one_task_witness :
    (0 : TaskId) ∈ oneRunningThreeQueued.collection (oneRunningThreeQueued.heap 0).status ∧
    (updateTaskStatus oneRunningThreeQueued 0 .PAUSED).heap 0
      = { oneRunningThreeQueued.heap 0 with status := .PAUSED } :=
  ⟨by decide,
    (C16_update_task_status_moves_one_task oneRunningThreeQueued 0 .PAUSED (by decide)).2.2.1⟩

/-- C17. The end of the transfer in `run`.  On success the task is `COMPLETED` with progress 100
and the end time.  On failure a task marked `PAUSED` keeps its status, error code and end time; a
task marked `CANCELED` keeps its status and its destination file is removed; any other task is
`FAILED` with the transport result as error code and the end time.  The HTTP status is stored in
every case. -/
theorem C17_run_end_outcome (t : DownloadTask) (d : Disk) (res httpStatus now : Int) :
    (res = CURLE_OK →
      t.runEnd res httpStatus now d
        = ({ t with httpStatus := httpStatus, status := .COMPLETED, progress := 100,
                    endedAt := now }, d)) ∧
    (res ≠ CURLE_OK → t.status = .PAUSED →
      t.runEnd res httpStatus now d = ({ t with httpStatus := httpStatus }, d)) ∧
    (res ≠ CURLE_OK → t.status = .CANCELED →
      t.runEnd res httpStatus now d
        = ({ t with httpStatus := httpStatus }, d.remove t.destination) ∧
      (t.runEnd res httpStatus now d).2.stat t.destination = none) ∧
    (res ≠ CURLE_OK → t.status ≠ .PAUSED → t.status ≠ .CANCELED →
      t.runEnd res httpStatus now d
        = ({ t with httpStatus := httpStatus, errorCode := res, status := .FAILED,
                    endedAt := now }, d)) := by
  refine ⟨fun h => ?_, fun h hp => ?_, fun h hcn => ?_, fun h hp hcn => ?_⟩
  · simp [DownloadTask.runEnd, h, DownloadTask.onDownloadComplete]
  · simp [DownloadTask.runEnd, h, DownloadTask.isPaused, hp, DownloadTask.onDownloadPause]
  · have e : t.runEnd res httpStatus now d
        = ({ t with httpStatus := httpStatus }, d.remove t.destination) := by
      simp [DownloadTask.runEnd, h, DownloadTask.isPaused, DownloadTask.isCanceled, hcn,
        DownloadTask.onDownloadCancel]
    exact ⟨e, by rw [e]; exact Disk.stat_remove d t.destination⟩
  · simp [DownloadTask.runEnd, h, DownloadTask.isPaused, DownloadTask.isCanceled, hp, hcn,
      DownloadTask.onDownloadError]

/-- C17 (witness). The four outcomes on a task that has received 250 of 1000 bytes. -/
theorem C17_run_end_outcome_witness :
    halfwayTask.runEnd 0 200 103 exampleDisk
      = ({ halfwayTask with httpStatus := 200, status := .COMPLETED, progress := 100,
                            endedAt := 103 }, exampleDisk) ∧
    halfwayPaused.runEnd 42 200 103 exampleDisk
      = ({ halfwayPaused with httpStatus := 200 }, exampleDisk) ∧
    (halfwayCanceled.runEnd 42 200 103 exampleDisk).2.stat halfwayCanceled.destination = none ∧
    halfwayTask.runEnd 56 200 103 exampleDisk
      = ({ halfwayTask with httpStatus := 200, errorCode := 56, status := .FAILED,
                            endedAt := 103 }, exampleDisk) :=
  ⟨(C17_run_end_outcome halfwayTask exampleDisk 0 200 103).1 (by decide),
    (C17_run_end_outcome halfwayPaused exampleDisk 42 200 103).2.1 (by decide) (by decide),
    ((C17_run_end_outcome halfwayCanceled exampleDisk 42 200 103).2.2.1 (by decide)
      (by decide)).2,
    (C17_run_end_outcome halfwayTask exampleDisk 56 200 103).2.2.2 (by decide) (by decide)
      (by decide)⟩

/-- C18 (failing input). A download cancelled before a worker has started it is marked
`CANCELED`, and the worker that then starts its job marks it `ACTIVE`; a download whose transfer
has ended with success is marked `COMPLETED`, and `pauseDownload`, called before `update` has
moved it out of active, marks it `PAUSED`. -/
theorem C18_canceled_and_completed_are_left :
    (canceledBeforeStart.heap 0).status = .CANCELED ∧
    (canceledThenStarted.heap 0).status = .ACTIVE ∧
    completedNotReconciled.active = [0] ∧
    (completedNotReconciled.heap 0).status = .COMPLETED ∧
    ((pauseDownload completedNotReconciled 0).heap 0).status = .PAUSED := by
  decide

/-- C19 (failing input). A download is paused before a worker has started it.  The worker then
starts it, which marks it `ACTIVE`, and the first progress callback returns 0 and stores the total,
the bytes received, the progress and a speed sample. -/
theorem C19_callback_after_early_pause_goes_on :
    (pausedBeforeStart.heap 0).status = .PAUSED ∧
    (pausedThenStarted.heap 0).status = .ACTIVE ∧
    (curlProgressCallback 101 1000 250 (pausedThenStarted.heap 0)).1 = 0 ∧
    (curlProgressCallback 101 1000 250 (pausedThenStarted.heap 0)).2.totalBytes = 1000 ∧
    (curlProgressCallback 101 1000 250 (pausedThenStarted.heap 0)).2.bytesDownloaded = 250 ∧
    (curlProgressCallback 101 1000 250 (pausedThenStarted.heap 0)).2.progress = 25 ∧
    (curlProgressCallback 101 1000 250 (pausedThenStarted.heap 0)).2.speedSamples
      = [(101, 250)] ∧
    (pausedThenStarted.heap 0).totalBytes = 0 ∧ (pausedThenStarted.heap 0).speedSamples = [] := by
  decide!

/-- C20. After any sequence of steps of `run` whose progress callbacks get non-negative
counters, mixed with any status changes and resume requests by the manager, the progress value
lies between 0 and 100: for the task `queueDownload` creates, for the task `loadState` builds
from a record, and for every task that starts with a progress value in that range and a resume
offset that is not negative. -/
theorem C20_progress_stays_percentage (steps : List RunStep)
    (hc : ∀ step ∈ steps, step.CountersNonneg) :
    (∀ (env : Env) (s : DownloadManager) (url destination : String),
      0 ≤ (runSteps steps ((queueDownload env s url destination).heap s.nextId)).progress ∧
      (runSteps steps ((queueDownload env s url destination).heap s.nextId)).progress ≤ 100) ∧
    (∀ (r : TaskRecord) (st : DownloadStatus),
      0 ≤ (runSteps steps (r.toTask st)).progress ∧
      (runSteps steps (r.toTask st)).progress ≤ 100) ∧
    (∀ t : DownloadTask, t.ProgressInRange →
      0 ≤ (runSteps steps t).progress ∧ (runSteps steps t).progress ≤ 100) := by
  have key : ∀ t : DownloadTask, t.ProgressInRange →
      0 ≤ (runSteps steps t).progress ∧ (runSteps steps t).progress ≤ 100 := fun t ht =>
    ⟨(runSteps_inRange steps t hc ht).1, (runSteps_inRange steps t hc ht).2.1⟩
  refine ⟨fun env s url destination => key _ ?_, fun r st => key _ ?_, key⟩
  · by_cases hcase : destination.isEmpty = true ∧ (env.resolve url).errorCode ≠ CURLE_OK
    · rw [(queueDownload_error env s url destination hcase.1 hcase.2).1]
      simp [DownloadTask.ProgressInRange]
    · have hor : destination.isEmpty = false ∨ (env.resolve url).errorCode = CURLE_OK := by
        by_cases hd : destination.isEmpty = true
        · exact Or.inr (by_contra fun he => hcase ⟨hd, he⟩)
        · exact Or.inl (by simpa using hd)
      rw [(queueDownload_ok env s url destination hor).1]
      by_cases hd : destination.isEmpty = true <;> simp [DownloadTask.ProgressInRange, hd]
  · simp [DownloadTask.ProgressInRange, TaskRecord.toTask]

/-- C20 (witness). A download queued on a new manager, then resumed with 250 bytes on disk: the
second callback reports 900 more bytes of 750, and the progress stays at most 100. -/
theorem C20_progress_stays_percentage_witness :
    (∀ step ∈ exampleSteps, step.CountersNonneg) ∧
    0 ≤ (runSteps exampleSteps
      ((queueDownload exampleEnv freshManager "http://host/a" "a").heap
        freshManager.nextId)).progress ∧
    (runSteps exampleSteps
      ((queueDownload exampleEnv freshManager "http://host/a" "a").heap
        freshManager.nextId)).progress ≤ 100 :=
  ⟨by decide,
    (C20_progress_stays_percentage exampleSteps (by decide)).1 exampleEnv freshManager
      "http://host/a" "a"⟩

/-- C21 (counterexample). Two callbacks in a row, the transport reporting 500 and then 200
bytes: the downloaded bytes go from 500 to 200. -/
theorem C21_downloaded_bytes_follow_counter :
    (curlProgressCallback 101 1000 500 halfwayTask).1 = 0 ∧
    (curlProgressCallback 101 1000 500 halfwayTask).2.bytesDownloaded = 500 ∧
    (curlProgressCallback 102 1000 200
      (curlProgressCallback 101 1000 500 halfwayTask).2).2.bytesDownloaded = 200 := by
  decide!

/-- C21. From one callback that returned 0 to the next callback of the same transfer, with any
writes of the manager thread in between, the downloaded bytes do not decrease when the
transport's `dlnow` counter does not. -/
theorem C21_downloaded_bytes_monotone (t : DownloadTask) (now1 dltotal1 dlnow1 : Int)
    (between : List RunStep) (now2 dltotal2 dlnow2 : Int)
    (hbetween : ∀ step ∈ between, step.IsManagerWrite)
    (hfirst : (curlProgressCallback now1 dltotal1 dlnow1 t).1 = 0)
    (hcounter : dlnow1 ≤ dlnow2) :
    (curlProgressCallback now1 dltotal1 dlnow1 t).2.bytesDownloaded
      ≤ (curlProgressCallback now2 dltotal2 dlnow2
          (runSteps between (curlProgressCallback now1 dltotal1 dlnow1 t).2)).2.bytesDownloaded := by
  obtain ⟨a1, a2, -⟩ := curlProgressCallback_stores now1 dltotal1 dlnow1 t
  obtain ⟨m1, -, m3⟩ := managerWrites_bytes between _ hbetween
  obtain ⟨-, b2, b3⟩ := curlProgressCallback_stores now2 dltotal2 dlnow2
    (runSteps between (curlProgressCallback now1 dltotal1 dlnow1 t).2)
  by_cases h2 : (curlProgressCallback now2 dltotal2 dlnow2
      (runSteps between (curlProgressCallback now1 dltotal1 dlnow1 t).2)).1 = 0
  · rw [b2 h2, m3, a1, a2 hfirst]
    have : (dlnow1 : ℚ) ≤ (dlnow2 : ℚ) := by exact_mod_cast hcounter
    linarith
  · rw [b3 h2, m1]

/-- C21 (witness). The counter goes from 500 to 600 while the manager marks the task paused and
active again in between. -/
theorem C21_downloaded_bytes_monotone_witness :
    (curlProgressCallback 101 1000 500 halfwayTask).2.bytesDownloaded
      ≤ (curlProgressCallback 102 1000 600
          (runSteps [.setStatus .PAUSED, .resumeFlag, .setStatus .ACTIVE]
            (curlProgressCallback 101 1000 500 halfwayTask).2)).2.bytesDownloaded :=
  C21_downloaded_bytes_monotone halfwayTask 101 1000 500
    [.setStatus .PAUSED, .resumeFlag, .setStatus .ACTIVE] 102 1000 600 (by decide) (by decide)
    (by decide)

/-- C22 (failing input). A task whose second run resumed at byte 250 is resumed again after its
file has been deleted.  The third run passes no offset to the transport, but the resume offset
is still 250: when the transport reports 100 of 1000 bytes, the callback stores 350 downloaded
bytes and a total of 1250. -/
theorem C22_resume_offset_is_kept :
    thirdRunTask.resumeEnabled = true ∧ thirdRunTask.resumeOffset = 250 ∧
    thirdRunTask.configureResume none = (thirdRunTask, none) ∧
    thirdRunTask.configureResume (some 0) = (thirdRunTask, none) ∧
    (curlProgressCallback 301 1000 100 (thirdRunTask.configureResume none).1).1 = 0 ∧
    (curlProgressCallback 301 1000 100 (thirdRunTask.configureResume none).1).2.bytesDownloaded
      = 350 ∧
    (curlProgressCallback 301 1000 100 (thirdRunTask.configureResume none).1).2.totalBytes
      = 1250 := by
  decide!

/-- C25 (counterexample). The path `.bashrc` exists.  Read as the claim reads it, its base is
empty and its extension is `.bashrc`, which gives the free name `__1.bashrc`; the function
returns `.bashrc__1`. -/
theorem C25_hidden_file_keeps_its_name :
    splitAtLastDot ".bashrc" = ("", ".bashrc") ∧
    candidateName (splitAtLastDot ".bashrc").1 (splitAtLastDot ".bashrc").2 1 = "__1.bashrc" ∧
    "__1.bashrc" ∉ [".bashrc"] ∧
    getUniqueFilename [".bashrc"] ".bashrc" = ".bashrc__1" := by
  decide

/-- C25. `getUniqueFilename` returns a path at which no file exists unchanged.  For a path at
which a file exists it returns `base ++ "__" ++ n ++ extension` for the smallest `n ≥ 1` whose
name is free, and `n` is at most the number of existing files plus one.  The extension is the
part of the path from its last dot and the base the part before it, when something stands before
that dot; for a path without dot, or with nothing before its last dot, the base is the whole path
and the extension is empty. -/
theorem C25_unique_filename (files : List String) (originalPath : String) :
    (originalPath ∉ files → getUniqueFilename files originalPath = originalPath) ∧
    (originalPath ∈ files →
      ∃ n, 1 ≤ n ∧ n ≤ files.length + 1 ∧
        getUniqueFilename files originalPath
          = candidateName (splitExtension originalPath).1 (splitExtension originalPath).2 n ∧
        getUniqueFilename files originalPath ∉ files ∧
        ∀ m, 1 ≤ m → m < n →
          candidateName (splitExtension originalPath).1 (splitExtension originalPath).2 m
            ∈ files) ∧
    (∀ base ext : List Char, originalPath.data = base ++ '.' :: ext → '.' ∉ ext → base ≠ [] →
      splitExtension originalPath = (String.mk base, String.mk ('.' :: ext))) ∧
    (∀ ext : List Char, originalPath.data = '.' :: ext → '.' ∉ ext →
      splitExtension originalPath = (originalPath, "")) ∧
    ('.' ∉ originalPath.data → splitExtension originalPath = (originalPath, "")) := by
  refine ⟨fun h => ?_, fun h => ?_, fun base ext h hext hb => ?_, fun ext h hext => ?_,
    splitExtension_no_dot originalPath⟩
  · have : fileExists files originalPath = false := by
      simpa [fileExists] using h
    simp [getUniqueFilename, this]
  · have hex : fileExists files originalPath = true := (fileExists_iff _ _).mpr h
    have hval : getUniqueFilename files originalPath
        = uniqueLoop files (splitExtension originalPath).1 (splitExtension originalPath).2
            files.length 1 := by
      simp [getUniqueFilename, hex]
    obtain ⟨n, h1, h2, h3, h4, h5⟩ := uniqueLoop_spec files (splitExtension originalPath).1
      (splitExtension originalPath).2 files.length 1
    refine ⟨n, h1, by omega, by rw [hval, h3], ?_, h4⟩
    rw [hval, h3]
    by_cases hn : n < 1 + files.length
    · exact h5 hn
    · have hn2 : n = files.length + 1 := by omega
      rw [hn2]
      exact candidate_free_at_bound files _ _ (fun m hm1 hm2 => h4 m hm1 (by omega))
  · rw [splitExtension_of_dot originalPath base ext h hext]
    cases base with
    | nil => exact absurd rfl hb
    | cons b bs => simp
  · rw [splitExtension_of_dot originalPath [] ext (by simpa using h) hext]
    simp

/-- C25 (witness). With `a.txt` and `a__1.txt` on disk, `a.txt` becomes `a__2.txt`; `b.txt` is
free and stays; `a.txt` is split into `a` and `.txt`. -/
theorem C25_unique_filename_witness :
    getUniqueFilename ["a.txt", "a__1.txt"] "b.txt" = "b.txt" ∧
    (∃ n, 1 ≤ n ∧ n ≤ ["a.txt", "a__1.txt"].length + 1 ∧
      getUniqueFilename ["a.txt", "a__1.txt"] "a.txt"
        = candidateName (splitExtension "a.txt").1 (splitExtension "a.txt").2 n ∧
      getUniqueFilename ["a.txt", "a__1.txt"] "a.txt" ∉ ["a.txt", "a__1.txt"] ∧
      ∀ m, 1 ≤ m → m < n →
        candidateName (splitExtension "a.txt").1 (splitExtension "a.txt").2 m
          ∈ ["a.txt", "a__1.txt"]) ∧
    getUniqueFilename ["a.txt", "a__1.txt"] "a.txt" = "a__2.txt" ∧
    splitExtension "a.txt" = ("a", ".txt") :=
  ⟨(C25_unique_filename ["a.txt", "a__1.txt"] "b.txt").1 (by decide),
    (C25_unique_filename ["a.txt", "a__1.txt"] "a.txt").2.1 (by decide),
    by decide,
    (C25_unique_filename ["a.txt", "a__1.txt"] "a.txt").2.2.1 ['a'] ['t', 'x', 't'] (by decide)
      (by decide) (by decide)⟩

/-- C27. The first loop of `update` and the assignment to `_active`.  Active keeps its members
marked `ACTIVE`, in order, and no other.  Its members marked `COMPLETED` are passed in order to
`updateTaskStatus`, which erases each from completed, if it is there, and appends it; when
completed did not hold them and active names each once, they are appended to completed in their
active order; likewise for `FAILED` and failed.  The members of completed and failed that are
not among these tasks keep their places, so a task of any other status is added to no
collection; queued, paused and the task objects are unchanged. -/
theorem C27_reconcile_partitions_active (s : DownloadManager) :
    (reconcileActive s).active = s.active.filter (fun t => decide ((s.heap t).status = .ACTIVE)) ∧
    (reconcileActive s).completed
      = refile s.completed (s.active.filter (fun t => decide ((s.heap t).status = .COMPLETED))) ∧
    (reconcileActive s).failed
      = refile s.failed (s.active.filter (fun t => decide ((s.heap t).status = .FAILED))) ∧
    ((s.active.filter (fun t => decide ((s.heap t).status = .COMPLETED))).Nodup →
      (∀ t ∈ s.active, (s.heap t).status = .COMPLETED → t ∉ s.completed) →
      (reconcileActive s).completed
        = s.completed ++ s.active.filter (fun t => decide ((s.heap t).status = .COMPLETED))) ∧
    ((s.active.filter (fun t => decide ((s.heap t).status = .FAILED))).Nodup →
      (∀ t ∈ s.active, (s.heap t).status = .FAILED → t ∉ s.failed) →
      (reconcileActive s).failed
        = s.failed ++ s.active.filter (fun t => decide ((s.heap t).status = .FAILED))) ∧
    (reconcileActive s).completed.filter (fun t => decide ((s.heap t).status ≠ .COMPLETED))
      = s.completed.filter (fun t => decide ((s.heap t).status ≠ .COMPLETED)) ∧
    (reconcileActive s).failed.filter (fun t => decide ((s.heap t).status ≠ .FAILED))
      = s.failed.filter (fun t => decide ((s.heap t).status ≠ .FAILED)) ∧
    (reconcileActive s).queued = s.queued ∧ (reconcileActive s).paused = s.paused ∧
    (reconcileActive s).heap = s.heap := by
  obtain ⟨r1, -, r3, r4, -, -, r7⟩ := reconcileActive_spec s
  obtain ⟨c1, c2⟩ := reconcile_collections s.active s []
  have hc : (reconcileActive s).completed
      = refile s.completed (s.active.filter (fun t => decide ((s.heap t).status = .COMPLETED))) :=
    c1
  have hf : (reconcileActive s).failed
      = refile s.failed (s.active.filter (fun t => decide ((s.heap t).status = .FAILED))) := c2
  refine ⟨r7, hc, hf, fun hnd hnew => ?_, fun hnd hnew => ?_, ?_, ?_, r1, r4, r3⟩
  · rw [hc]
    exact refile_of_new _ _ hnd (fun t ht => hnew t (List.mem_of_mem_filter ht)
      (by simpa using (List.mem_filter.mp ht).2))
  · rw [hf]
    exact refile_of_new _ _ hnd (fun t ht => hnew t (List.mem_of_mem_filter ht)
      (by simpa using (List.mem_filter.mp ht).2))
  · rw [hc]
    exact refile_others _ _ _ (fun t ht => by simpa using (List.mem_filter.mp ht).2)
  · rw [hf]
    exact refile_others _ _ _ (fun t ht => by simpa using (List.mem_filter.mp ht).2)

/-- C27 (witness). Active holds one task of each status and one more marked `ACTIVE`: the two
marked `ACTIVE` stay, the one marked `COMPLETED` goes to the end of completed, the one marked
`FAILED` to failed, and the other three are in no collection they were not in before. -/
theorem C27_reconcile_partitions_active_witness :
    (reconcileActive mixedActive).active = [0, 6] ∧
    (reconcileActive mixedActive).completed
      = mixedActive.completed
          ++ mixedActive.active.filter (fun t => decide ((mixedActive.heap t).status = .COMPLETED)) ∧
    (reconcileActive mixedActive).completed = [7, 1] ∧
    (reconcileActive mixedActive).failed = [2] ∧
    (reconcileActive mixedActive).paused = [3] ∧ (reconcileActive mixedActive).queued = [] :=
  ⟨by decide,
    (C27_reconcile_partitions_active mixedActive).2.2.2.1 (by decide) (by decide),
    by decide, by decide, by decide, by decide⟩

/-- C28 (failing input). `update` runs a second time before a worker has started the download
it admitted: the task, still marked `QUEUED`, is left out of active and is in no collection,
while its job waits in the pool. -/
theorem C28_update_drops_admitted_task :
    admittedNotStarted.active = [0] ∧ (admittedNotStarted.heap 0).status = .QUEUED ∧
    (update admittedNotStarted).held = [] ∧
    ((update admittedNotStarted).heap 0).status = .QUEUED ∧
    (update admittedNotStarted).threadPool.tasks = [0] := by
  decide

/-- C29. One callback never lowers the total: a task marked `PAUSED` or `CANCELED` is left as it
is, and otherwise the total becomes `dltotal` plus the resume offset when that sum is positive
and above the stored total, and stays what it was when it is not. -/
theorem C29_total_bytes_never_decrease (now dltotal dlnow : Int) (t : DownloadTask) :
    t.totalBytes ≤ (curlProgressCallback now dltotal dlnow t).2.totalBytes ∧
    (curlProgressCallback now dltotal dlnow t).2.totalBytes
      = (if ¬ (t.status = .PAUSED ∨ t.status = .CANCELED) ∧
            0 < (dltotal : ℚ) + t.resumeOffset ∧ t.totalBytes < (dltotal : ℚ) + t.resumeOffset
         then (dltotal : ℚ) + t.resumeOffset else t.totalBytes) := by
  have key : (curlProgressCallback now dltotal dlnow t).2.totalBytes
      = (if ¬ (t.status = .PAUSED ∨ t.status = .CANCELED) ∧
            0 < (dltotal : ℚ) + t.resumeOffset ∧ t.totalBytes < (dltotal : ℚ) + t.resumeOffset
         then (dltotal : ℚ) + t.resumeOffset else t.totalBytes) := by
    unfold curlProgressCallback
    by_cases hm : t.status = .PAUSED ∨ t.status = .CANCELED
    · have hb : (t.isPaused || t.isCanceled) = true := by
        simpa [DownloadTask.isPaused, DownloadTask.isCanceled] using hm
      rw [if_pos hb, if_neg (fun h => h.1 hm)]
    · have hb : ¬ (t.isPaused || t.isCanceled) = true := by
        simpa [DownloadTask.isPaused, DownloadTask.isCanceled] using hm
      rw [if_neg hb]
      simp only [DownloadTask.recordSpeedSample]
      by_cases hT : 0 < (dltotal : ℚ) + t.resumeOffset ∧
          t.totalBytes < (dltotal : ℚ) + t.resumeOffset
      · have hc : ¬ (t.status = .PAUSED ∨ t.status = .CANCELED) ∧
            0 < (dltotal : ℚ) + t.resumeOffset ∧
            t.totalBytes < (dltotal : ℚ) + t.resumeOffset := ⟨hm, hT⟩
        rw [if_pos hT, if_pos hc]
        split <;> rfl
      · have hc : ¬ (¬ (t.status = .PAUSED ∨ t.status = .CANCELED) ∧
            0 < (dltotal : ℚ) + t.resumeOffset ∧
            t.totalBytes < (dltotal : ℚ) + t.resumeOffset) := fun h => hT h.2
        rw [if_neg hT, if_neg hc]
        split <;> rfl
  refine ⟨?_, key⟩
  rw [key]
  split
  · rename_i h; exact le_of_lt h.2.2
  · exact le_refl _

/-- C30 (counterexample). The clock steps back between two calls: samples at 100 and at 50
seconds are recorded, then one at 105.  The front sample is 5 seconds old and stays, and so does
the sample behind it, which is 55 seconds old. -/
theorem C30_old_sample_behind_newer_front :
    ((recordAll [(100, 0), (50, 10)] (DownloadTask.new "u")).recordSpeedSample 105 20).speedSamples
      = [(100, 0), (50, 10), (105, 20)] := by
  decide!

/-- C30. After `recordSpeedSample` the window is not empty and its last sample is the one just
recorded, whatever the timestamps.  When the timestamps of the window the task started with and
of the calls made since do not decrease, every sample left in the window is at most 10 seconds
older than the one just recorded. -/
theorem C30_window_after_record (calls : List (Int × ℚ)) (t : DownloadTask) (timestamp : Int)
    (bytesDownloaded : ℚ) :
    ((recordAll calls t).recordSpeedSample timestamp bytesDownloaded).speedSamples ≠ [] ∧
    ((recordAll calls t).recordSpeedSample timestamp bytesDownloaded).speedSamples.getLast?
      = some (timestamp, bytesDownloaded) ∧
    ((t.speedSamples ++ calls ++ [(timestamp, bytesDownloaded)]).Pairwise
        (fun x y => x.1 ≤ y.1) →
      ∀ a ∈ ((recordAll calls t).recordSpeedSample timestamp bytesDownloaded).speedSamples,
        timestamp - 10 ≤ a.1) := by
  rw [recordSpeedSample_samples]
  obtain ⟨pre, hpre⟩ := dropWhile_append_keep
    (fun p : Int × ℚ => decide ((p.1 : ℚ) < (timestamp : ℚ) - 10))
    (timestamp, bytesDownloaded) (by simp) (recordAll calls t).speedSamples
  refine ⟨by rw [hpre]; simp, by rw [hpre]; simp, fun hs a ha => ?_⟩
  have hsuf : (recordAll calls t).speedSamples ++ [(timestamp, bytesDownloaded)]
      <:+ t.speedSamples ++ calls ++ [(timestamp, bytesDownloaded)] := by
    obtain ⟨p, hp⟩ := recordAll_suffix calls t
    exact ⟨p, by rw [← hp]; simp⟩
  have h := dropWhile_sorted_cutoff ((timestamp : ℚ) - 10) _ (hs.sublist hsuf.sublist) a ha
  have h2 : ((timestamp - 10 : Int) : ℚ) ≤ (a.1 : ℚ) := by
    push_cast
    exact h
  exact_mod_cast h2

/-- C30 (witness). Samples at 100, 104, 109 and 112 seconds on a new task, then one at 115: the
window holds the samples from 109 on. -/
theorem C30_window_after_record_witness :
    ((recordAll [(100, 0), (104, 10), (109, 20), (112, 30)]
        (DownloadTask.new "u")).recordSpeedSample 115 40).speedSamples
      = [(109, 20), (112, 30), (115, 40)] ∧
    ∀ a ∈ ((recordAll [(100, 0), (104, 10), (109, 20), (112, 30)]
        (DownloadTask.new "u")).recordSpeedSample 115 40).speedSamples, (115 : Int) - 10 ≤ a.1 :=
  ⟨by decide!,
    (C30_window_after_record [(100, 0), (104, 10), (109, 20), (112, 30)] (DownloadTask.new "u")
      115 40).2.2 (by decide!)⟩

end SDM
